import Mathlib

/-!
Shallow embedding of the statistics aggregation engine of
`process_data_file_for_metadata_health_api.py` (datacite-utils).

Conventions of the embedding:
* Python dicts are embedded as association lists `List (String × _)`;
  Python dict equality ignores insertion order, and every map the program
  builds has a fixed, schema-determined key list, so we fix one canonical
  key order (the textual order of the source's literals) and keep it
  through all operations.  Python `set` iteration order is unspecified but
  stable within a process; iterating `set(a) | set(b)` is embedded as
  `keys a ++ (keys b \ keys a)`, which realizes the same mapping.
* Python floats are embedded as `Rat`; every completeness the program
  stores is produced by a single division (or a 4-digit rounding of one),
  and no claim depends on binary rounding of that division.
* Python exceptions (`KeyError`, `AttributeError`, `TypeError`) abort the
  current record; the per-line handler in `FileProcessor.process_file`
  catches them and moves on, keeping all mutations made so far.  Fallible
  steps therefore return their partially-updated state together with an
  `ok : Bool` flag, and a failed flag makes the enclosing record update
  stop exactly where the exception would have propagated.
* `missing` is stored as `Int` (Python ints are signed and the code
  computes it by subtraction).
-/

/-- A parsed JSON value, as handed to the updater by `BatchGzipReader` /
`FileProcessor.get_fields`. -/
inductive Jval where
  | null : Jval
  | str (s : String) : Jval
  | num (n : Int) : Jval
  | list (xs : List Jval) : Jval
  | obj (kvs : List (String × Jval)) : Jval

/-- First-match association-list lookup: Python `d[k]` / `d.get(k)`. -/
def assocGet {α : Type} : List (String × α) → String → Option α
  | [], _ => none
  | (k', v) :: rest, k => if k' = k then some v else assocGet rest k

/-- Update the value at an existing key in place, keeping order; no-op when
the key is absent (callers that need `KeyError` use `assocModifyChk`). -/
def assocModify {α : Type} : List (String × α) → String → (α → α) → List (String × α)
  | [], _, _ => []
  | (k', v) :: rest, k, f =>
    if k' = k then (k', f v) :: rest else (k', v) :: assocModify rest k f

/-- Like `assocModify` but reports whether the key was present, which
embeds Python's `d[k] += …` raising `KeyError` on a missing key. -/
def assocModifyChk {α : Type} (l : List (String × α)) (k : String) (f : α → α) :
    List (String × α) × Bool :=
  if (assocGet l k).isSome then (assocModify l k f, true) else (l, false)

/-- Key list of an association list. -/
def keysOf {α : Type} (l : List (String × α)) : List String :=
  l.map Prod.fst

/-- Python truthiness for the JSON values the program sees. -/
def truthy : Jval → Bool
  | .null => false
  | .str s => s ≠ ""
  | .num n => n ≠ 0
  | .list xs => !xs.isEmpty
  | .obj kvs => !kvs.isEmpty

/-- Truthiness of a `d.get(k)` result (`None` when absent). -/
def truthyO : Option Jval → Bool
  | none => false
  | some v => truthy v

/-- `item.get(k)`: `AttributeError` (flag `false`) when `item` is not a
dict, otherwise the looked-up value (`none` for a missing key). -/
def jget (item : Jval) (k : String) : Option Jval × Bool :=
  match item with
  | .obj kvs => (assocGet kvs k, true)
  | _ => (none, false)

/-- `v in s` for a set of strings: `TypeError` (flag `false`) on an
unhashable value (list/dict), otherwise the membership result.  Hashable
non-strings are simply not members. -/
def jmem (v : Jval) (l : List String) : Bool × Bool :=
  match v with
  | .str s => (l.contains s, true)
  | .list _ => (false, false)
  | .obj _ => (false, false)
  | _ => (false, true)

/-! ## Schema registry (`StatsContainer.FIELD_STATUS` / `SUBFIELD_STATS`) -/

/-- `StatsContainer.FIELD_STATUS`, in source order. -/
def FIELD_STATUS : List (String × String) :=
  [("identifier", "mandatory"), ("creators", "mandatory"), ("titles", "mandatory"),
   ("publisher", "mandatory"), ("publicationYear", "mandatory"), ("resourceType", "mandatory"),
   ("subjects", "recommended"), ("contributors", "recommended"), ("date", "recommended"),
   ("relatedIdentifiers", "recommended"), ("description", "recommended"), ("geoLocations", "recommended"),
   ("language", "optional"), ("alternateIdentifiers", "optional"), ("sizes", "optional"),
   ("formats", "optional"), ("version", "optional"), ("rights", "optional"),
   ("fundingReferences", "optional"), ("relatedItems", "optional")]

/-- One subfield's configuration: a Python `set` of permitted values, or a
`{'scheme': bool}` presence marker. -/
inductive SubCfg where
  | enum (vals : List String) : SubCfg
  | presence (scheme : Bool) : SubCfg

/-- One field's entry in `SUBFIELD_STATS`: the `'multiple'` flag plus the
subfield entries in source order. -/
structure FieldCfg where
  multiple : Bool
  subs : List (String × SubCfg)

def nameIdentifierSchemeVals : List String := ["ORCID", "ROR", "ISNI"]

def affiliationIdentifierSchemeVals : List String := ["ROR", "GRID", "ISNI"]

def contributorTypeVals : List String :=
  ["ContactPerson", "DataCollector", "DataCurator", "DataManager",
   "Distributor", "Editor", "HostingInstitution", "Producer",
   "ProjectLeader", "ProjectManager", "ProjectMember", "RegistrationAgency",
   "RegistrationAuthority", "RelatedPerson", "Researcher", "ResearchGroup",
   "RightsHolder", "Sponsor", "Supervisor", "WorkPackageLeader", "Other"]

def resourceTypeGeneralVals : List String :=
  ["Audiovisual", "Book", "BookChapter", "Collection",
   "ComputationalNotebook", "ConferencePaper", "ConferenceProceeding",
   "Dataset", "Dissertation", "Event", "Image", "InteractiveResource",
   "Journal", "JournalArticle", "Model", "OutputManagementPlan",
   "PeerReview", "PhysicalObject", "Preprint", "Report", "Service",
   "Software", "Sound", "Standard", "Text", "Workflow", "Other",
   "Unknown"]

def relationTypeVals : List String :=
  ["IsCitedBy", "Cites", "IsSupplementTo", "IsSupplementedBy",
   "IsContinuedBy", "Continues", "IsDescribedBy", "Describes",
   "HasMetadata", "IsMetadataFor", "HasVersion", "IsVersionOf",
   "IsNewVersionOf", "IsPreviousVersionOf", "IsPartOf", "HasPart",
   "IsPublishedIn", "IsReferencedBy", "References", "IsDocumentedBy",
   "Documents", "IsCompiledBy", "Compiles", "IsVariantFormOf",
   "IsOriginalFormOf", "IsIdenticalTo", "IsReviewedBy", "Reviews",
   "IsDerivedFrom", "IsSourceOf", "Requires", "IsRequiredBy",
   "Obsoletes", "IsObsoletedBy"]

def relatedIdentifierTypeVals : List String :=
  ["ARK", "arXiv", "bibcode", "DOI", "EAN13", "EISSN",
   "Handle", "IGSN", "ISBN", "ISSN", "ISTC", "LISSN",
   "LSID", "PMID", "PURL", "UPC", "URL", "URN", "w3id"]

def funderIdentifierTypeVals : List String := ["Crossref Funder ID", "ROR", "Other"]

def nameTypeVals : List String := ["Personal", "Organizational"]

/-- `StatsContainer.SUBFIELD_STATS`, in source order.  Every `'scheme'`
marker in the source is `False`. -/
def SUBFIELD_STATS : List (String × FieldCfg) :=
  [("creators",
    ⟨true,
     [("nameType", .enum nameTypeVals),
      ("nameIdentifier", .presence false),
      ("nameIdentifierScheme", .enum nameIdentifierSchemeVals),
      ("affiliation", .presence false),
      ("affiliationIdentifier", .presence false),
      ("affiliationIdentifierScheme", .enum affiliationIdentifierSchemeVals)]⟩),
   ("contributors",
    ⟨true,
     [("contributorType", .enum contributorTypeVals),
      ("nameIdentifier", .presence false),
      ("nameIdentifierScheme", .enum nameIdentifierSchemeVals),
      ("affiliation", .presence false),
      ("affiliationIdentifier", .presence false),
      ("affiliationIdentifierScheme", .enum affiliationIdentifierSchemeVals)]⟩),
   ("resourceType",
    ⟨false, [("resourceTypeGeneral", .enum resourceTypeGeneralVals)]⟩),
   ("relatedIdentifiers",
    ⟨true,
     [("relationType", .enum relationTypeVals),
      ("relatedIdentifierType", .enum relatedIdentifierTypeVals),
      ("resourceTypeGeneral", .enum resourceTypeGeneralVals)]⟩),
   ("fundingReferences",
    ⟨true,
     [("funderName", .presence false),
      ("funderIdentifier", .presence false),
      ("funderIdentifierType", .enum funderIdentifierTypeVals),
      ("awardNumber", .presence false),
      ("awardURI", .presence false),
      ("awardTitle", .presence false)]⟩)]

/-! ## Statistics data model -/

/-- Per-subfield statistics (`create_empty_field_stats` inner dicts).
`values` is `some _` exactly when the subfield carries the per-value
counter dict. -/
structure SubStats where
  count : Nat
  instances : Nat
  missing : Int
  completeness : Rat
  values : Option (List (String × Nat))
deriving DecidableEq

/-- Per-field statistics.  `subfields` is `some _` exactly when the field
appears in `SUBFIELD_STATS`. -/
structure FieldStats where
  count : Nat
  instances : Nat
  fieldStatus : String
  completeness : Rat
  missing : Int
  subfields : Option (List (String × SubStats))
deriving DecidableEq

/-- The `categories` dict: one completeness per status class. -/
structure Categories where
  mandatory : Rat
  recommended : Rat
  optionalC : Rat
deriving DecidableEq

/-- One statistics tree: the `summary` dict, or one entry of
`byResourceType.resourceTypes`. -/
structure TreeStats where
  count : Nat
  fields : List (String × FieldStats)
  categories : Categories
deriving DecidableEq

/-- The whole `stats` object of one entity: `summary` plus the
`byResourceType.resourceTypes` map. -/
structure Stats where
  summary : TreeStats
  resourceTypes : List (String × TreeStats)
deriving DecidableEq

/-! ## Stats structure factory (`StatsContainer`) -/

/-- The empty per-subfield stats created by `create_empty_field_stats`:
an enumerated subfield gets every permitted value pre-populated at `0`;
a `{'scheme': …}` subfield gets a value map only when its `scheme` flag is
set and a `<name>Scheme` sibling exists (never, in this schema, since
every `scheme` flag is `False`). -/
def emptySubStats (cfgs : List (String × SubCfg)) (sub : String) (cfg : SubCfg) : SubStats :=
  match cfg with
  | .enum vals => ⟨0, 0, 0, 0, some (vals.map (fun v => (v, 0)))⟩
  | .presence scheme =>
    if scheme then
      match assocGet cfgs (sub ++ "Scheme") with
      | some (.enum vals) => ⟨0, 0, 0, 0, some (vals.map (fun v => (v, 0)))⟩
      | _ => ⟨0, 0, 0, 0, none⟩
    else ⟨0, 0, 0, 0, none⟩

/-- `StatsContainer.create_empty_field_stats`. -/
def create_empty_field_stats (fieldName fieldStatus : String) : FieldStats :=
  match assocGet SUBFIELD_STATS fieldName with
  | none => ⟨0, 0, fieldStatus, 0, 0, none⟩
  | some cfg =>
    ⟨0, 0, fieldStatus, 0, 0,
     some (cfg.subs.map (fun p => (p.1, emptySubStats cfg.subs p.1 p.2)))⟩

/-- All-zero `categories`. -/
def emptyCategories : Categories := ⟨0, 0, 0⟩

/-- The empty field map shared by `summary` and every resource type. -/
def emptyFields : List (String × FieldStats) :=
  FIELD_STATUS.map (fun p => (p.1, create_empty_field_stats p.1 p.2))

/-- `StatsContainer.create_empty_stats` (the `stats` payload). -/
def create_empty_stats : Stats :=
  { summary := ⟨0, emptyFields, emptyCategories⟩,
    resourceTypes :=
      resourceTypeGeneralVals.map (fun rt => (rt, ⟨0, emptyFields, emptyCategories⟩)) }

/-! ## Category metrics (`StatsUpdater.calculate_category_metrics`) -/

/-- One status class's accumulator from `calculate_category_metrics`:
`(Σ field.count, number of fields)` over the fields whose `fieldStatus`
equals `status`.  The source accumulates all three classes in one pass
over `fields.items()`; per class this is the fold below. -/
def catAccum (fields : List (String × FieldStats)) (status : String) : Nat × Nat :=
  fields.foldl
    (fun acc p => if p.2.fieldStatus = status then (acc.1 + p.2.count, acc.2 + 1) else acc)
    (0, 0)

/-- One class's completeness: `count / (total_dois × num_fields)` when the
denominator is positive, else `0.0`. -/
def catCompleteness (fields : List (String × FieldStats)) (totalDois : Nat)
    (status : String) : Rat :=
  let acc := catAccum fields status
  if totalDois * acc.2 > 0 then (acc.1 : Rat) / ((totalDois * acc.2 : Nat) : Rat) else 0

/-- `StatsUpdater.calculate_category_metrics`. -/
def calculate_category_metrics (fields : List (String × FieldStats)) (totalDois : Nat) :
    Categories :=
  ⟨catCompleteness fields totalDois "mandatory",
   catCompleteness fields totalDois "recommended",
   catCompleteness fields totalDois "optional"⟩

/-! ## Record updater (`StatsUpdater.update_stats_single_record` and
`update_subfield_stats`)

Each step returns its (possibly partially mutated) state together with an
`ok` flag; `false` is a raised exception, which the per-line handler of
`FileProcessor.process_file` turns into "skip the rest of this record". -/

abbrev SubMap := List (String × SubStats)

/-- State of the `for item in field_value` loop: the field's subfield
stats plus the `seen_subfields` set. -/
abbrev SubState := SubMap × List String

/-- Sequence a fallible step after a fallible result, keeping the state of
a failed prefix (an exception propagates, mutations stay). -/
def stepSeq {σ : Type} (a : σ × Bool) (f : σ → σ × Bool) : σ × Bool :=
  if a.2 then f a.1 else a

/-- `if subfield not in seen: subfields[subfield]['count'] += 1; seen.add`. -/
def bumpCountSeen (sf : String) (st : SubState) : SubState × Bool :=
  if st.2.contains sf then (st, true)
  else
    match assocModifyChk st.1 sf (fun ss => { ss with count := ss.count + 1 }) with
    | (m, true) => ((m, sf :: st.2), true)
    | (_, false) => (st, false)

/-- `subfields[subfield]['instances'] += n`. -/
def bumpInst (sf : String) (n : Nat) (st : SubState) : SubState × Bool :=
  match assocModifyChk st.1 sf (fun ss => { ss with instances := ss.instances + n }) with
  | (m, true) => ((m, st.2), true)
  | (_, false) => (st, false)

/-- `subfields[subfield]['values'][v] += 1` (`KeyError` when the subfield,
its value dict, or the value key is absent). -/
def bumpVal (subs : SubMap) (sf : String) (v : String) : SubMap × Bool :=
  match assocGet subs sf with
  | none => (subs, false)
  | some ss =>
    match ss.values with
    | none => (subs, false)
    | some vals =>
      match assocModifyChk vals v (· + 1) with
      | (_, false) => (subs, false)
      | (vals2, true) =>
        (assocModify subs sf (fun s0 => { s0 with values := some vals2 }), true)

/-- Like `bumpVal` with a JSON key: a non-string key is never present in a
value dict (all pre-populated keys are strings), so it raises. -/
def bumpValJ (subs : SubMap) (sf : String) (v : Jval) : SubMap × Bool :=
  match v with
  | .str s => bumpVal subs sf s
  | _ => (subs, false)

/-- The `fundingReferences` branch of the item loop, for one subfield of
one occurrence. -/
def frStep (sf : String) (cfg : SubCfg) (item : Jval) (st : SubState) : SubState × Bool :=
  match jget item sf with
  | (_, false) => (st, false)
  | (v?, true) =>
    match v? with
    | some v =>
      if truthy v then
        stepSeq (bumpCountSeen sf st) (fun st1 =>
        stepSeq (bumpInst sf 1 st1) (fun st2 =>
          match cfg with
          | .enum vals =>
            match v with
            | .str s =>
              let s2 := if vals.contains s then s else "Other"
              let r := bumpVal st2.1 sf s2
              ((r.1, st2.2), r.2)
            | .num _ =>
              let r := bumpVal st2.1 sf "Other"
              ((r.1, st2.2), r.2)
            | _ => (st2, false)
          | .presence _ => (st2, true)))
      else (st, true)
    | none => (st, true)

/-- The `nameType` branch of the item loop. -/
def ntStep (item : Jval) (st : SubState) : SubState × Bool :=
  match jget item "nameType" with
  | (_, false) => (st, false)
  | (v?, true) =>
    let v := v?.getD (.str "")
    if truthy v then
      stepSeq (bumpCountSeen "nameType" st) (fun st1 =>
      stepSeq (bumpInst "nameType" 1 st1) (fun st2 =>
        let r := bumpValJ st2.1 "nameType" v
        ((r.1, st2.2), r.2)))
    else (st, true)

/-- The `nameIdentifier` branch of the item loop (also populates the
`nameIdentifierScheme` subfield). -/
def niStep (cfgSubs : List (String × SubCfg)) (item : Jval) (st : SubState) : SubState × Bool :=
  match jget item "nameIdentifiers" with
  | (_, false) => (st, false)
  | (v?, true) =>
    let ids := v?.getD (.list [])
    if truthy ids then
      let idsL := match ids with | .list xs => xs | other => [other]
      stepSeq (bumpCountSeen "nameIdentifier" st) (fun st1 =>
      stepSeq (bumpInst "nameIdentifier" idsL.length st1) (fun st2 =>
        idsL.foldl (fun acc identifier =>
          stepSeq acc (fun stA =>
            match jget identifier "nameIdentifierScheme" with
            | (_, false) => (stA, false)
            | (s?, true) =>
              match s? with
              | some sv =>
                if truthy sv then
                  match assocGet cfgSubs "nameIdentifierScheme" with
                  | some (.enum vals) =>
                    match jmem sv vals with
                    | (_, false) => (stA, false)
                    | (true, true) =>
                      stepSeq (bumpCountSeen "nameIdentifierScheme" stA) (fun stB =>
                      stepSeq (bumpInst "nameIdentifierScheme" 1 stB) (fun stC =>
                        let r := bumpValJ stC.1 "nameIdentifierScheme" sv
                        ((r.1, stC.2), r.2)))
                    | (false, true) => (stA, true)
                  | _ => (stA, false)
                else (stA, true)
              | none => (stA, true)))
          (st2, true)))
    else (st, true)

/-- The `affiliation` branch of the item loop (also populates
`affiliationIdentifier` and `affiliationIdentifierScheme`).  Non-dict
occurrence entries are skipped by the `isinstance` guard. -/
def affStep (cfgSubs : List (String × SubCfg)) (item : Jval) (st : SubState) : SubState × Bool :=
  match jget item "affiliation" with
  | (_, false) => (st, false)
  | (v?, true) =>
    let affs := v?.getD (.list [])
    if truthy affs then
      let affsL := match affs with | .list xs => xs | other => [other]
      stepSeq (bumpCountSeen "affiliation" st) (fun st1 =>
      stepSeq (bumpInst "affiliation" affsL.length st1) (fun st2 =>
        affsL.foldl (fun acc aff =>
          stepSeq acc (fun stA =>
            match aff with
            | .obj kvs =>
              let ident := assocGet kvs "affiliationIdentifier"
              if truthyO ident then
                stepSeq (bumpCountSeen "affiliationIdentifier" stA) (fun stB =>
                stepSeq (bumpInst "affiliationIdentifier" 1 stB) (fun stC =>
                  let scheme := assocGet kvs "affiliationIdentifierScheme"
                  match scheme with
                  | some sv =>
                    if truthy sv then
                      match assocGet cfgSubs "affiliationIdentifierScheme" with
                      | some (.enum vals) =>
                        match jmem sv vals with
                        | (_, false) => (stC, false)
                        | (true, true) =>
                          stepSeq (bumpCountSeen "affiliationIdentifierScheme" stC) (fun stD =>
                          stepSeq (bumpInst "affiliationIdentifierScheme" 1 stD) (fun stE =>
                            let r := bumpValJ stE.1 "affiliationIdentifierScheme" sv
                            ((r.1, stE.2), r.2)))
                        | (false, true) => (stC, true)
                      | _ => (stC, false)
                    else (stC, true)
                  | none => (stC, true)))
              else (stA, true)
            | _ => (stA, true)))
          (st2, true)))
    else (st, true)

/-- The `contributorType`/`relationType`/`relatedIdentifierType`/
`resourceTypeGeneral` branch: counted only when the observed value is in
the permitted set (`if value and value in expected_values`).  A
`{'scheme': …}` configuration would test membership among the dict's keys;
that combination does not occur in the schema. -/
def etVals : SubCfg → List String
  | .enum vs => vs
  | .presence _ => ["scheme"]

def etStep (sf : String) (cfg : SubCfg) (item : Jval) (st : SubState) : SubState × Bool :=
  let vals := etVals cfg
  match jget item sf with
  | (_, false) => (st, false)
  | (v?, true) =>
    match v? with
    | some v =>
      if truthy v then
        match jmem v vals with
        | (_, false) => (st, false)
        | (true, true) =>
          stepSeq (bumpCountSeen sf st) (fun st1 =>
          stepSeq (bumpInst sf 1 st1) (fun st2 =>
            let r := bumpValJ st2.1 sf v
            ((r.1, st2.2), r.2)))
        | (false, true) => (st, true)
      else (st, true)
    | none => (st, true)

/-- Dispatch of the item loop's `elif` chain on one subfield name.
Subfields matching no branch (`nameIdentifierScheme`,
`affiliationIdentifier`, `affiliationIdentifierScheme` as loop variables)
do nothing; they are filled by the `nameIdentifier`/`affiliation`
branches. -/
def itemSubfieldStep (fieldName : String) (cfgSubs : List (String × SubCfg))
    (sf : String) (cfg : SubCfg) (item : Jval) (st : SubState) : SubState × Bool :=
  if fieldName = "fundingReferences" then frStep sf cfg item st
  else if sf = "nameType" then ntStep item st
  else if sf = "nameIdentifier" then niStep cfgSubs item st
  else if sf = "affiliation" then affStep cfgSubs item st
  else if ["contributorType", "relationType", "relatedIdentifierType",
           "resourceTypeGeneral"].contains sf then etStep sf cfg item st
  else (st, true)

/-- The inner loop `for subfield in config` over one occurrence. -/
def processOneItem (fieldName : String) (cfgSubs : List (String × SubCfg))
    (item : Jval) (st0 : SubState) : SubState × Bool :=
  cfgSubs.foldl
    (fun acc2 p => stepSeq acc2 (itemSubfieldStep fieldName cfgSubs p.1 p.2 item))
    (st0, true)

/-- The double loop `for item in field_value: for subfield in config`. -/
def processItems (fieldName : String) (cfgSubs : List (String × SubCfg))
    (items : List Jval) (st : SubState) : SubState × Bool :=
  items.foldl
    (fun acc item => stepSeq acc (fun st0 => processOneItem fieldName cfgSubs item st0))
    (st, true)

/-- Recompute one subfield's `missing`/`completeness` against the current
denominator. -/
def recomputeSub (totalDois : Nat) (ss : SubStats) : SubStats :=
  { ss with
    missing := (totalDois : Int) - (ss.count : Int),
    completeness := if totalDois > 0 then (ss.count : Rat) / (totalDois : Rat) else 0 }

/-- The final recompute loop of the list branch.  The source iterates the
field's configured subfields and guards on presence in
`field_stats['subfields']`; on factory-shaped stats those are exactly the
map's entries. -/
def recomputeSubs (totalDois : Nat) (subs : SubMap) : SubMap :=
  subs.map (fun p => (p.1, recomputeSub totalDois p.2))

/-- The `values[value] += 1` step of the non-list branch: applied only
when the subfield carries a value dict; a non-string observed value is
not among the (string) keys, so it raises. -/
def nonListWithVals (ss : SubStats) (x : Jval) (subs1 : SubMap) (sf : String) :
    SubMap × Bool :=
  match ss.values with
  | none => (subs1, true)
  | some _ =>
    match x with
    | .str s => bumpVal subs1 sf s
    | _ => (subs1, false)

/-- `count += 1; instances += 1` on one subfield entry (non-list
branch). -/
def nonListBump (subs : SubMap) (sf : String) : SubMap :=
  assocModify subs sf (fun s0 => { s0 with count := s0.count + 1, instances := s0.instances + 1 })

/-- The counting core of the non-list branch, reached once the subfield's
value passed the truthiness/membership guard: bump `count`/`instances`,
the value counter when a value dict exists, then recompute that
subfield's `missing`/`completeness`. -/
def nonListSubApply (totalDois : Nat) (x : Jval) (sf : String) (fs : FieldStats) :
    FieldStats × Bool :=
  match fs.subfields with
  | none => (fs, false)
  | some subs =>
    match assocGet subs sf with
    | none => (fs, true)
    | some ss =>
      match nonListWithVals ss x (nonListBump subs sf) sf with
      | (subs2, true) =>
        let subs3 := assocModify subs2 sf (recomputeSub totalDois)
        ({ fs with subfields := some subs3 }, true)
      | (subs2, false) => ({ fs with subfields := some subs2 }, false)

/-- One subfield of the non-list (singular composite) branch of
`update_subfield_stats`: the guard
`value and (isinstance(expected_values, dict) or value in expected_values)`
followed by the counting core. -/
def nonListSubStep (totalDois : Nat) (v : Jval) (sf : String) (cfg : SubCfg)
    (fs : FieldStats) : FieldStats × Bool :=
  match jget v sf with
  | (_, false) => (fs, false)
  | (x?, true) =>
    match x? with
    | none => (fs, true)
    | some x =>
      if truthy x then
        let pass : Bool × Bool :=
          match cfg with
          | .presence _ => (true, true)
          | .enum vals => jmem x vals
        if !pass.2 then (fs, false)
        else if pass.1 then nonListSubApply totalDois x sf fs
        else (fs, true)
      else (fs, true)

/-- The list (repeatable composite) branch of `update_subfield_stats`,
entered after `instances += len(field_value)`: the item loop, then (when
no exception was raised) the `missing`/`completeness` recompute over the
field's subfields. -/
def listSubApply (fieldName : String) (cfgSubs : List (String × SubCfg)) (xs : List Jval)
    (totalDois : Nat) (fs1 : FieldStats) : FieldStats × Bool :=
  match fs1.subfields with
  | none => (fs1, false)
  | some subs =>
    match processItems fieldName cfgSubs xs (subs, []) with
    | (st, true) => ({ fs1 with subfields := some (recomputeSubs totalDois st.1) }, true)
    | (st, false) => ({ fs1 with subfields := some st.1 }, false)

/-- `StatsUpdater.update_subfield_stats`, acting on the stats of the one
field it touches (`field_stats`), with the owning tree's record count as
`totalDois`. -/
def update_subfield_stats (fieldValue : Jval) (fieldName : String)
    (fs : FieldStats) (totalDois : Nat) : FieldStats × Bool :=
  if !truthy fieldValue then (fs, true)
  else
    match assocGet SUBFIELD_STATS fieldName with
    | none => (fs, true)
    | some cfg =>
      match fieldValue with
      | .list xs =>
        listSubApply fieldName cfg.subs xs totalDois
          { fs with instances := fs.instances + xs.length }
      | v =>
        if fieldName = "fundingReferences" then (fs, true)
        else
          let fs1 := { fs with instances := fs.instances + 1 }
          cfg.subs.foldl (fun acc p => stepSeq acc (nonListSubStep totalDois v p.1 p.2))
            (fs1, true)

/-- The `update_field_stats` helper inside `update_stats_single_record`:
count presence, and instances for fields without subfield tracking.  The
scalar branch's `not in (None, '')` test is implied by truthiness. -/
def update_field_stats (fieldValue : Option Jval) (hasSub : Bool) (fs : FieldStats) :
    FieldStats :=
  match fieldValue with
  | none => fs
  | some v =>
    if !truthy v then fs
    else
      match v with
      | .list xs =>
        { fs with count := fs.count + 1,
                  instances := if hasSub then fs.instances else fs.instances + xs.length }
      | _ =>
        { fs with count := fs.count + 1,
                  instances := if hasSub then fs.instances else fs.instances + 1 }

/-- Recompute one field's `missing`/`completeness` against the current
denominator (lines following the per-field update). -/
def recomputeField (totalDois : Nat) (fs : FieldStats) : FieldStats :=
  { fs with
    missing := (totalDois : Int) - (fs.count : Int),
    completeness := if totalDois > 0 then (fs.count : Rat) / (totalDois : Rat) else 0 }

/-- The presence counting and subfield dispatch of the per-field loop for
one field: `update_field_stats`, then `update_subfield_stats` when the
field is tracked and its value truthy. -/
def updOneFieldStep (record : List (String × Jval)) (totalDois : Nat)
    (name : String) (fs : FieldStats) : FieldStats × Bool :=
  match assocGet record name with
  | some v =>
    if (assocGet SUBFIELD_STATS name).isSome && truthy v then
      update_subfield_stats v name
        (update_field_stats (some v) (assocGet SUBFIELD_STATS name).isSome fs) totalDois
    else (update_field_stats (some v) (assocGet SUBFIELD_STATS name).isSome fs, true)
  | none => (update_field_stats none (assocGet SUBFIELD_STATS name).isSome fs, true)

/-- The body of the per-field loop for one field: presence counting and
subfield dispatch, then the `missing`/`completeness` recompute — the
recompute is skipped when the subfield dispatch raised. -/
def updOneField (record : List (String × Jval)) (totalDois : Nat)
    (name : String) (fs : FieldStats) : FieldStats × Bool :=
  match updOneFieldStep record totalDois name fs with
  | (fs2, true) => (recomputeField totalDois fs2, true)
  | (fs2, false) => (fs2, false)

/-- The per-field loop.  The source iterates `FIELD_STATUS` and updates
`fields[field_name]`; every tree the program builds carries exactly the
`FIELD_STATUS` keys in that order, so this equals updating each entry of
the field map in order.  An exception stops the loop, keeping the entries
already updated. -/
def updFields (record : List (String × Jval)) (totalDois : Nat) :
    List (String × FieldStats) → List (String × FieldStats) × Bool
  | [] => ([], true)
  | (name, fs) :: rest =>
    match updOneField record totalDois name fs with
    | (fs2, true) =>
      let r := updFields record totalDois rest
      ((name, fs2) :: r.1, r.2)
    | (fs2, false) => ((name, fs2) :: rest, false)

/-- The resource type of a record, as extracted by
`update_stats_single_record`: `resourceType.resourceTypeGeneral` when the
field is a dict, the field itself when it is a string. -/
def extractResourceType (record : List (String × Jval)) : Option Jval :=
  match assocGet record "resourceType" with
  | some v =>
    if truthy v then
      match v with
      | .obj kvs => assocGet kvs "resourceTypeGeneral"
      | .str s => some (.str s)
      | _ => none
    else none
  | none => none

/-- The resource-type section of `update_stats_single_record`, reached
when the summary section raised no exception.  The
`resource_type in resourceTypes` test raises `TypeError` on an unhashable
extracted value. -/
def updRTSection (s : Stats) (record : List (String × Jval)) (summary2 : TreeStats) :
    Stats × Bool :=
  match extractResourceType record with
  | none => (⟨summary2, s.resourceTypes⟩, true)
  | some rv =>
    if truthy rv then
      match rv with
      | .str rt =>
        match assocGet s.resourceTypes rt with
        | none => (⟨summary2, s.resourceTypes⟩, true)
        | some tt =>
          match updFields record (tt.count + 1) tt.fields with
          | (tf, true) =>
            (⟨summary2,
              assocModify s.resourceTypes rt
                (fun _ => ⟨tt.count + 1, tf,
                  calculate_category_metrics tf (tt.count + 1)⟩)⟩, true)
          | (tf, false) =>
            (⟨summary2,
              assocModify s.resourceTypes rt
                (fun t0 => ⟨tt.count + 1, tf, t0.categories⟩)⟩, false)
      | .list _ => (⟨summary2, s.resourceTypes⟩, false)
      | .obj _ => (⟨summary2, s.resourceTypes⟩, false)
      | _ => (⟨summary2, s.resourceTypes⟩, true)
    else (⟨summary2, s.resourceTypes⟩, true)

/-- `StatsUpdater.update_stats_single_record`.  The summary section runs
first; an exception there leaves the incremented record count and the
partially updated fields and skips the categories recompute and the whole
resource-type section. -/
def update_stats_single_record (s : Stats) (record : List (String × Jval)) : Stats × Bool :=
  match updFields record (s.summary.count + 1) s.summary.fields with
  | (fields2, false) =>
    ({ s with summary :=
        { s.summary with count := s.summary.count + 1, fields := fields2 } }, false)
  | (fields2, true) =>
    updRTSection s record
      ⟨s.summary.count + 1, fields2,
       calculate_category_metrics fields2 (s.summary.count + 1)⟩

/-- Fold a record sequence into a tree the way `process_file` does: a
record whose update raises is abandoned mid-way (its partial mutations
stay) and processing continues with the next record. -/
def applyRecords (s : Stats) (rs : List (List (String × Jval))) : Stats :=
  rs.foldl (fun t r => (update_stats_single_record t r).1) s

/-- All records of the sequence were folded without an exception. -/
def recordsOk (s : Stats) : List (List (String × Jval)) → Bool
  | [] => true
  | r :: rest =>
    let u := update_stats_single_record s r
    u.2 && recordsOk u.1 rest

/-! ## Tree merger (`StatsUpdater.merge_fields` / `merge_stats`) -/

/-- Iterating `set(keys a) | set(keys b)`: Python set order is
unspecified and dict equality ignores it, so the union is canonicalized as
"keys of `a`, then new keys of `b`". -/
def unionKeys (k1 k2 : List String) : List String :=
  k1 ++ k2.filter (fun k => !k1.contains k)

/-- Python `max` over a sequence of ints; `merge_fields` only applies it
to the nonempty sequence of per-field sums. -/
def listMaxI : List Int → Int
  | [] => 0
  | x :: xs => xs.foldl max x

/-- `fields.get(field, {}).get('count', 0) + …get('missing', 0)`. -/
def cmOf (f : List (String × FieldStats)) (k : String) : Int :=
  match assocGet f k with
  | some fs => (fs.count : Int) + fs.missing
  | none => 0

/-- Merge two value-counter dicts over the union of their keys. -/
def mergeValues (v1 v2 : List (String × Nat)) : List (String × Nat) :=
  (unionKeys (keysOf v1) (keysOf v2)).map
    (fun k => (k, ((assocGet v1 k).getD 0) + ((assocGet v2 k).getD 0)))

/-- `'values' in subfield_stats1 or 'values' in subfield_stats2`: merge
the value dicts when either side carries one. -/
def mergeValsOpt (w1 w2 : Option (List (String × Nat))) : Option (List (String × Nat)) :=
  match w1, w2 with
  | none, none => none
  | v1, v2 => some (mergeValues (v1.getD []) (v2.getD []))

/-- Merge one subfield's stats (missing side defaults to
`{'count': 0, 'instances': 0}`), recomputing `missing`/`completeness`
against the merged denominator `T`. -/
def mergeSubOne (T : Int) (o1 o2 : Option SubStats) : SubStats :=
  { count := ((o1.map (fun s => s.count)).getD 0) + ((o2.map (fun s => s.count)).getD 0),
    instances := ((o1.map (fun s => s.instances)).getD 0) +
                 ((o2.map (fun s => s.instances)).getD 0),
    missing := T - ((((o1.map (fun s => s.count)).getD 0) +
      ((o2.map (fun s => s.count)).getD 0) : Nat) : Int),
    completeness := if T > 0 then
      ((((o1.map (fun s => s.count)).getD 0) +
        ((o2.map (fun s => s.count)).getD 0) : Nat) : Rat) / (T : Rat) else 0,
    values := mergeValsOpt (o1.bind (fun s => s.values)) (o2.bind (fun s => s.values)) }

/-- `'subfields' in field_stats1 or 'subfields' in field_stats2`:
recursively merge the subfield maps (over the union of subfield keys)
when either side carries one. -/
def mergeSubfields (T : Int) (s1 s2 : Option (List (String × SubStats))) :
    Option (List (String × SubStats)) :=
  match s1, s2 with
  | none, none => none
  | w1, w2 =>
    some ((unionKeys (keysOf (w1.getD [])) (keysOf (w2.getD []))).map
      (fun k => (k, mergeSubOne T (assocGet (w1.getD []) k) (assocGet (w2.getD []) k))))

/-- `fieldStatus` comes from whichever side defines it (`""` embeds
Python's `None` for the impossible neither-side case). -/
def mergeStatus (o1 o2 : Option FieldStats) : String :=
  match o1 with
  | some fs => fs.fieldStatus
  | none => match o2 with | some fs => fs.fieldStatus | none => ""

/-- Merge one field's stats. -/
def mergeFieldOne (T : Int) (o1 o2 : Option FieldStats) : FieldStats :=
  { count := ((o1.map (fun s => s.count)).getD 0) + ((o2.map (fun s => s.count)).getD 0),
    instances := ((o1.map (fun s => s.instances)).getD 0) +
                 ((o2.map (fun s => s.instances)).getD 0),
    fieldStatus := mergeStatus o1 o2,
    missing := T - ((((o1.map (fun s => s.count)).getD 0) +
      ((o2.map (fun s => s.count)).getD 0) : Nat) : Int),
    completeness := if T > 0 then
      ((((o1.map (fun s => s.count)).getD 0) +
        ((o2.map (fun s => s.count)).getD 0) : Nat) : Rat) / (T : Rat) else 0,
    subfields := mergeSubfields T (o1.bind (fun s => s.subfields))
      (o2.bind (fun s => s.subfields)) }

/-- `StatsUpdater.merge_fields`.  The denominator is the maximum over the
key union of `count₁ + missing₁ + count₂ + missing₂`. -/
def merge_fields (f1 f2 : List (String × FieldStats)) : List (String × FieldStats) :=
  if f1.isEmpty then f2
  else if f2.isEmpty then f1
  else
    let allKeys := unionKeys (keysOf f1) (keysOf f2)
    let T := listMaxI (allKeys.map (fun k => cmOf f1 k + cmOf f2 k))
    allKeys.map (fun k => (k, mergeFieldOne T (assocGet f1 k) (assocGet f2 k)))

/-- One resource type's merged tree inside `merge_stats`. -/
def mergeRTOne (rts1 rts2 : List (String × TreeStats)) (rt : String) : TreeStats :=
  let t1 := assocGet rts1 rt
  let t2 := assocGet rts2 rt
  let c := ((t1.map (fun t => t.count)).getD 0) + ((t2.map (fun t => t.count)).getD 0)
  let tf := merge_fields ((t1.map (fun t => t.fields)).getD [])
                         ((t2.map (fun t => t.fields)).getD [])
  ⟨c, tf, calculate_category_metrics tf c⟩

/-- `StatsUpdater.merge_stats`.  Its `if not statsN` guards fire only on
an empty dict, which no caller ever passes (both sides are always
`{'stats': …}` objects), so they are not modelled. -/
def merge_stats (s1 s2 : Stats) : Stats :=
  let sumCount := s1.summary.count + s2.summary.count
  let mf := merge_fields s1.summary.fields s2.summary.fields
  let rts := (unionKeys (keysOf s1.resourceTypes) (keysOf s2.resourceTypes)).map
    (fun rt => (rt, mergeRTOne s1.resourceTypes s2.resourceTypes rt))
  ⟨⟨sumCount, mf, calculate_category_metrics mf sumCount⟩, rts⟩

/-! ## Finalization (`StatsContainer.remove_zero_count_resource_types_and_clean`
and the driver steps of `DataCiteDataFileProcessor.run`) -/

/-- Keep only the value counters that are strictly positive
(`clean_subfields` inner comprehension). -/
def cleanValuesMap (vals : List (String × Nat)) : List (String × Nat) :=
  vals.filter (fun p => p.2 > 0)

/-- One subfield's stats with its zero-count values dropped. -/
def cleanSubVal (ss : SubStats) : SubStats :=
  match ss.values with
  | none => ss
  | some vals => { ss with values := some (cleanValuesMap vals) }

/-- One field's stats with every subfield's zero-count values dropped. -/
def cleanFieldEntry (fs : FieldStats) : FieldStats :=
  match fs.subfields with
  | none => fs
  | some subs => { fs with subfields := some (subs.map (fun q => (q.1, cleanSubVal q.2))) }

/-- `clean_subfields`: drop zero-count enumerated values from every
subfield of every field. -/
def cleanSubfieldsOf (fields : List (String × FieldStats)) : List (String × FieldStats) :=
  fields.map (fun p => (p.1, cleanFieldEntry p.2))

/-- 4-digit rounding of a completeness value.  Python `round` on a float
is banker's rounding in binary; the claims never depend on the tie
behavior, so half-up rational rounding stands in for it. -/
def round4 (q : Rat) : Rat := ((round (q * 10000) : Int) : Rat) / 10000

def roundSubC (ss : SubStats) : SubStats :=
  { ss with completeness := round4 ss.completeness }

def roundFieldC (fs : FieldStats) : FieldStats :=
  { fs with
    completeness := round4 fs.completeness,
    subfields := fs.subfields.map (fun subs => subs.map (fun p => (p.1, roundSubC p.2))) }

def roundCatsC (c : Categories) : Categories :=
  ⟨round4 c.mandatory, round4 c.recommended, round4 c.optionalC⟩

def roundTreeC (t : TreeStats) : TreeStats :=
  ⟨t.count, t.fields.map (fun p => (p.1, roundFieldC p.2)), roundCatsC t.categories⟩

/-- `_round_completeness_values`: round every `completeness` in the
structure, touching nothing else. -/
def roundStatsC (s : Stats) : Stats :=
  ⟨roundTreeC s.summary, s.resourceTypes.map (fun p => (p.1, roundTreeC p.2))⟩

/-- `StatsContainer.remove_zero_count_resource_types_and_clean`: prune
zero-count resource types, drop zero value counters everywhere, round
completeness values. -/
def remove_zero_count_resource_types_and_clean (s : Stats) : Stats :=
  let rts := s.resourceTypes.filter (fun p => p.2.count > 0)
  let summary2 := { s.summary with fields := cleanSubfieldsOf s.summary.fields }
  let rts2 := rts.map (fun p => (p.1, { p.2 with fields := cleanSubfieldsOf p.2.fields }))
  roundStatsC ⟨summary2, rts2⟩

/-- One provider or client as the final driver stage sees it (attributes
and relationships carry no statistics and are omitted). -/
structure Entity where
  id : String
  stats : Stats
deriving DecidableEq

/-- `ProviderClientManager.filter_active_only` for one collection. -/
def filter_active_only (es : List Entity) : List Entity :=
  es.filter (fun e => e.stats.summary.count > 0)

/-- The aggregator fold of `create_aggregate_entries`: merge every
surviving entity's stats into a fresh empty tree. -/
def aggregate_stats (es : List Entity) : Stats :=
  es.foldl (fun acc e => merge_stats acc e.stats) create_empty_stats

/-- The final stage of `DataCiteDataFileProcessor.run` on one collection:
`filter_active_only`, then `create_aggregate_entries` (the synthetic
entity — id `"aggregate"` for providers, `"aggregate.all"` for clients —
is appended after filtering), then `clean_resource_types`. -/
def finalize_entities (aggId : String) (es : List Entity) : List Entity :=
  let active := filter_active_only es
  let withAgg := active ++ [⟨aggId, aggregate_stats active⟩]
  withAgg.map (fun e => ⟨e.id, remove_zero_count_resource_types_and_clean e.stats⟩)

/-! ## Well-formedness predicates

Every tree the program builds starts from `create_empty_stats` and is then
transformed by the updater and the merger; its maps always carry the
schema-determined key lists.  `…Shape` captures that key discipline,
`…Consistent` the `missing`/`completeness` recompute discipline. -/

/-- The status of a schema field. -/
def statusOf (name : String) : String := (assocGet FIELD_STATUS name).getD ""

/-- The value-dict keys a subfield configuration pre-populates (the
`scheme` flag is `False` throughout this schema, so presence subfields
carry no value dict). -/
def cfgValKeys : SubCfg → Option (List String)
  | .enum vals => some vals
  | .presence _ => none

/-- The subfield keys of a schema field, when it is tracked. -/
def cfgSubKeys (name : String) : Option (List String) :=
  (assocGet SUBFIELD_STATS name).map (fun cfg => keysOf cfg.subs)

/-- The configuration of one subfield of one field. -/
def cfgOfSub (name sub : String) : Option SubCfg :=
  (assocGet SUBFIELD_STATS name).bind (fun cfg => assocGet cfg.subs sub)

/-- The subfield map of field `name` has the schema's subfield keys and
value-dict keys. -/
def subsShapeFor (name : String) (subs : SubMap) : Prop :=
  keysOf subs = (cfgSubKeys name).getD [] ∧
  ∀ p ∈ subs, Option.map keysOf p.2.values = (cfgOfSub name p.1).bind cfgValKeys

/-- One field's stats match the schema: status, subfield keys, value
keys. -/
def FieldShape (name : String) (fs : FieldStats) : Prop :=
  fs.fieldStatus = statusOf name ∧
  Option.map keysOf fs.subfields = cfgSubKeys name ∧
  ∀ p ∈ fs.subfields.getD [], Option.map keysOf p.2.values = (cfgOfSub name p.1).bind cfgValKeys

/-- A field map with the schema's keys and per-field shapes. -/
def FieldsShape (fields : List (String × FieldStats)) : Prop :=
  keysOf fields = keysOf FIELD_STATUS ∧ ∀ p ∈ fields, FieldShape p.1 p.2

def TreeShape (t : TreeStats) : Prop := FieldsShape t.fields

def StatsShape (s : Stats) : Prop :=
  TreeShape s.summary ∧ keysOf s.resourceTypes = resourceTypeGeneralVals ∧
  ∀ p ∈ s.resourceTypes, TreeShape p.2

instance (name : String) (subs : SubMap) : Decidable (subsShapeFor name subs) := by
  unfold subsShapeFor; infer_instance

instance (name : String) (fs : FieldStats) : Decidable (FieldShape name fs) := by
  unfold FieldShape; infer_instance

instance (fields : List (String × FieldStats)) : Decidable (FieldsShape fields) := by
  unfold FieldsShape; infer_instance

instance (t : TreeStats) : Decidable (TreeShape t) := by
  unfold TreeShape; infer_instance

instance (s : Stats) : Decidable (StatsShape s) := by
  unfold StatsShape; infer_instance

/-- `count + missing = recordCount` (as `missing = rc − count`) and the
completeness equation, for one field or subfield stats record. -/
def fieldConsistent (rc : Nat) (fs : FieldStats) : Prop :=
  fs.missing = (rc : Int) - (fs.count : Int) ∧
  fs.completeness = (if 0 < rc then (fs.count : Rat) / (rc : Rat) else 0)

def subConsistent (rc : Nat) (ss : SubStats) : Prop :=
  ss.missing = (rc : Int) - (ss.count : Int) ∧
  ss.completeness = (if 0 < rc then (ss.count : Rat) / (rc : Rat) else 0)

/-- Field-level denominator consistency of one tree. -/
def treeConsistent (t : TreeStats) : Prop := ∀ p ∈ t.fields, fieldConsistent t.count p.2

/-- Field-level denominator consistency of a whole stats object. -/
def statsConsistent (s : Stats) : Prop :=
  treeConsistent s.summary ∧ ∀ p ∈ s.resourceTypes, treeConsistent p.2

/-- Field- and subfield-level consistency plus the categories equation of
one tree. -/
def treeFullConsistent (t : TreeStats) : Prop :=
  treeConsistent t ∧
  (∀ p ∈ t.fields, ∀ q ∈ p.2.subfields.getD [], subConsistent t.count q.2) ∧
  t.categories = calculate_category_metrics t.fields t.count

def statsFullConsistent (s : Stats) : Prop :=
  treeFullConsistent s.summary ∧ ∀ p ∈ s.resourceTypes, treeFullConsistent p.2

instance (rc : Nat) (fs : FieldStats) : Decidable (fieldConsistent rc fs) := by
  unfold fieldConsistent; infer_instance

instance (rc : Nat) (ss : SubStats) : Decidable (subConsistent rc ss) := by
  unfold subConsistent; infer_instance

instance (t : TreeStats) : Decidable (treeConsistent t) := by
  unfold treeConsistent; infer_instance

instance (s : Stats) : Decidable (statsConsistent s) := by
  unfold statsConsistent; infer_instance

instance (t : TreeStats) : Decidable (treeFullConsistent t) := by
  unfold treeFullConsistent; infer_instance

instance (s : Stats) : Decidable (statsFullConsistent s) := by
  unfold statsFullConsistent; infer_instance

/-- The denominator `merge_fields` computes, before it is shown to equal
the merged record count. -/
def mergeT (f1 f2 : List (String × FieldStats)) (K : List String) : Int :=
  listMaxI (K.map (fun k => cmOf f1 k + cmOf f2 k))

/-! ## Claim C1 -/

/-- Observer: the summary-tree stats of one subfield of one field. -/
def subStatOf (s : Stats) (field sub : String) : Option SubStats :=
  (assocGet s.summary.fields field).bind
    (fun fs => fs.subfields.bind (fun subs => assocGet subs sub))

/-- A record whose `creators` list exposes the `nameType` subfield. -/
def staleRecordA : List (String × Jval) :=
  [("creators", Jval.list [Jval.obj [("nameType", Jval.str "Personal")]])]

/-- A record with `titles` only — no `creators`. -/
def staleRecordB : List (String × Jval) := [("titles", Jval.list [Jval.str "t"])]

/-- The tree built by feeding `staleRecordA` then `staleRecordB` into the
updater. -/
def staleTree : Stats := applyRecords create_empty_stats [staleRecordA, staleRecordB]

/-! ## Claim C4 -/

/-- `Σ field.count` over the fields of one status class (the claim's
numerator). -/
def classCounts (fields : List (String × FieldStats)) (status : String) : Nat :=
  ((fields.filter (fun p => p.2.fieldStatus = status)).map (fun p => p.2.count)).sum

/-- The number of fields in one status class. -/
def classSize (fields : List (String × FieldStats)) (status : String) : Nat :=
  (fields.filter (fun p => p.2.fieldStatus = status)).length

/-- The claim's synthetic example: a 2-field mandatory class over 4
records, field A present in all, field B in half. -/
def exMandatoryFields : List (String × FieldStats) :=
  [("A", ⟨4, 4, "mandatory", 1, 0, none⟩),
   ("B", ⟨2, 2, "mandatory", (1 : Rat)/2, 2, none⟩)]

/-! ## Claim C5: subfield counting over a list-valued field -/

/-- One `fundingReferences` occurrence exposing `funderName`. -/
def frItem : Jval := Jval.obj [("funderName", Jval.str "Fund")]

/-- A record whose `fundingReferences` list has `n` occurrences, each
exposing `funderName`. -/
def frRecord (n : Nat) : List (String × Jval) :=
  [("fundingReferences", Jval.list (List.replicate n frItem))]

/-- The `fundingReferences` subfield configuration (the `SUBFIELD_STATS`
entry, spelled out). -/
def frCfgSubs : List (String × SubCfg) :=
  [("funderName", .presence false),
   ("funderIdentifier", .presence false),
   ("funderIdentifierType", .enum funderIdentifierTypeVals),
   ("awardNumber", .presence false),
   ("awardURI", .presence false),
   ("awardTitle", .presence false)]

/-- The `fundingReferences` subfield map with `funderName` at count `c`,
instances `i`, and the other subfields untouched. -/
def frSubsAt (c i : Nat) : SubMap :=
  [("funderName", ⟨c, i, 0, 0, none⟩),
   ("funderIdentifier", ⟨0, 0, 0, 0, none⟩),
   ("funderIdentifierType",
    ⟨0, 0, 0, 0, some (funderIdentifierTypeVals.map (fun v => (v, 0)))⟩),
   ("awardNumber", ⟨0, 0, 0, 0, none⟩),
   ("awardURI", ⟨0, 0, 0, 0, none⟩),
   ("awardTitle", ⟨0, 0, 0, 0, none⟩)]

/-- A record with one `creators` occurrence carrying two
`nameIdentifiers` entries. -/
def niRecord : List (String × Jval) :=
  [("creators", Jval.list [Jval.obj
     [("nameIdentifiers", Jval.list
        [Jval.obj [("nameIdentifier", Jval.str "id1")],
         Jval.obj [("nameIdentifier", Jval.str "id2")]])]])]

/-! ## Claims C6 and C7: unrecognized enumerated values and record-level
error handling -/

/-- Observer: one value counter of one subfield's `values` dict in the
summary tree. -/
def valueCountOf (s : Stats) (field sub val : String) : Option Nat :=
  (subStatOf s field sub).bind (fun ss => ss.values.bind (fun vs => assocGet vs val))

/-- Observer: one field's `count` in the summary tree. -/
def fieldCountOf (s : Stats) (field : String) : Option Nat :=
  (assocGet s.summary.fields field).map (fun fs => fs.count)

/-- A `fundingReferences` occurrence with an unrecognized
`funderIdentifierType`. -/
def unknownFunderTypeRecord : List (String × Jval) :=
  [("fundingReferences", Jval.list [Jval.obj [("funderIdentifierType", Jval.str "FooID")]])]

/-- A `contributors` occurrence with an unrecognized `contributorType`
(`"Translator"` is not in the permitted set, which does contain
`"Other"`). -/
def unknownContributorTypeRecord : List (String × Jval) :=
  [("contributors", Jval.list [Jval.obj [("contributorType", Jval.str "Translator")]])]

/-- A `creators` occurrence with an unrecognized `nameType`. -/
def unknownNameTypeRecord : List (String × Jval) :=
  [("creators", Jval.list [Jval.obj [("nameType", Jval.str "Corporate")]])]

/-- A record with only `titles`: every other field's key is missing. -/
def titlesOnlyRecord : List (String × Jval) := [("titles", Jval.list [Jval.str "T"])]

/-- A record whose `creators` carries an unrecognized `nameType` followed
by a well-formed `titles` field. -/
def abortRecord : List (String × Jval) :=
  [("creators", Jval.list [Jval.obj [("nameType", Jval.str "Corporate")]]),
   ("titles", Jval.list [Jval.str "T"])]

/-! ## Claim C10: value-counter cleanup -/

/-- Observer: one value counter of one subfield in a field map. -/
def fieldsValueCount (fields : List (String × FieldStats)) (field sub val : String) :
    Option Nat :=
  (assocGet fields field).bind (fun fs => fs.subfields.bind (fun subs =>
    (assocGet subs sub).bind (fun ss => ss.values.bind (fun vs => assocGet vs val))))

/-- A record with one `creators` occurrence of `nameType` `"Personal"`. -/
def personalRecord : List (String × Jval) :=
  [("creators", Jval.list [Jval.obj [("nameType", Jval.str "Personal")]])]

/-- A one-record tree used to witness the cleanup claims. -/
def c10Tree : Stats := (update_stats_single_record create_empty_stats personalRecord).1

/-- Observer: the subfield map of one field in a field map (empty when
the field or its subfield dict is absent). -/
def subsOfAt (fields : List (String × FieldStats)) (k : String) : SubMap :=
  ((assocGet fields k).bind (fun fs => fs.subfields)).getD []

/-- Observer: one subfield's stats of one field in a field map. -/
def subAt (fields : List (String × FieldStats)) (k sub : String) : Option SubStats :=
  assocGet (subsOfAt fields k) sub

/-- Observer: one subfield's value-counter dict. -/
def valsAt (fields : List (String × FieldStats)) (k sub : String) : List (String × Nat) :=
  ((subAt fields k sub).bind (fun ss => ss.values)).getD []

/-- How many records of a sequence expose field `k` with a truthy value. -/
def presenceCount (rs : List (List (String × Jval))) (k : String) : Nat :=
  (rs.filter (fun r => truthyO (assocGet r k))).length

/-! ## Association-list lemmas -/

@[simp] theorem assocGet_nil {α : Type} (k : String) : assocGet ([] : List (String × α)) k = none := rfl

@[simp] theorem assocGet_cons {α : Type} (k1 : String) (v1 : α) (rest : List (String × α))
    (k : String) :
    assocGet ((k1, v1) :: rest) k = if k1 = k then some v1 else assocGet rest k := rfl

@[simp] theorem keysOf_nil {α : Type} : keysOf ([] : List (String × α)) = [] := rfl

@[simp] theorem keysOf_cons {α : Type} (p : String × α) (l : List (String × α)) :
    keysOf (p :: l) = p.1 :: keysOf l := rfl

@[simp] theorem assocModify_nil {α : Type} (k : String) (f : α → α) :
    assocModify ([] : List (String × α)) k f = [] := rfl

@[simp] theorem assocModify_cons {α : Type} (k1 : String) (v1 : α) (rest : List (String × α))
    (k : String) (f : α → α) :
    assocModify ((k1, v1) :: rest) k f =
      if k1 = k then (k1, f v1) :: rest else (k1, v1) :: assocModify rest k f := rfl

theorem assocGet_map_entries {α β : Type} (f : String → α → β) (l : List (String × α))
    (k : String) :
    assocGet (l.map (fun p => (p.1, f p.1 p.2))) k = (assocGet l k).map (f k) := by
  induction l with
  | nil => rfl
  | cons p rest ih =>
    obtain ⟨k1, v1⟩ := p
    by_cases h : k1 = k
    · subst h; simp
    · simp [h, ih]

theorem keysOf_map_entries {α β : Type} (f : String → α → β) (l : List (String × α)) :
    keysOf (l.map (fun p => (p.1, f p.1 p.2))) = keysOf l := by
  induction l with
  | nil => rfl
  | cons p rest ih => obtain ⟨k1, v1⟩ := p; simp [ih]

theorem assocGet_keys_map {α : Type} (g : String → α) (K : List String) (k : String)
    (h : k ∈ K) :
    assocGet (K.map (fun k' => (k', g k'))) k = some (g k) := by
  induction K with
  | nil => cases h
  | cons k0 rest ih =>
    by_cases hk : k0 = k
    · subst hk; simp
    · rcases List.mem_cons.mp h with h1 | h1
      · exact absurd h1.symm hk
      · simp [hk, ih h1]

theorem keysOf_keys_map {α : Type} (g : String → α) (K : List String) :
    keysOf (K.map (fun k' => (k', g k'))) = K := by
  induction K with
  | nil => rfl
  | cons k0 rest ih => simp [ih]

theorem mem_keys_of_assocGet {α : Type} {l : List (String × α)} {k : String} {v : α}
    (h : assocGet l k = some v) : k ∈ keysOf l := by
  induction l with
  | nil => simp at h
  | cons p rest ih =>
    obtain ⟨k1, v1⟩ := p
    by_cases hk : k1 = k
    · simp [hk]
    · simp only [assocGet_cons, hk, if_false] at h
      simp [ih h]

theorem assocGet_mem {α : Type} {l : List (String × α)} {k : String} {v : α}
    (h : assocGet l k = some v) : (k, v) ∈ l := by
  induction l with
  | nil => simp at h
  | cons p rest ih =>
    obtain ⟨k1, v1⟩ := p
    by_cases hk : k1 = k
    · subst hk
      rw [assocGet_cons, if_pos rfl] at h
      have hv : v1 = v := by injection h
      subst hv
      exact List.mem_cons_self _ _
    · simp only [assocGet_cons, hk, if_false] at h
      exact List.mem_cons_of_mem _ (ih h)

theorem assocGet_isSome_of_mem_keys {α : Type} {l : List (String × α)} {k : String}
    (h : k ∈ keysOf l) : (assocGet l k).isSome := by
  induction l with
  | nil => cases h
  | cons p rest ih =>
    obtain ⟨k1, v1⟩ := p
    by_cases hk : k1 = k
    · simp [hk]
    · rcases List.mem_cons.mp h with h1 | h1
      · exact absurd h1.symm hk
      · simpa [hk] using ih h1

theorem assocGet_of_mem_nodup {α : Type} {l : List (String × α)} {k : String} {v : α}
    (hnd : (keysOf l).Nodup) (h : (k, v) ∈ l) : assocGet l k = some v := by
  induction l with
  | nil => cases h
  | cons p rest ih =>
    obtain ⟨k1, v1⟩ := p
    have hndc := List.nodup_cons.mp (by simpa using hnd)
    rcases List.mem_cons.mp h with h1 | h1
    · obtain ⟨hk, hv⟩ := Prod.mk.injEq .. ▸ h1
      simp [hk, hv]
    · have hk : k1 ≠ k := by
        intro he
        exact hndc.1 (he ▸ (by simpa [keysOf] using List.mem_map_of_mem Prod.fst h1))
      simp [hk, ih hndc.2 h1]

theorem assoc_ext {α : Type} : ∀ (l1 l2 : List (String × α)),
    keysOf l1 = keysOf l2 → (keysOf l1).Nodup →
    (∀ k ∈ keysOf l1, assocGet l1 k = assocGet l2 k) → l1 = l2
  | [], [], _, _, _ => rfl
  | [], q :: l2, hk, _, _ => by simp at hk
  | p :: l1, [], hk, _, _ => by simp at hk
  | p :: l1, q :: l2, hk, hnd, h => by
    obtain ⟨k1, v1⟩ := p
    obtain ⟨k2, v2⟩ := q
    simp only [keysOf_cons, List.cons.injEq] at hk
    obtain ⟨hkk, hktail⟩ := hk
    have hndc := List.nodup_cons.mp (by simpa using hnd)
    have hvv : v1 = v2 := by
      have h1 := h k1 (by simp)
      rw [assocGet_cons, assocGet_cons, if_pos rfl, if_pos hkk.symm] at h1
      exact Option.some.injEq .. ▸ h1
    have htail : l1 = l2 := by
      refine assoc_ext l1 l2 hktail hndc.2 ?_
      intro k hkmem
      have hne1 : k1 ≠ k := fun he => hndc.1 (he ▸ hkmem)
      have h1 := h k (List.mem_cons_of_mem _ hkmem)
      rwa [assocGet_cons, assocGet_cons, if_neg hne1, if_neg (hkk ▸ hne1)] at h1
    simp [hkk, hvv, htail]

theorem keysOf_assocModify {α : Type} (l : List (String × α)) (k : String) (f : α → α) :
    keysOf (assocModify l k f) = keysOf l := by
  induction l with
  | nil => rfl
  | cons p rest ih =>
    obtain ⟨k1, v1⟩ := p
    by_cases hk : k1 = k
    · simp [hk]
    · simp [hk, ih]

theorem assocGet_assocModify_self {α : Type} (l : List (String × α)) (k : String)
    (f : α → α) :
    assocGet (assocModify l k f) k = (assocGet l k).map f := by
  induction l with
  | nil => rfl
  | cons p rest ih =>
    obtain ⟨k1, v1⟩ := p
    by_cases hk : k1 = k
    · simp [hk]
    · simp [hk, ih]

theorem assocGet_assocModify_other {α : Type} (l : List (String × α)) (k k' : String)
    (f : α → α) (hne : k' ≠ k) :
    assocGet (assocModify l k f) k' = assocGet l k' := by
  induction l with
  | nil => rfl
  | cons p rest ih =>
    obtain ⟨k1, v1⟩ := p
    by_cases hk : k1 = k
    · subst hk
      simp [Ne.symm hne]
    · by_cases hk' : k1 = k'
      · simp [hk, hk', hne]
      · simp [hk, hk', ih]

theorem assocModify_mem {α : Type} {l : List (String × α)} {k : String} {f : α → α}
    {p : String × α} (h : p ∈ assocModify l k f) :
    p ∈ l ∨ ∃ v, assocGet l k = some v ∧ p = (k, f v) := by
  induction l with
  | nil => simp at h
  | cons q rest ih =>
    obtain ⟨k1, v1⟩ := q
    by_cases hk : k1 = k
    · subst hk
      simp only [assocModify_cons, if_pos rfl] at h
      rcases List.mem_cons.mp h with h1 | h1
      · exact Or.inr ⟨v1, by simp, h1⟩
      · exact Or.inl (List.mem_cons_of_mem _ h1)
    · simp only [assocModify_cons, hk, if_false] at h
      rcases List.mem_cons.mp h with h1 | h1
      · exact Or.inl (h1 ▸ List.mem_cons_self _ _)
      · rcases ih h1 with h' | ⟨v, hv, hp⟩
        · exact Or.inl (List.mem_cons_of_mem _ h')
        · exact Or.inr ⟨v, by simp [hk, hv], hp⟩

/-! ## Step-combinator lemmas -/

theorem stepSeq_pres {σ : Type} (P : σ → Prop) (a : σ × Bool) (f : σ → σ × Bool)
    (ha : P a.1) (hf : ∀ s, P s → P (f s).1) : P (stepSeq a f).1 := by
  unfold stepSeq
  by_cases h : a.2 = true
  · simpa [h] using hf a.1 ha
  · simpa [h] using ha

theorem foldl_stepSeq_inv {σ ι : Type} (P : σ → Prop) (g : ι → σ → σ × Bool)
    (hg : ∀ i s, P s → P (g i s).1) :
    ∀ (l : List ι) (init : σ × Bool), P init.1 →
      P ((l.foldl (fun acc i => stepSeq acc (g i)) init).1)
  | [], _, hinit => hinit
  | i :: rest, init, hinit => by
    exact foldl_stepSeq_inv P g hg rest (stepSeq init (g i))
      (stepSeq_pres P init (g i) hinit (hg i))

/-! ## Shape preservation by the bump operations -/

theorem assocModifyChk_fst {α : Type} (l : List (String × α)) (k : String) (f : α → α) :
    (assocModifyChk l k f).1 = if (assocGet l k).isSome then assocModify l k f else l := by
  unfold assocModifyChk
  split <;> simp_all

theorem subsShape_assocModify (name : String) (subs : SubMap) (k : String)
    (f : SubStats → SubStats) (hs : subsShapeFor name subs)
    (hf : ∀ ss, assocGet subs k = some ss →
      Option.map keysOf (f ss).values = Option.map keysOf ss.values) :
    subsShapeFor name (assocModify subs k f) := by
  constructor
  · rw [keysOf_assocModify]; exact hs.1
  · intro p hp
    rcases assocModify_mem hp with hmem | ⟨v, hv, hpv⟩
    · exact hs.2 p hmem
    · subst hpv
      have h1 := hf v hv
      have h2 := hs.2 (k, v) (assocGet_mem hv)
      simpa [h1] using h2

theorem bumpCountSeen_shape (name sf : String) (st : SubState)
    (h : subsShapeFor name st.1) : subsShapeFor name (bumpCountSeen sf st).1.1 := by
  unfold bumpCountSeen assocModifyChk
  by_cases h1 : sf ∈ st.2
  · simpa [h1] using h
  · by_cases h2 : (assocGet st.1 sf).isSome
    · simpa [h1, h2] using subsShape_assocModify name st.1 sf
        (fun ss => { ss with count := ss.count + 1 }) h (fun ss _ => rfl)
    · simpa [h1, h2] using h

theorem bumpInst_shape (name sf : String) (n : Nat) (st : SubState)
    (h : subsShapeFor name st.1) : subsShapeFor name (bumpInst sf n st).1.1 := by
  unfold bumpInst assocModifyChk
  by_cases h2 : (assocGet st.1 sf).isSome
  · simpa [h2] using subsShape_assocModify name st.1 sf
      (fun ss => { ss with instances := ss.instances + n }) h (fun ss _ => rfl)
  · simpa [h2] using h

theorem bumpVal_shape (name sf v : String) (subs : SubMap)
    (h : subsShapeFor name subs) : subsShapeFor name (bumpVal subs sf v).1 := by
  unfold bumpVal
  split
  · exact h
  next ss hss =>
    split
    · exact h
    next vals hvv =>
      split
      · exact h
      next vals2 hchk =>
        have hv2 : vals2 = assocModify vals v (· + 1) := by
          unfold assocModifyChk at hchk
          by_cases h2 : (assocGet vals v).isSome
          · rw [if_pos h2] at hchk
            injection hchk with h3 _
            exact h3.symm
          · rw [if_neg h2] at hchk
            injection hchk with _ h4
            cases h4
        subst hv2
        refine subsShape_assocModify name subs sf _ h ?_
        intro ss0 hss0
        have he : ss = ss0 := by rw [hss] at hss0; injection hss0
        simp [← he, hvv, keysOf_assocModify]

theorem bumpValJ_shape (name sf : String) (v : Jval) (subs : SubMap)
    (h : subsShapeFor name subs) : subsShapeFor name (bumpValJ subs sf v).1 := by
  cases v with
  | str s => exact bumpVal_shape name sf s subs h
  | null => exact h
  | num n => exact h
  | list xs => exact h
  | obj kvs => exact h

theorem frStep_shape (name sf : String) (cfg : SubCfg) (item : Jval) (st : SubState)
    (h : subsShapeFor name st.1) : subsShapeFor name ((frStep sf cfg item st).1).1 := by
  unfold frStep
  split
  · exact h
  next v? heq =>
    cases v? with
    | none => exact h
    | some v =>
      by_cases ht : truthy v = true
      · simp only [ht, if_true]
        refine stepSeq_pres (fun (s : SubState) => subsShapeFor name s.1) _ _
          (bumpCountSeen_shape name sf st h) ?_
        intro s1 hs1
        refine stepSeq_pres (fun (s : SubState) => subsShapeFor name s.1) _ _
          (bumpInst_shape name sf 1 s1 hs1) ?_
        intro s2 hs2
        cases cfg with
        | presence b => exact hs2
        | enum vals =>
          cases v with
          | str s => exact bumpVal_shape name sf _ s2.1 hs2
          | num n => exact bumpVal_shape name sf "Other" s2.1 hs2
          | null => exact hs2
          | list xs => exact hs2
          | obj kvs => exact hs2
      · simp only [ht, if_false]
        exact h

theorem ntStep_shape (name : String) (item : Jval) (st : SubState)
    (h : subsShapeFor name st.1) : subsShapeFor name ((ntStep item st).1).1 := by
  unfold ntStep
  split
  · exact h
  next v? heq =>
    by_cases ht : truthy (v?.getD (.str "")) = true
    · simp only [ht, if_true]
      refine stepSeq_pres (fun (s : SubState) => subsShapeFor name s.1) _ _
        (bumpCountSeen_shape name "nameType" st h) ?_
      intro s1 hs1
      refine stepSeq_pres (fun (s : SubState) => subsShapeFor name s.1) _ _
        (bumpInst_shape name "nameType" 1 s1 hs1) ?_
      intro s2 hs2
      exact bumpValJ_shape name "nameType" _ s2.1 hs2
    · simp only [ht, if_false]
      exact h

/-- The guarded count/instances/value bump chain shared by several item
branches. -/
theorem bumpChain_shape (name sf : String) (v : Jval) (st : SubState)
    (h : subsShapeFor name st.1) :
    subsShapeFor name ((stepSeq (bumpCountSeen sf st) (fun st1 =>
      stepSeq (bumpInst sf 1 st1) (fun st2 =>
        (((bumpValJ st2.1 sf v).1, st2.2), (bumpValJ st2.1 sf v).2)))).1).1 := by
  refine stepSeq_pres (fun (s : SubState) => subsShapeFor name s.1) _ _
    (bumpCountSeen_shape name sf st h) ?_
  intro s1 hs1
  refine stepSeq_pres (fun (s : SubState) => subsShapeFor name s.1) _ _
    (bumpInst_shape name sf 1 s1 hs1) ?_
  intro s2 hs2
  exact bumpValJ_shape name sf v s2.1 hs2

theorem niStep_shape (name : String) (cfgSubs : List (String × SubCfg)) (item : Jval)
    (st : SubState) (h : subsShapeFor name st.1) :
    subsShapeFor name ((niStep cfgSubs item st).1).1 := by
  unfold niStep
  split
  · exact h
  next v? heq =>
    by_cases ht : truthy (v?.getD (.list [])) = true
    · simp only [ht, if_true]
      refine stepSeq_pres (fun (s : SubState) => subsShapeFor name s.1) _ _
        (bumpCountSeen_shape name "nameIdentifier" st h) ?_
      intro s1 hs1
      refine stepSeq_pres (fun (s : SubState) => subsShapeFor name s.1) _ _
        (bumpInst_shape name "nameIdentifier" _ s1 hs1) ?_
      intro s2 hs2
      refine foldl_stepSeq_inv (fun (s : SubState) => subsShapeFor name s.1) _ ?_ _ (s2, true) hs2
      intro identifier s hs
      split
      · exact hs
      next s? heq2 =>
        cases s? with
        | none => exact hs
        | some sv =>
          by_cases ht2 : truthy sv = true
          · simp only [ht2, if_true]
            split
            all_goals
              (first
                | exact hs
                | (split
                   <;> first
                     | exact bumpChain_shape name "nameIdentifierScheme" sv s hs
                     | exact hs))
          · simp only [ht2, if_false]
            exact hs
    · simp only [ht, if_false]
      exact h

theorem affStep_shape (name : String) (cfgSubs : List (String × SubCfg)) (item : Jval)
    (st : SubState) (h : subsShapeFor name st.1) :
    subsShapeFor name ((affStep cfgSubs item st).1).1 := by
  unfold affStep
  split
  · exact h
  next v? heq =>
    by_cases ht : truthy (v?.getD (.list [])) = true
    · simp only [ht, if_true]
      refine stepSeq_pres (fun (s : SubState) => subsShapeFor name s.1) _ _
        (bumpCountSeen_shape name "affiliation" st h) ?_
      intro s1 hs1
      refine stepSeq_pres (fun (s : SubState) => subsShapeFor name s.1) _ _
        (bumpInst_shape name "affiliation" _ s1 hs1) ?_
      intro s2 hs2
      refine foldl_stepSeq_inv (fun (s : SubState) => subsShapeFor name s.1) _ ?_ _ (s2, true) hs2
      intro aff s hs
      cases aff with
      | obj kvs =>
        by_cases hti : truthyO (assocGet kvs "affiliationIdentifier") = true
        · simp only [hti, if_true]
          refine stepSeq_pres (fun (s : SubState) => subsShapeFor name s.1) _ _
            (bumpCountSeen_shape name "affiliationIdentifier" s hs) ?_
          intro sB hsB
          refine stepSeq_pres (fun (s : SubState) => subsShapeFor name s.1) _ _
            (bumpInst_shape name "affiliationIdentifier" 1 sB hsB) ?_
          intro sC hsC
          split
          next sv heq3 =>
            by_cases ht2 : truthy sv = true
            · simp only [ht2, if_true]
              split
              all_goals
                (first
                  | exact hsC
                  | (split
                     <;> first
                       | exact bumpChain_shape name "affiliationIdentifierScheme" sv sC hsC
                       | exact hsC))
            · simp only [ht2, if_false]
              exact hsC
          · exact hsC
        · simp only [hti, if_false]
          exact hs
      | null => exact hs
      | str a => exact hs
      | num a => exact hs
      | list a => exact hs
    · simp only [ht, if_false]
      exact h

theorem etStep_shape (name sf : String) (cfg : SubCfg) (item : Jval) (st : SubState)
    (h : subsShapeFor name st.1) : subsShapeFor name ((etStep sf cfg item st).1).1 := by
  unfold etStep
  split
  · exact h
  next v? heq =>
    cases v? with
    | none => exact h
    | some v =>
      by_cases ht : truthy v = true
      · simp only [ht, if_true]
        split
        all_goals
          (first
            | exact bumpChain_shape name sf v st h
            | exact h)
      · simp only [ht, if_false]
        exact h

theorem itemSubfieldStep_shape (name fieldName : String) (cfgSubs : List (String × SubCfg))
    (sf : String) (cfg : SubCfg) (item : Jval) (st : SubState)
    (h : subsShapeFor name st.1) :
    subsShapeFor name ((itemSubfieldStep fieldName cfgSubs sf cfg item st).1).1 := by
  unfold itemSubfieldStep
  split
  · exact frStep_shape name sf cfg item st h
  split
  · exact ntStep_shape name item st h
  split
  · exact niStep_shape name cfgSubs item st h
  split
  · exact affStep_shape name cfgSubs item st h
  split
  · exact etStep_shape name sf cfg item st h
  · exact h

theorem processItems_shape (name fieldName : String) (cfgSubs : List (String × SubCfg))
    (items : List Jval) (st : SubState) (h : subsShapeFor name st.1) :
    subsShapeFor name ((processItems fieldName cfgSubs items st).1).1 := by
  unfold processItems
  refine foldl_stepSeq_inv (fun (s : SubState) => subsShapeFor name s.1) _ ?_ items (st, true) h
  intro item s hs
  unfold processOneItem
  refine foldl_stepSeq_inv (fun (s : SubState) => subsShapeFor name s.1) _ ?_ cfgSubs (s, true) hs
  intro p s0 hs0
  exact itemSubfieldStep_shape name fieldName cfgSubs p.1 p.2 item s0 hs0

theorem recomputeSubs_shape (name : String) (T : Nat) (subs : SubMap)
    (h : subsShapeFor name subs) : subsShapeFor name (recomputeSubs T subs) := by
  constructor
  · unfold recomputeSubs
    have hk := keysOf_map_entries (fun _ v => recomputeSub T v) subs
    exact hk.trans h.1
  · intro p hp
    unfold recomputeSubs at hp
    rcases List.mem_map.mp hp with ⟨q, hq, hpq⟩
    have := h.2 q hq
    rw [← hpq]
    simpa [recomputeSub] using this

theorem subsShape_of_fieldShape {name : String} {fs : FieldStats} {subs : SubMap}
    (h : FieldShape name fs) (hsub : fs.subfields = some subs) : subsShapeFor name subs := by
  constructor
  · have h2 := h.2.1
    rw [hsub] at h2
    simp only [Option.map] at h2
    rw [← h2]
    rfl
  · intro p hp
    have h3 := h.2.2 p
    rw [hsub] at h3
    exact h3 (by simpa using hp)

theorem fieldShape_update_subs {name : String} {fs : FieldStats} {subs2 : SubMap}
    (h : FieldShape name fs) (hexists : (cfgSubKeys name).isSome = true)
    (hs2 : subsShapeFor name subs2) (c i : Nat) (m : Int) (q : Rat) :
    FieldShape name ⟨c, i, fs.fieldStatus, q, m, some subs2⟩ := by
  refine ⟨h.1, ?_, ?_⟩
  · cases hck : cfgSubKeys name with
    | none => rw [hck] at hexists; cases hexists
    | some SK =>
      have hkeq : keysOf subs2 = SK := by
        have := hs2.1
        rw [hck] at this
        exact this
      simp [hkeq]
  · intro p hp
    exact hs2.2 p (by simpa using hp)

theorem update_field_stats_shape (v? : Option Jval) (hsub : Bool) (name : String)
    (fs : FieldStats) (h : FieldShape name fs) :
    FieldShape name (update_field_stats v? hsub fs) := by
  unfold update_field_stats
  split
  · exact h
  · split
    · exact h
    · split
      · exact h
      · exact h

theorem recomputeField_shape (T : Nat) (name : String) (fs : FieldStats)
    (h : FieldShape name fs) : FieldShape name (recomputeField T fs) := h

theorem nonListWithVals_shape (name : String) (ss : SubStats) (x : Jval)
    (subs1 : SubMap) (sf : String) (h : subsShapeFor name subs1) :
    subsShapeFor name (nonListWithVals ss x subs1 sf).1 := by
  unfold nonListWithVals
  split
  · exact h
  · split
    next s => exact bumpVal_shape name sf s subs1 h
    · exact h

theorem nonListSubApply_shape (T : Nat) (x : Jval) (sf : String) (name : String)
    (fs : FieldStats) (h : FieldShape name fs) :
    FieldShape name (nonListSubApply T x sf fs).1 := by
  unfold nonListSubApply
  split
  · exact h
  next subs hsubs =>
    split
    · exact h
    next ss hss =>
      have hsubsShape : subsShapeFor name subs := subsShape_of_fieldShape h hsubs
      have hexists : (cfgSubKeys name).isSome = true := by
        have h2 := h.2.1
        rw [hsubs] at h2
        rw [← h2]
        rfl
      have hshape1 : subsShapeFor name (nonListBump subs sf) :=
        subsShape_assocModify name subs sf _ hsubsShape (fun _ _ => rfl)
      have hshape3 : ∀ subs2 : SubMap, subsShapeFor name subs2 →
          subsShapeFor name (assocModify subs2 sf (recomputeSub T)) := fun subs2 hs2 =>
        subsShape_assocModify name subs2 sf _ hs2 (fun _ _ => by simp [recomputeSub])
      split
      next subs2 hwv =>
        have hshape2 : subsShapeFor name subs2 := by
          have hb := nonListWithVals_shape name ss x _ sf hshape1
          rw [hwv] at hb
          exact hb
        exact fieldShape_update_subs h hexists (hshape3 _ hshape2) _ _ _ _
      next subs2 hwv =>
        have hshape2 : subsShapeFor name subs2 := by
          have hb := nonListWithVals_shape name ss x _ sf hshape1
          rw [hwv] at hb
          exact hb
        exact fieldShape_update_subs h hexists hshape2 _ _ _ _

theorem nonListSubStep_shape (T : Nat) (v : Jval) (sf : String) (c : SubCfg)
    (name : String) (fs : FieldStats) (h : FieldShape name fs) :
    FieldShape name (nonListSubStep T v sf c fs).1 := by
  unfold nonListSubStep
  split
  · exact h
  next x? heq =>
    cases x? with
    | none => exact h
    | some x =>
      by_cases ht : truthy x = true
      · simp only [ht, if_true]
        cases c with
        | presence b =>
          simpa using nonListSubApply_shape T x sf name fs h
        | enum vals =>
          by_cases h2 : (jmem x vals).2 = true
          · by_cases h1 : (jmem x vals).1 = true
            · simpa [h1, h2] using nonListSubApply_shape T x sf name fs h
            · simpa [h1, h2] using h
          · simpa [h2] using h
      · simp only [ht, if_false]
        exact h

theorem listSubApply_shape (fieldName : String) (cfgSubs : List (String × SubCfg))
    (xs : List Jval) (T : Nat) (name : String) (fs1 : FieldStats)
    (h : FieldShape name fs1) :
    FieldShape name (listSubApply fieldName cfgSubs xs T fs1).1 := by
  unfold listSubApply
  split
  · exact h
  next subs hsubs =>
    have hsubsShape := subsShape_of_fieldShape h hsubs
    have hexists : (cfgSubKeys name).isSome = true := by
      have h2 := h.2.1
      rw [hsubs] at h2
      rw [← h2]
      rfl
    split
    next stp hstp =>
      have hst : subsShapeFor name stp.1 := by
        have hp := processItems_shape name fieldName cfgSubs xs (subs, []) hsubsShape
        rw [hstp] at hp
        exact hp
      exact fieldShape_update_subs h hexists (recomputeSubs_shape name T stp.1 hst) _ _ _ _
    next stp hstp =>
      have hst : subsShapeFor name stp.1 := by
        have hp := processItems_shape name fieldName cfgSubs xs (subs, []) hsubsShape
        rw [hstp] at hp
        exact hp
      exact fieldShape_update_subs h hexists hst _ _ _ _

theorem update_subfield_stats_shape (v : Jval) (name : String) (fs : FieldStats) (T : Nat)
    (h : FieldShape name fs) : FieldShape name (update_subfield_stats v name fs T).1 := by
  unfold update_subfield_stats
  split
  · exact h
  split
  · exact h
  next cfg hcfg =>
    split
    · rename_i xs hx
      exact listSubApply_shape name cfg.subs xs T name _ h
    · split
      · exact h
      · refine foldl_stepSeq_inv (fun (fs0 : FieldStats) => FieldShape name fs0) _ ?_ cfg.subs
          ({ fs with instances := fs.instances + 1 }, true) h
        intro p fs0 hfs0
        exact nonListSubStep_shape T v p.1 p.2 name fs0 hfs0

theorem updOneFieldStep_shape (record : List (String × Jval)) (T : Nat) (name : String)
    (fs : FieldStats) (h : FieldShape name fs) :
    FieldShape name (updOneFieldStep record T name fs).1 := by
  unfold updOneFieldStep
  split
  next v heq =>
    split
    · exact update_subfield_stats_shape v name _ T (update_field_stats_shape _ _ name fs h)
    · exact update_field_stats_shape _ _ name fs h
  · exact update_field_stats_shape _ _ name fs h

theorem updOneField_shape (record : List (String × Jval)) (T : Nat) (name : String)
    (fs : FieldStats) (h : FieldShape name fs) :
    FieldShape name (updOneField record T name fs).1 := by
  unfold updOneField
  split
  next fs2 hstep =>
    refine recomputeField_shape T name fs2 ?_
    have hs := updOneFieldStep_shape record T name fs h
    rw [hstep] at hs
    exact hs
  next fs2 hstep =>
    have hs := updOneFieldStep_shape record T name fs h
    rw [hstep] at hs
    exact hs

/-! ## Shape preservation by the per-field loop and the whole update -/

theorem updFields_keys (record : List (String × Jval)) (T : Nat) :
    ∀ fields : List (String × FieldStats),
      keysOf (updFields record T fields).1 = keysOf fields
  | [] => rfl
  | (name, fs) :: rest => by
    unfold updFields
    split
    next fs2 hupd =>
      simpa using updFields_keys record T rest
    next fs2 hupd => simp

theorem updFields_shape (record : List (String × Jval)) (T : Nat) :
    ∀ fields : List (String × FieldStats), (∀ p ∈ fields, FieldShape p.1 p.2) →
      ∀ p ∈ (updFields record T fields).1, FieldShape p.1 p.2
  | [], _, p, hp => by simp [updFields] at hp
  | (name, fs) :: rest, h, p, hp => by
    unfold updFields at hp
    revert hp
    split
    next fs2 hupd =>
      intro hp
      rcases List.mem_cons.mp hp with h1 | h1
      · have hsh := updOneField_shape record T name fs (h (name, fs) (List.mem_cons_self _ _))
        rw [hupd] at hsh
        rw [h1]
        exact hsh
      · exact updFields_shape record T rest
          (fun q hq => h q (List.mem_cons_of_mem _ hq)) p h1
    next fs2 hupd =>
      intro hp
      rcases List.mem_cons.mp hp with h1 | h1
      · have hsh := updOneField_shape record T name fs (h (name, fs) (List.mem_cons_self _ _))
        rw [hupd] at hsh
        rw [h1]
        exact hsh
      · exact h p (List.mem_cons_of_mem _ h1)

theorem fieldsShape_of_updFields {record : List (String × Jval)} {T : Nat}
    {fields fields2 : List (String × FieldStats)} {b : Bool}
    (h : FieldsShape fields) (hupd : updFields record T fields = (fields2, b)) :
    FieldsShape fields2 := by
  constructor
  · have hk := updFields_keys record T fields
    rw [hupd] at hk
    exact hk.trans h.1
  · intro p hp
    refine updFields_shape record T fields h.2 p ?_
    rw [hupd]
    exact hp

theorem updRTSection_shape (s : Stats) (record : List (String × Jval))
    (summary2 : TreeStats) (hsum : TreeShape summary2) (h : StatsShape s) :
    StatsShape (updRTSection s record summary2).1 := by
  unfold updRTSection
  split
  · exact ⟨hsum, h.2.1, h.2.2⟩
  next rv heq =>
    by_cases ht : truthy rv = true
    · simp only [ht, if_true]
      split
      next rt =>
        split
        · exact ⟨hsum, h.2.1, h.2.2⟩
        next tt htt =>
          have httShape : TreeShape tt := h.2.2 (rt, tt) (assocGet_mem htt)
          split
          next tf hupd =>
            refine ⟨hsum, ?_, ?_⟩
            · rw [keysOf_assocModify]
              exact h.2.1
            · intro p hp
              rcases assocModify_mem hp with h1 | ⟨v, hv, hpv⟩
              · exact h.2.2 p h1
              · rw [hpv]
                exact fieldsShape_of_updFields httShape hupd
          next tf hupd =>
            refine ⟨hsum, ?_, ?_⟩
            · rw [keysOf_assocModify]
              exact h.2.1
            · intro p hp
              rcases assocModify_mem hp with h1 | ⟨v, hv, hpv⟩
              · exact h.2.2 p h1
              · rw [hpv]
                exact fieldsShape_of_updFields httShape hupd
      · exact ⟨hsum, h.2.1, h.2.2⟩
      · exact ⟨hsum, h.2.1, h.2.2⟩
      · exact ⟨hsum, h.2.1, h.2.2⟩
    · simp only [ht, if_false]
      exact ⟨hsum, h.2.1, h.2.2⟩

theorem update_stats_single_record_shape (s : Stats) (record : List (String × Jval))
    (h : StatsShape s) : StatsShape (update_stats_single_record s record).1 := by
  unfold update_stats_single_record
  split
  next fields2 hupd =>
    exact ⟨fieldsShape_of_updFields h.1 hupd, h.2.1, h.2.2⟩
  next fields2 hupd =>
    exact updRTSection_shape s record _ (fieldsShape_of_updFields h.1 hupd) h

theorem applyRecords_shape (rs : List (List (String × Jval))) :
    ∀ s : Stats, StatsShape s → StatsShape (applyRecords s rs) := by
  induction rs with
  | nil => intro s h; exact h
  | cons r rest ih =>
    intro s h
    exact ih _ (update_stats_single_record_shape s r h)

set_option maxRecDepth 10000 in
theorem create_empty_stats_shape : StatsShape create_empty_stats := by decide

set_option maxRecDepth 10000 in
theorem create_empty_stats_consistent : statsConsistent create_empty_stats := by decide

set_option maxRecDepth 10000 in
theorem create_empty_stats_fullConsistent : statsFullConsistent create_empty_stats := by
  decide

/-! ## Denominator consistency after a successful update -/

@[simp] theorem recordsOk_nil (s : Stats) : recordsOk s [] = true := rfl

theorem recordsOk_cons (s : Stats) (r : List (String × Jval))
    (rest : List (List (String × Jval))) :
    recordsOk s (r :: rest) =
      ((update_stats_single_record s r).2 &&
        recordsOk (update_stats_single_record s r).1 rest) := rfl

@[simp] theorem applyRecords_nil (s : Stats) : applyRecords s [] = s := rfl

theorem applyRecords_cons (s : Stats) (r : List (String × Jval))
    (rest : List (List (String × Jval))) :
    applyRecords s (r :: rest) = applyRecords (update_stats_single_record s r).1 rest := rfl

theorem updOneField_consistent (record : List (String × Jval)) (T : Nat) (name : String)
    (fs : FieldStats) (hok : (updOneField record T name fs).2 = true) :
    fieldConsistent T (updOneField record T name fs).1 := by
  revert hok
  unfold updOneField
  split
  next fs2 hstep =>
    intro _
    exact ⟨rfl, rfl⟩
  next fs2 hstep =>
    intro hok
    cases hok

theorem updFields_consistent (record : List (String × Jval)) (T : Nat) :
    ∀ fields : List (String × FieldStats), (updFields record T fields).2 = true →
      ∀ p ∈ (updFields record T fields).1, fieldConsistent T p.2
  | [], _, p, hp => by simp [updFields] at hp
  | (name, fs) :: rest, hok, p, hp => by
    unfold updFields at hok hp
    revert hok hp
    split
    next fs2 hupd =>
      intro hok hp
      rcases List.mem_cons.mp hp with h1 | h1
      · rw [h1]
        have hc := updOneField_consistent record T name fs (by rw [hupd])
        rw [hupd] at hc
        exact hc
      · exact updFields_consistent record T rest hok p h1
    next fs2 hupd =>
      intro hok
      cases hok

theorem updRTSection_consistent (s : Stats) (record : List (String × Jval))
    (summary2 : TreeStats) (hsum : treeConsistent summary2)
    (h : ∀ p ∈ s.resourceTypes, treeConsistent p.2)
    (hok : (updRTSection s record summary2).2 = true) :
    statsConsistent (updRTSection s record summary2).1 := by
  revert hok
  unfold updRTSection
  split
  · intro _; exact ⟨hsum, h⟩
  next rv heq =>
    by_cases ht : truthy rv = true
    · simp only [ht, if_true]
      split
      next rt =>
        split
        · intro _; exact ⟨hsum, h⟩
        next tt htt =>
          split
          next tf hupd =>
            intro _
            refine ⟨hsum, ?_⟩
            intro p hp
            rcases assocModify_mem hp with h1 | ⟨v, hv, hpv⟩
            · exact h p h1
            · rw [hpv]
              intro q hq
              have hc := updFields_consistent record (tt.count + 1) tt.fields
                (by rw [hupd]) q (by rw [hupd]; exact hq)
              exact hc
          next tf hupd =>
            intro hok
            cases hok
      · intro _; exact ⟨hsum, h⟩
      · intro _; exact ⟨hsum, h⟩
      · intro _; exact ⟨hsum, h⟩
    · simp only [ht, if_false]
      intro _
      exact ⟨hsum, h⟩

theorem update_stats_single_record_consistent (s : Stats) (record : List (String × Jval))
    (h : statsConsistent s) (hok : (update_stats_single_record s record).2 = true) :
    statsConsistent (update_stats_single_record s record).1 := by
  revert hok
  unfold update_stats_single_record
  split
  next fields2 hupd =>
    intro hok
    cases hok
  next fields2 hupd =>
    intro hok
    refine updRTSection_consistent s record _ ?_ h.2 hok
    intro p hp
    exact updFields_consistent record (s.summary.count + 1) s.summary.fields
      (by rw [hupd]) p (by rw [hupd]; exact hp)

theorem applyRecords_consistent :
    ∀ (rs : List (List (String × Jval))) (s : Stats), statsConsistent s →
      recordsOk s rs = true → statsConsistent (applyRecords s rs)
  | [], _, h, _ => h
  | r :: rest, s, h, hok => by
    rw [recordsOk_cons] at hok
    rw [applyRecords_cons]
    have h1 := (Bool.and_eq_true _ _).mp hok
    exact applyRecords_consistent rest _
      (update_stats_single_record_consistent s r h h1.1) h1.2

/-! ## Merge characterization -/

theorem unionKeys_self (K : List String) : unionKeys K K = K := by
  unfold unionKeys
  have hfil : K.filter (fun k => !K.contains k) = [] := by
    rw [List.filter_eq_nil_iff]
    intro a ha
    simp [ha]
  simp [hfil]

theorem listMaxI_foldl_const (c : Int) :
    ∀ (xs : List Int), (∀ x ∈ xs, x = c) → ∀ a, a = c → xs.foldl max a = c
  | [], _, a, hac => hac
  | x :: xs, h, a, hac => by
    rw [List.foldl_cons]
    refine listMaxI_foldl_const c xs (fun y hy => h y (List.mem_cons_of_mem _ hy)) _ ?_
    rw [hac, h x (List.mem_cons_self _ _)]
    exact max_self c

theorem listMaxI_const (c : Int) :
    ∀ (l : List Int), (∀ x ∈ l, x = c) → l ≠ [] → listMaxI l = c
  | [], _, hne => absurd rfl hne
  | x :: xs, h, _ => by
    unfold listMaxI
    exact listMaxI_foldl_const c xs (fun y hy => h y (List.mem_cons_of_mem _ hy)) x
      (h x (List.mem_cons_self _ _))

theorem cmOf_const {fields : List (String × FieldStats)} {rc : Nat}
    (h : ∀ p ∈ fields, fieldConsistent rc p.2) {k : String} (hk : k ∈ keysOf fields) :
    cmOf fields k = (rc : Int) := by
  unfold cmOf
  cases hg : assocGet fields k with
  | none =>
    have := assocGet_isSome_of_mem_keys hk
    rw [hg] at this
    cases this
  | some fs =>
    have hmem := assocGet_mem hg
    have hc : fs.missing = (rc : Int) - (fs.count : Int) := (h (k, fs) hmem).1
    show (fs.count : Int) + fs.missing = (rc : Int)
    rw [hc]
    ring

theorem keysOf_ne_nil {α : Type} {l : List (String × α)} {K : List String}
    (h : keysOf l = K) (hne : K ≠ []) : l ≠ [] := by
  intro hl
  rw [hl] at h
  exact hne h.symm

theorem merge_fields_eq (f1 f2 : List (String × FieldStats)) (K : List String)
    (h1 : keysOf f1 = K) (h2 : keysOf f2 = K) (hne : K ≠ []) :
    merge_fields f1 f2 =
      K.map (fun k => (k, mergeFieldOne (mergeT f1 f2 K) (assocGet f1 k) (assocGet f2 k))) := by
  unfold merge_fields
  have e1 : f1.isEmpty = false := by
    cases f1 with
    | nil => exact absurd rfl (keysOf_ne_nil h1 hne)
    | cons p rest => rfl
  have e2 : f2.isEmpty = false := by
    cases f2 with
    | nil => exact absurd rfl (keysOf_ne_nil h2 hne)
    | cons p rest => rfl
  rw [e1, e2]
  simp only [Bool.false_eq_true, if_false]
  rw [h1, h2, unionKeys_self]
  rfl

theorem mergeT_eq (f1 f2 : List (String × FieldStats)) (K : List String) (rc1 rc2 : Nat)
    (h1 : keysOf f1 = K) (h2 : keysOf f2 = K) (hne : K ≠ [])
    (hc1 : ∀ p ∈ f1, fieldConsistent rc1 p.2) (hc2 : ∀ p ∈ f2, fieldConsistent rc2 p.2) :
    mergeT f1 f2 K = ((rc1 + rc2 : Nat) : Int) := by
  unfold mergeT
  have hK : ∀ x ∈ K.map (fun k => cmOf f1 k + cmOf f2 k), x = ((rc1 + rc2 : Nat) : Int) := by
    intro x hx
    rcases List.mem_map.mp hx with ⟨k, hk, hxe⟩
    rw [← hxe, cmOf_const hc1 (h1 ▸ hk), cmOf_const hc2 (h2 ▸ hk)]
    push_cast
    ring
  refine listMaxI_const _ _ hK ?_
  intro hmap
  exact hne (List.map_eq_nil_iff.mp hmap)

theorem merge_fields_lookup (f1 f2 : List (String × FieldStats)) (K : List String)
    (h1 : keysOf f1 = K) (h2 : keysOf f2 = K) (hne : K ≠ []) {k : String} (hk : k ∈ K) :
    assocGet (merge_fields f1 f2) k =
      some (mergeFieldOne (mergeT f1 f2 K) (assocGet f1 k) (assocGet f2 k)) := by
  rw [merge_fields_eq f1 f2 K h1 h2 hne]
  exact assocGet_keys_map _ K k hk

theorem merge_fields_keys (f1 f2 : List (String × FieldStats)) (K : List String)
    (h1 : keysOf f1 = K) (h2 : keysOf f2 = K) (hne : K ≠ []) :
    keysOf (merge_fields f1 f2) = K := by
  rw [merge_fields_eq f1 f2 K h1 h2 hne]
  exact keysOf_keys_map _ K

theorem completeness_cast (rc c : Nat) :
    (if ((rc : Nat) : Int) > 0 then (c : Rat) / (((rc : Nat) : Int) : Rat) else 0) =
      (if 0 < rc then (c : Rat) / ((rc : Nat) : Rat) else 0) := by
  by_cases h : 0 < rc
  · rw [if_pos (by exact_mod_cast h), if_pos h, Int.cast_natCast]
  · rw [if_neg (by exact_mod_cast h), if_neg h]

theorem mergeFieldOne_fieldConsistent (rc : Nat) (o1 o2 : Option FieldStats) :
    fieldConsistent rc (mergeFieldOne ((rc : Nat) : Int) o1 o2) := by
  constructor
  · rfl
  · exact completeness_cast rc _

theorem mergeSubOne_subConsistent (rc : Nat) (o1 o2 : Option SubStats) :
    subConsistent rc (mergeSubOne ((rc : Nat) : Int) o1 o2) := by
  constructor
  · rfl
  · exact completeness_cast rc _

theorem mergeFieldOne_sub_mem {T : Int} {o1 o2 : Option FieldStats} {q : String × SubStats}
    (hq : q ∈ (mergeFieldOne T o1 o2).subfields.getD []) :
    ∃ w1 w2, q.2 = mergeSubOne T w1 w2 := by
  have hq2 : q ∈ (mergeSubfields T (o1.bind (fun s => s.subfields))
      (o2.bind (fun s => s.subfields))).getD [] := hq
  revert hq2
  unfold mergeSubfields
  split
  · intro hq2
    simp at hq2
  · intro hq2
    rcases List.mem_map.mp (by simpa using hq2) with ⟨k, hk, hqe⟩
    exact ⟨_, _, by rw [← hqe]⟩

theorem FIELD_keys_ne_nil : keysOf FIELD_STATUS ≠ [] := by decide

theorem merge_fields_consistent (f1 f2 : List (String × FieldStats)) (rc1 rc2 : Nat)
    (h1 : keysOf f1 = keysOf FIELD_STATUS) (h2 : keysOf f2 = keysOf FIELD_STATUS)
    (hc1 : ∀ p ∈ f1, fieldConsistent rc1 p.2) (hc2 : ∀ p ∈ f2, fieldConsistent rc2 p.2) :
    ∀ p ∈ merge_fields f1 f2, fieldConsistent (rc1 + rc2) p.2 ∧
      ∀ q ∈ p.2.subfields.getD [], subConsistent (rc1 + rc2) q.2 := by
  intro p hp
  rw [merge_fields_eq f1 f2 (keysOf FIELD_STATUS) h1 h2 FIELD_keys_ne_nil] at hp
  rcases List.mem_map.mp hp with ⟨k, hk, hpe⟩
  have hT := mergeT_eq f1 f2 (keysOf FIELD_STATUS) rc1 rc2 h1 h2 FIELD_keys_ne_nil hc1 hc2
  constructor
  · rw [← hpe, hT]
    exact mergeFieldOne_fieldConsistent (rc1 + rc2) _ _
  · intro q hq
    rw [← hpe] at hq
    rcases mergeFieldOne_sub_mem hq with ⟨w1, w2, hqe⟩
    rw [hqe, hT]
    exact mergeSubOne_subConsistent (rc1 + rc2) _ _

theorem merge_stats_fullConsistent (a b : Stats)
    (hsa : StatsShape a) (hsb : StatsShape b)
    (hca : statsConsistent a) (hcb : statsConsistent b) :
    statsFullConsistent (merge_stats a b) := by
  constructor
  · refine ⟨?_, ?_, rfl⟩
    · intro p hp
      exact (merge_fields_consistent _ _ _ _ hsa.1.1 hsb.1.1 hca.1 hcb.1 p hp).1
    · intro p hp q hq
      exact (merge_fields_consistent _ _ _ _ hsa.1.1 hsb.1.1 hca.1 hcb.1 p hp).2 q hq
  · intro p hp
    have hkeys : unionKeys (keysOf a.resourceTypes) (keysOf b.resourceTypes) =
        resourceTypeGeneralVals := by
      rw [hsa.2.1, hsb.2.1, unionKeys_self]
    have hp2 : p ∈ (unionKeys (keysOf a.resourceTypes) (keysOf b.resourceTypes)).map
        (fun rt => (rt, mergeRTOne a.resourceTypes b.resourceTypes rt)) := hp
    rcases List.mem_map.mp hp2 with ⟨rt, hrt, hpe⟩
    have hrtR : rt ∈ resourceTypeGeneralVals := hkeys ▸ hrt
    cases ht1 : assocGet a.resourceTypes rt with
    | none =>
      have := assocGet_isSome_of_mem_keys (l := a.resourceTypes) (k := rt)
        (by rw [hsa.2.1]; exact hrtR)
      rw [ht1] at this
      cases this
    | some t1 =>
      cases ht2 : assocGet b.resourceTypes rt with
      | none =>
        have := assocGet_isSome_of_mem_keys (l := b.resourceTypes) (k := rt)
          (by rw [hsb.2.1]; exact hrtR)
        rw [ht2] at this
        cases this
      | some t2 =>
        simp only [mergeRTOne] at hpe
        rw [ht1, ht2] at hpe
        simp only [Option.map, Option.getD] at hpe
        have hsh1 : TreeShape t1 := hsa.2.2 (rt, t1) (assocGet_mem ht1)
        have hsh2 : TreeShape t2 := hsb.2.2 (rt, t2) (assocGet_mem ht2)
        have hcc1 : ∀ q ∈ t1.fields, fieldConsistent t1.count q.2 :=
          hca.2 (rt, t1) (assocGet_mem ht1)
        have hcc2 : ∀ q ∈ t2.fields, fieldConsistent t2.count q.2 :=
          hcb.2 (rt, t2) (assocGet_mem ht2)
        rw [← hpe]
        refine ⟨?_, ?_, rfl⟩
        · intro q hq
          exact (merge_fields_consistent _ _ _ _ hsh1.1 hsh2.1 hcc1 hcc2 q hq).1
        · intro q hq q2 hq2
          exact (merge_fields_consistent _ _ _ _ hsh1.1 hsh2.1 hcc1 hcc2 q hq).2 q2 hq2

/-- C1 (counterexample): after updating with a record that contains
`creators` and then one that does not, both updates succeeding, the
summary record count is 2 but the `creators.nameType` subfield still has
`count + missing = 1` and `completeness = 1`: the claimed invariant fails
for SubfieldStats under raw update sequences. -/
theorem C1_counterexample :
    recordsOk create_empty_stats [staleRecordA, staleRecordB] = true ∧
    staleTree.summary.count = 2 ∧
    ¬ (∀ p ∈ staleTree.summary.fields, ∀ q ∈ p.2.subfields.getD [],
        subConsistent staleTree.summary.count q.2) := by
  refine ⟨by decide, by decide, ?_⟩
  intro hall
  have := hall
  revert this
  decide

/-- C1 (amended): after any sequence of successful
`update_stats_single_record` calls starting from the factory's empty
tree, `count + missing = recordCount` and the completeness equation hold
for every FieldStats of the summary tree and of every per-resource-type
tree; and every tree produced by `merge_stats` from two schema-shaped,
field-consistent trees satisfies the invariant for every FieldStats and
every SubfieldStats (with completeness recomputed and `0` at record
count `0`).  During raw update sequences the SubfieldStats invariant can
be stale (see the counterexample). -/
theorem C1_denominator_invariant :
    (∀ rs : List (List (String × Jval)), recordsOk create_empty_stats rs = true →
      statsConsistent (applyRecords create_empty_stats rs)) ∧
    (∀ a b : Stats, StatsShape a → StatsShape b → statsConsistent a → statsConsistent b →
      statsFullConsistent (merge_stats a b)) :=
  ⟨fun rs h => applyRecords_consistent rs _ create_empty_stats_consistent h,
   fun a b hsa hsb hca hcb => merge_stats_fullConsistent a b hsa hsb hca hcb⟩

/-- C1 (witness): the amended invariant instantiated at the one-record
sequence `[staleRecordA]` and at the merge of two empty trees. -/
theorem C1_denominator_witness :
    (recordsOk create_empty_stats [staleRecordA] = true ∧
      statsConsistent (applyRecords create_empty_stats [staleRecordA])) ∧
    statsFullConsistent (merge_stats create_empty_stats create_empty_stats) :=
  ⟨⟨by decide, C1_denominator_invariant.1 [staleRecordA] (by decide)⟩,
   C1_denominator_invariant.2 create_empty_stats create_empty_stats
     create_empty_stats_shape create_empty_stats_shape
     create_empty_stats_consistent create_empty_stats_consistent⟩

theorem catAccum_go (status : String) :
    ∀ (fields : List (String × FieldStats)) (a b : Nat),
      fields.foldl
        (fun acc p => if p.2.fieldStatus = status then (acc.1 + p.2.count, acc.2 + 1) else acc)
        (a, b) =
      (a + classCounts fields status, b + classSize fields status)
  | [], a, b => by simp [classCounts, classSize]
  | p :: rest, a, b => by
    by_cases h : p.2.fieldStatus = status
    · rw [List.foldl_cons]
      simp only [h, if_true]
      rw [catAccum_go status rest (a + p.2.count) (b + 1)]
      simp only [classCounts, classSize, List.filter_cons, h, decide_True, if_true,
        List.map_cons, List.sum_cons, List.length_cons, Prod.mk.injEq]
      constructor <;> ring
    · rw [List.foldl_cons]
      simp only [h, if_false]
      rw [catAccum_go status rest a b]
      simp [classCounts, classSize, List.filter_cons, h]

theorem catAccum_spec (fields : List (String × FieldStats)) (status : String) :
    catAccum fields status = (classCounts fields status, classSize fields status) := by
  unfold catAccum
  simpa using catAccum_go status fields 0 0

theorem sum_map_div (b : Rat) :
    ∀ l : List Rat, (l.map (fun x => x / b)).sum = l.sum / b
  | [] => by simp
  | x :: rest => by
    rw [List.map_cons, List.sum_cons, List.sum_cons, sum_map_div b rest, add_div]

theorem natCast_sum_counts (l : List (String × FieldStats)) :
    (((l.map (fun p => p.2.count)).sum : Nat) : Rat) =
      (l.map (fun p => ((p.2.count : Nat) : Rat))).sum := by
  induction l with
  | nil => simp
  | cons p rest ih =>
    simp only [List.map_cons, List.sum_cons, Nat.cast_add, ih]

/-- C4: for every field map, record total and status class, the class
completeness computed by `calculate_category_metrics` equals
`Σ(count of class fields) / (totalRecords × number of class fields)`,
is `0.0` when that denominator is zero, and — whenever each class
field's stored completeness is `count / totalRecords` — equals the mean
of the class fields' completeness values. -/
theorem C4_category_rollup (fields : List (String × FieldStats)) (T : Nat) (status : String) :
    (catCompleteness fields T status =
      (if 0 < T * classSize fields status then
        ((classCounts fields status : Nat) : Rat) / ((T * classSize fields status : Nat) : Rat)
       else 0)) ∧
    (T * classSize fields status = 0 → catCompleteness fields T status = 0) ∧
    ((∀ p ∈ fields.filter (fun p => p.2.fieldStatus = status),
        p.2.completeness = ((p.2.count : Nat) : Rat) / ((T : Nat) : Rat)) →
      0 < T → 0 < classSize fields status →
      catCompleteness fields T status =
        ((fields.filter (fun p => p.2.fieldStatus = status)).map
            (fun p => p.2.completeness)).sum / ((classSize fields status : Nat) : Rat)) ∧
    calculate_category_metrics fields T =
      ⟨catCompleteness fields T "mandatory", catCompleteness fields T "recommended",
       catCompleteness fields T "optional"⟩ := by
  have hbase : catCompleteness fields T status =
      (if 0 < T * classSize fields status then
        ((classCounts fields status : Nat) : Rat) / ((T * classSize fields status : Nat) : Rat)
       else 0) := by
    unfold catCompleteness
    rw [catAccum_spec]
  refine ⟨hbase, ?_, ?_, rfl⟩
  · intro hz
    rw [hbase, if_neg (by omega)]
  · intro hcomp hT hn
    rw [hbase, if_pos (by positivity)]
    have hmap : (fields.filter (fun p => p.2.fieldStatus = status)).map
        (fun p => p.2.completeness) =
        (fields.filter (fun p => p.2.fieldStatus = status)).map
          (fun p => ((p.2.count : Nat) : Rat) / ((T : Nat) : Rat)) :=
      List.map_congr_left (fun p hp => hcomp p hp)
    rw [hmap]
    have hdd : ((fields.filter (fun p => p.2.fieldStatus = status)).map
        (fun p => ((p.2.count : Nat) : Rat) / ((T : Nat) : Rat))).sum =
        ((fields.filter (fun p => p.2.fieldStatus = status)).map
          (fun p => ((p.2.count : Nat) : Rat))).sum / ((T : Nat) : Rat) := by
      rw [← sum_map_div ((T : Nat) : Rat) ((fields.filter
        (fun p => p.2.fieldStatus = status)).map (fun p => ((p.2.count : Nat) : Rat)))]
      rw [List.map_map]
      rfl
    rw [hdd]
    unfold classCounts
    rw [natCast_sum_counts]
    have hT0 : ((T : Nat) : Rat) ≠ 0 := by positivity
    have hn0 : ((classSize fields status : Nat) : Rat) ≠ 0 := by
      have := Nat.pos_iff_ne_zero.mp hn
      exact_mod_cast this
    rw [Nat.cast_mul]
    field_simp

/-- C4 (witness): the rollup at the claim's example — category
completeness `0.75`, equal to the mean of the two fields'
completeness. -/
theorem C4_category_rollup_witness :
    (∀ p ∈ exMandatoryFields.filter (fun p => p.2.fieldStatus = "mandatory"),
        p.2.completeness = ((p.2.count : Nat) : Rat) / ((4 : Nat) : Rat)) ∧
    0 < 4 ∧ 0 < classSize exMandatoryFields "mandatory" ∧
    catCompleteness exMandatoryFields 4 "mandatory" =
      ((exMandatoryFields.filter (fun p => p.2.fieldStatus = "mandatory")).map
          (fun p => p.2.completeness)).sum /
        ((classSize exMandatoryFields "mandatory" : Nat) : Rat) ∧
    catCompleteness exMandatoryFields 4 "mandatory" = 3/4 := by
  have hA : (∀ p ∈ exMandatoryFields.filter (fun p => p.2.fieldStatus = "mandatory"),
      p.2.completeness = ((p.2.count : Nat) : Rat) / ((4 : Nat) : Rat)) := by
    intro p hp
    have hp2 : p = ("A", (⟨4, 4, "mandatory", 1, 0, none⟩ : FieldStats)) ∨
        p = ("B", (⟨2, 2, "mandatory", (1 : Rat)/2, 2, none⟩ : FieldStats)) := by
      simpa [exMandatoryFields] using hp
    rcases hp2 with h | h <;> subst h <;> norm_num
  refine ⟨hA, by decide, by decide,
    (C4_category_rollup exMandatoryFields 4 "mandatory").2.2.1 hA (by decide) (by decide), ?_⟩
  rw [((C4_category_rollup exMandatoryFields 4 "mandatory").1 :)]
  norm_num [classCounts, classSize, exMandatoryFields]

/-! ## Evaluation lemmas for the item loop and the per-field loop -/

@[simp] theorem processItems_nil (fn : String) (cfgSubs : List (String × SubCfg))
    (st : SubState) : processItems fn cfgSubs [] st = (st, true) := rfl

theorem processItems_cons (fn : String) (cfgSubs : List (String × SubCfg)) (item : Jval)
    (rest : List Jval) (st st' : SubState)
    (h : processOneItem fn cfgSubs item st = (st', true)) :
    processItems fn cfgSubs (item :: rest) st = processItems fn cfgSubs rest st' := by
  unfold processItems
  rw [List.foldl_cons]
  have hstep : stepSeq ((st, true) : SubState × Bool)
      (fun st0 => processOneItem fn cfgSubs item st0) = (st', true) := by
    simp [stepSeq, h]
  rw [hstep]

theorem updFields_eq_map_of_ok (record : List (String × Jval)) (T : Nat) :
    ∀ fields : List (String × FieldStats),
      (∀ p ∈ fields, (updOneField record T p.1 p.2).2 = true) →
      updFields record T fields =
        (fields.map (fun p => (p.1, (updOneField record T p.1 p.2).1)), true)
  | [], _ => rfl
  | (name, fs) :: rest, h => by
    unfold updFields
    split
    next fs2 hupd =>
      rw [updFields_eq_map_of_ok record T rest
        (fun q hq => h q (List.mem_cons_of_mem _ hq))]
      have h2 : (updOneField record T name fs).1 = fs2 := by rw [hupd]
      simp [← h2]
    next fs2 hupd =>
      have h1 := h (name, fs) (List.mem_cons_self _ _)
      rw [hupd] at h1
      cases h1

theorem updOneField_absent (record : List (String × Jval)) (T : Nat) (name : String)
    (fs : FieldStats) (h : assocGet record name = none) :
    updOneField record T name fs = (recomputeField T fs, true) := by
  unfold updOneField updOneFieldStep
  rw [h]
  rfl

theorem frStep_first :
    processOneItem "fundingReferences" frCfgSubs frItem (frSubsAt 0 0, []) =
      ((frSubsAt 1 1, ["funderName"]), true) := rfl

theorem frStep_steady (j : Nat) :
    processOneItem "fundingReferences" frCfgSubs frItem (frSubsAt 1 j, ["funderName"]) =
      ((frSubsAt 1 (j + 1), ["funderName"]), true) := rfl

theorem processItems_fr_steady (M : Nat) : ∀ j : Nat,
    processItems "fundingReferences" frCfgSubs (List.replicate M frItem)
      (frSubsAt 1 j, ["funderName"]) =
      ((frSubsAt 1 (j + M), ["funderName"]), true) := by
  induction M with
  | zero => intro j; rfl
  | succ M ih =>
    intro j
    rw [List.replicate_succ,
        processItems_cons _ _ _ _ _ _ (frStep_steady j),
        ih (j + 1)]
    have h : j + 1 + M = j + (M + 1) := by omega
    rw [h]

theorem processItems_fr (N : Nat) :
    processItems "fundingReferences" frCfgSubs (List.replicate (N + 1) frItem)
      (frSubsAt 0 0, []) =
      ((frSubsAt 1 (N + 1), ["funderName"]), true) := by
  rw [List.replicate_succ, processItems_cons _ _ _ _ _ _ frStep_first,
      processItems_fr_steady N 1]
  have h : 1 + N = N + 1 := by omega
  rw [h]

theorem listSubApply_fr (N T inst : Nat) :
    listSubApply "fundingReferences" frCfgSubs (List.replicate (N + 1) frItem) T
      ⟨1, inst, "optional", 0, 0, some (frSubsAt 0 0)⟩ =
      (⟨1, inst, "optional", 0, 0, some (recomputeSubs T (frSubsAt 1 (N + 1)))⟩, true) := by
  simp only [listSubApply]
  rw [processItems_fr N]

theorem updOneField_fr (N T : Nat) :
    updOneField (frRecord (N + 1)) T "fundingReferences"
      (create_empty_field_stats "fundingReferences" "optional") =
      (recomputeField T
        ⟨1, 0 + (List.replicate (N + 1) frItem).length, "optional", 0, 0,
         some (recomputeSubs T (frSubsAt 1 (N + 1)))⟩, true) := by
  have h2 : updOneFieldStep (frRecord (N + 1)) T "fundingReferences"
      (create_empty_field_stats "fundingReferences" "optional") =
      listSubApply "fundingReferences" frCfgSubs (List.replicate (N + 1) frItem) T
        ⟨1, 0 + (List.replicate (N + 1) frItem).length, "optional", 0, 0,
         some (frSubsAt 0 0)⟩ := rfl
  unfold updOneField
  rw [h2, listSubApply_fr]

theorem updFields_fr (N T : Nat) :
    updFields (frRecord (N + 1)) T emptyFields =
      (emptyFields.map (fun p => (p.1, (updOneField (frRecord (N + 1)) T p.1 p.2).1)), true) := by
  apply updFields_eq_map_of_ok
  intro p hp
  by_cases hfr : p.1 = "fundingReferences"
  · have hnd : (keysOf emptyFields).Nodup := by
      have hk := keysOf_map_entries (fun n st => create_empty_field_stats n st) FIELD_STATUS
      rw [show emptyFields =
        FIELD_STATUS.map (fun p => (p.1, create_empty_field_stats p.1 p.2)) from rfl, hk]
      decide
    have hg : assocGet emptyFields p.1 = some p.2 := assocGet_of_mem_nodup hnd hp
    have hg2 : assocGet emptyFields "fundingReferences" =
        some (create_empty_field_stats "fundingReferences" "optional") := rfl
    rw [hfr] at hg
    have hp2 : p.2 = create_empty_field_stats "fundingReferences" "optional" :=
      Option.some.inj (hg.symm.trans hg2)
    rw [hfr, hp2, updOneField_fr]
  · have hne : ¬ ("fundingReferences" = p.1) := fun he => hfr he.symm
    have hnone : assocGet (frRecord (N + 1)) p.1 = none := by
      show (if "fundingReferences" = p.1
        then some (Jval.list (List.replicate (N + 1) frItem))
        else assocGet [] p.1) = none
      rw [if_neg hne]
      rfl
    rw [updOneField_absent _ _ _ _ hnone]

theorem update_stats_single_record_fr (N : Nat) :
    update_stats_single_record create_empty_stats (frRecord (N + 1)) =
      (⟨⟨1,
         emptyFields.map (fun p => (p.1, (updOneField (frRecord (N + 1)) 1 p.1 p.2).1)),
         calculate_category_metrics
           (emptyFields.map (fun p => (p.1, (updOneField (frRecord (N + 1)) 1 p.1 p.2).1))) 1⟩,
        create_empty_stats.resourceTypes⟩, true) := by
  have h1 : updFields (frRecord (N + 1)) (create_empty_stats.summary.count + 1)
      create_empty_stats.summary.fields =
      (emptyFields.map (fun p => (p.1, (updOneField (frRecord (N + 1))
          (create_empty_stats.summary.count + 1) p.1 p.2).1)), true) := updFields_fr N _
  unfold update_stats_single_record
  rw [h1]
  rfl

theorem subStatOf_fr (N : Nat) :
    (update_stats_single_record create_empty_stats (frRecord (N + 1))).2 = true ∧
    (subStatOf (update_stats_single_record create_empty_stats (frRecord (N + 1))).1
        "fundingReferences" "funderName").map (fun ss => (ss.count, ss.instances)) =
      some (1, N + 1) := by
  rw [update_stats_single_record_fr N]
  refine ⟨rfl, ?_⟩
  have hB : assocGet
      (emptyFields.map (fun p => (p.1, (updOneField (frRecord (N + 1)) 1 p.1 p.2).1)))
      "fundingReferences" =
      some ((updOneField (frRecord (N + 1)) 1 "fundingReferences"
        (create_empty_field_stats "fundingReferences" "optional")).1) :=
    (assocGet_map_entries (fun n fs => (updOneField (frRecord (N + 1)) 1 n fs).1)
      emptyFields "fundingReferences").trans rfl
  show (((assocGet
      (emptyFields.map (fun p => (p.1, (updOneField (frRecord (N + 1)) 1 p.1 p.2).1)))
      "fundingReferences").bind
      (fun fs => fs.subfields.bind (fun subs => assocGet subs "funderName"))).map
      (fun ss => (ss.count, ss.instances))) = some (1, N + 1)
  rw [hB, updOneField_fr N 1]
  rfl

/-- C5 (counterexample): one `creators` occurrence (N = 1) exposing the
tracked subfield `nameIdentifier` through a two-element
`nameIdentifiers` list increments that subfield's `count` by 1 but its
`instances` by 2, not by N = 1: the update succeeds and yields
`(count, instances) = (1, 2)`. -/
theorem C5_counterexample :
    (update_stats_single_record create_empty_stats niRecord).2 = true ∧
    (subStatOf (update_stats_single_record create_empty_stats niRecord).1
        "creators" "nameIdentifier").map (fun ss => (ss.count, ss.instances)) =
      some (1, 2) ∧
    ¬ ((subStatOf (update_stats_single_record create_empty_stats niRecord).1
        "creators" "nameIdentifier").map (fun ss => (ss.count, ss.instances)) =
      some (1, 1)) := by
  refine ⟨by decide, by decide, ?_⟩
  intro h
  rw [show (subStatOf (update_stats_single_record create_empty_stats niRecord).1
      "creators" "nameIdentifier").map (fun ss => (ss.count, ss.instances)) =
      some (1, 2) from by decide] at h
  cases h

/-- C5 (amended): for the `fundingReferences` branch the claim holds: a
record whose `fundingReferences` list has `N > 0` occurrences, each
exposing `funderName`, yields a successful update with that subfield's
`count` incremented by exactly 1 and `instances` by exactly `N`.  For the
identifier-list subfields the `instances` increment is instead the number
of identifier entries inside the occurrence: one `creators` occurrence
carrying two `nameIdentifiers` entries gives `nameIdentifier`
`(count, instances) = (1, 2)` (see the counterexample). -/
theorem C5_subfield_counting :
    (∀ N : Nat, 0 < N →
      (update_stats_single_record create_empty_stats (frRecord N)).2 = true ∧
      (subStatOf (update_stats_single_record create_empty_stats (frRecord N)).1
          "fundingReferences" "funderName").map (fun ss => (ss.count, ss.instances)) =
        some (1, N)) ∧
    ((update_stats_single_record create_empty_stats niRecord).2 = true ∧
      (subStatOf (update_stats_single_record create_empty_stats niRecord).1
          "creators" "nameIdentifier").map (fun ss => (ss.count, ss.instances)) =
        some (1, 2)) := by
  constructor
  · intro N hN
    obtain ⟨M, rfl⟩ : ∃ M, N = M + 1 := ⟨N - 1, by omega⟩
    exact subStatOf_fr M
  · exact ⟨by decide, by decide⟩

/-- C5 (witness): the amended statement instantiated at N = 3. -/
theorem C5_subfield_counting_witness :
    0 < 3 ∧
    ((update_stats_single_record create_empty_stats (frRecord 3)).2 = true ∧
      (subStatOf (update_stats_single_record create_empty_stats (frRecord 3)).1
          "fundingReferences" "funderName").map (fun ss => (ss.count, ss.instances)) =
        some (1, 3)) :=
  ⟨by decide, C5_subfield_counting.1 3 (by decide)⟩

/-- C6 (counterexample): `contributorType` is an enumeration whose
permitted set contains the `"Other"` sentinel, yet an unrecognized value
(`"Translator"`) is not counted under `"Other"`: the update succeeds but
the subfield's `count`/`instances` stay 0 and the `"Other"` counter
stays 0 — the occurrence is dropped entirely, refuting both halves of
the claim for this branch. -/
theorem C6_counterexample :
    (update_stats_single_record create_empty_stats unknownContributorTypeRecord).2 = true ∧
    (subStatOf (update_stats_single_record create_empty_stats unknownContributorTypeRecord).1
        "contributors" "contributorType").map (fun ss => (ss.count, ss.instances)) =
      some (0, 0) ∧
    valueCountOf (update_stats_single_record create_empty_stats unknownContributorTypeRecord).1
      "contributors" "contributorType" "Other" = some 0 ∧
    ¬ (valueCountOf
        (update_stats_single_record create_empty_stats unknownContributorTypeRecord).1
        "contributors" "contributorType" "Other" = some 1) := by
  refine ⟨by decide, by decide, by decide, ?_⟩
  intro h
  rw [show valueCountOf
      (update_stats_single_record create_empty_stats unknownContributorTypeRecord).1
      "contributors" "contributorType" "Other" = some 0 from by decide] at h
  cases h

/-- C6 (amended): the three unrecognized-value behaviours the code
actually implements.  (1) In the `fundingReferences` branch an
unrecognized `funderIdentifierType` does collapse to `"Other"`
(`count`/`instances` incremented, `"Other"` counter 1).  (2) In the
generic enumerated branch (`contributorType` etc.) an unrecognized value
is dropped entirely: the update succeeds but `count`, `instances` and
every value counter (including `"Other"`) stay 0.  (3) In the `nameType`
branch an unrecognized value raises: the update reports failure after
incrementing `count`/`instances`, with every value counter still 0. -/
theorem C6_unrecognized_enum_values :
    ((update_stats_single_record create_empty_stats unknownFunderTypeRecord).2 = true ∧
     (subStatOf (update_stats_single_record create_empty_stats unknownFunderTypeRecord).1
         "fundingReferences" "funderIdentifierType").map (fun ss => (ss.count, ss.instances)) =
       some (1, 1) ∧
     valueCountOf (update_stats_single_record create_empty_stats unknownFunderTypeRecord).1
       "fundingReferences" "funderIdentifierType" "Other" = some 1) ∧
    ((update_stats_single_record create_empty_stats unknownContributorTypeRecord).2 = true ∧
     (subStatOf (update_stats_single_record create_empty_stats unknownContributorTypeRecord).1
         "contributors" "contributorType").map (fun ss => (ss.count, ss.instances)) =
       some (0, 0) ∧
     valueCountOf (update_stats_single_record create_empty_stats unknownContributorTypeRecord).1
       "contributors" "contributorType" "Other" = some 0) ∧
    ((update_stats_single_record create_empty_stats unknownNameTypeRecord).2 = false ∧
     (subStatOf (update_stats_single_record create_empty_stats unknownNameTypeRecord).1
         "creators" "nameType").map (fun ss => (ss.count, ss.instances)) = some (1, 1) ∧
     valueCountOf (update_stats_single_record create_empty_stats unknownNameTypeRecord).1
       "creators" "nameType" "Personal" = some 0 ∧
     valueCountOf (update_stats_single_record create_empty_stats unknownNameTypeRecord).1
       "creators" "nameType" "Organizational" = some 0) := by
  refine ⟨⟨by decide, by decide, by decide⟩, ⟨by decide, by decide, by decide⟩,
    by decide, by decide, by decide, by decide⟩

/-- C7: the first half of the claim holds — a record missing a field's
key treats the field as absent and is no error (`titlesOnlyRecord`
succeeds, `creators.count` stays 0, `titles.count` becomes 1).  The
second half fails — an unrecognized `nameType` value raises instead of
being skipped for that field only: on `abortRecord` the update reports
failure, and `titles`, which follows `creators` in the field order, is
never processed (`titles.count` stays 0 even though the record contains
a well-formed `titles`), so the record is aborted part-way through. -/
theorem C7_error_handling :
    ((update_stats_single_record create_empty_stats titlesOnlyRecord).2 = true ∧
     fieldCountOf (update_stats_single_record create_empty_stats titlesOnlyRecord).1
       "creators" = some 0 ∧
     fieldCountOf (update_stats_single_record create_empty_stats titlesOnlyRecord).1
       "titles" = some 1) ∧
    ((update_stats_single_record create_empty_stats abortRecord).2 = false ∧
     fieldCountOf (update_stats_single_record create_empty_stats abortRecord).1
       "creators" = some 1 ∧
     fieldCountOf (update_stats_single_record create_empty_stats abortRecord).1
       "titles" = some 0) := by
  refine ⟨⟨by decide, by decide, by decide⟩, by decide, by decide, by decide⟩

theorem assocGet_cleanValuesMap (k : String) (n : Nat) (hn : 0 < n) :
    ∀ vals : List (String × Nat), assocGet vals k = some n →
      assocGet (cleanValuesMap vals) k = some n
  | [], h => by cases h
  | (k1, v1) :: rest, h => by
    rw [assocGet_cons] at h
    unfold cleanValuesMap
    rw [List.filter_cons]
    by_cases hk : k1 = k
    · rw [if_pos hk] at h
      have hv : v1 = n := Option.some.inj h
      subst hv
      simp only [hn, decide_True, if_true]
      rw [assocGet_cons, if_pos hk]
    · rw [if_neg hk] at h
      have ih := assocGet_cleanValuesMap k n hn rest h
      unfold cleanValuesMap at ih
      by_cases hp : 0 < v1
      · simp only [hp, decide_True, if_true]
        rw [assocGet_cons, if_neg hk]
        exact ih
      · simp only [hp, decide_False, if_false]
        exact ih

theorem cleanRound_values_pos (fields : List (String × FieldStats)) :
    ∀ p ∈ (cleanSubfieldsOf fields).map (fun p => (p.1, roundFieldC p.2)),
      ∀ q ∈ p.2.subfields.getD [], ∀ v ∈ q.2.values.getD [], 0 < v.2 := by
  intro p hp q hq v hv
  obtain ⟨pc, hpc, rfl⟩ := List.mem_map.mp hp
  obtain ⟨p0, hp0, rfl⟩ := List.mem_map.mp hpc
  rcases hsubs : p0.2.subfields with _ | subs
  · simp [roundFieldC, cleanFieldEntry, hsubs] at hq
  · simp only [roundFieldC, cleanFieldEntry, hsubs, Option.map_some, Option.getD_some] at hq
    obtain ⟨qr, hqr, rfl⟩ := List.mem_map.mp hq
    obtain ⟨q0, hq0, rfl⟩ := List.mem_map.mp hqr
    rcases hvals : q0.2.values with _ | vals
    · simp [roundSubC, cleanSubVal, hvals] at hv
    · simp only [roundSubC, cleanSubVal, hvals, Option.getD_some] at hv
      have := List.mem_filter.mp hv
      simpa using this.2

theorem cleanRound_retains (fields : List (String × FieldStats)) (f sb k : String) (n : Nat)
    (hn : 0 < n) (h : fieldsValueCount fields f sb k = some n) :
    fieldsValueCount ((cleanSubfieldsOf fields).map (fun p => (p.1, roundFieldC p.2)))
      f sb k = some n := by
  unfold fieldsValueCount at h ⊢
  cases hf : assocGet fields f with
  | none => rw [hf] at h; cases h
  | some fs0 =>
    rw [hf] at h
    have h1 : assocGet (cleanSubfieldsOf fields) f = some (cleanFieldEntry fs0) := by
      unfold cleanSubfieldsOf
      rw [assocGet_map_entries (fun _ v => cleanFieldEntry v) fields f, hf]
      rfl
    have h2 : assocGet ((cleanSubfieldsOf fields).map (fun p => (p.1, roundFieldC p.2))) f =
        some (roundFieldC (cleanFieldEntry fs0)) := by
      rw [assocGet_map_entries (fun _ v => roundFieldC v) (cleanSubfieldsOf fields) f, h1]
      rfl
    rw [h2]
    simp only [Option.some_bind] at h ⊢
    cases hsubs : fs0.subfields with
    | none => rw [hsubs] at h; cases h
    | some subs =>
      rw [hsubs] at h
      simp only [Option.some_bind] at h
      cases hss : assocGet subs sb with
      | none => rw [hss] at h; cases h
      | some ss0 =>
        rw [hss] at h
        simp only [Option.some_bind] at h
        cases hvals : ss0.values with
        | none => rw [hvals] at h; cases h
        | some vals =>
          rw [hvals] at h
          simp only [Option.some_bind] at h
          have h3 : (roundFieldC (cleanFieldEntry fs0)).subfields =
              some (((subs.map (fun q => (q.1, cleanSubVal q.2))).map
                (fun p => (p.1, roundSubC p.2)))) := by
            simp [roundFieldC, cleanFieldEntry, hsubs]
          rw [h3]
          simp only [Option.some_bind]
          have h4 : assocGet ((subs.map (fun q => (q.1, cleanSubVal q.2))).map
              (fun p => (p.1, roundSubC p.2))) sb = some (roundSubC (cleanSubVal ss0)) := by
            rw [assocGet_map_entries (fun _ v => roundSubC v) _ sb,
                assocGet_map_entries (fun _ v => cleanSubVal v) subs sb, hss]
            rfl
          rw [h4]
          simp only [Option.some_bind]
          have h5 : (roundSubC (cleanSubVal ss0)).values = some (cleanValuesMap vals) := by
            simp [roundSubC, cleanSubVal, hvals]
          rw [h5]
          simp only [Option.some_bind]
          exact assocGet_cleanValuesMap k n hn vals h

/-- C10: after `remove_zero_count_resource_types_and_clean`, every value
counter remaining in any subfield's `values` map — in the summary tree
and in every retained resource-type tree — is strictly positive, and
every strictly positive value counter of the input summary survives with
its count intact (so a value key absent from the output had count 0). -/
theorem C10_value_cleanup (s : Stats) :
    (∀ p ∈ (remove_zero_count_resource_types_and_clean s).summary.fields,
      ∀ q ∈ p.2.subfields.getD [], ∀ v ∈ q.2.values.getD [], 0 < v.2) ∧
    (∀ t ∈ (remove_zero_count_resource_types_and_clean s).resourceTypes,
      ∀ p ∈ t.2.fields, ∀ q ∈ p.2.subfields.getD [], ∀ v ∈ q.2.values.getD [], 0 < v.2) ∧
    (∀ f sb k : String, ∀ n : Nat,
      fieldsValueCount s.summary.fields f sb k = some n → 0 < n →
      fieldsValueCount (remove_zero_count_resource_types_and_clean s).summary.fields f sb k =
        some n) := by
  have hS : (remove_zero_count_resource_types_and_clean s).summary.fields =
      (cleanSubfieldsOf s.summary.fields).map (fun p => (p.1, roundFieldC p.2)) := rfl
  have hR : (remove_zero_count_resource_types_and_clean s).resourceTypes =
      ((s.resourceTypes.filter (fun p => p.2.count > 0)).map
        (fun p => (p.1, { p.2 with fields := cleanSubfieldsOf p.2.fields }))).map
        (fun p => (p.1, roundTreeC p.2)) := rfl
  refine ⟨?_, ?_, ?_⟩
  · rw [hS]; exact cleanRound_values_pos s.summary.fields
  · rw [hR]
    intro t ht p hp q hq v hv
    obtain ⟨t1, ht1, rfl⟩ := List.mem_map.mp ht
    obtain ⟨t0, ht0, rfl⟩ := List.mem_map.mp ht1
    have hp2 : p ∈ (cleanSubfieldsOf t0.2.fields).map (fun p => (p.1, roundFieldC p.2)) := by
      simpa [roundTreeC] using hp
    exact cleanRound_values_pos t0.2.fields p hp2 q hq v hv
  · intro f sb k n h hn
    rw [hS]
    exact cleanRound_retains s.summary.fields f sb k n hn h

/-- C10 (witness): the retention part applied to a one-record tree whose
`creators.nameType` has the `"Personal"` counter at 1; the cleaned output
keeps it at 1. -/
theorem C10_value_cleanup_witness :
    (fieldsValueCount c10Tree.summary.fields "creators" "nameType" "Personal" = some 1 ∧
      0 < 1) ∧
    fieldsValueCount (remove_zero_count_resource_types_and_clean c10Tree).summary.fields
      "creators" "nameType" "Personal" = some 1 :=
  ⟨⟨by decide, by decide⟩,
   (C10_value_cleanup c10Tree).2.2 "creators" "nameType" "Personal" 1 (by decide) (by decide)⟩

/-! ## Claim C9: driver pruning -/

theorem clean_summary_count (s : Stats) :
    (remove_zero_count_resource_types_and_clean s).summary.count = s.summary.count := rfl

theorem merge_stats_summary_count (a b : Stats) :
    (merge_stats a b).summary.count = a.summary.count + b.summary.count := rfl

theorem aggregate_go (es : List Entity) : ∀ acc : Stats,
    (es.foldl (fun acc e => merge_stats acc e.stats) acc).summary.count =
      acc.summary.count + (es.map (fun e => e.stats.summary.count)).sum := by
  induction es with
  | nil => intro acc; simp
  | cons e rest ih =>
    intro acc
    rw [List.foldl_cons, ih (merge_stats acc e.stats), merge_stats_summary_count]
    simp only [List.map_cons, List.sum_cons]
    omega

theorem aggregate_stats_count (es : List Entity) :
    (aggregate_stats es).summary.count = (es.map (fun e => e.stats.summary.count)).sum := by
  unfold aggregate_stats
  rw [aggregate_go es create_empty_stats]
  simp [create_empty_stats]

theorem remove_zero_rts_pos (s : Stats) :
    ∀ t ∈ (remove_zero_count_resource_types_and_clean s).resourceTypes, 0 < t.2.count := by
  intro t ht
  have hR : (remove_zero_count_resource_types_and_clean s).resourceTypes =
      ((s.resourceTypes.filter (fun p => p.2.count > 0)).map
        (fun p => (p.1, { p.2 with fields := cleanSubfieldsOf p.2.fields }))).map
        (fun p => (p.1, roundTreeC p.2)) := rfl
  rw [hR] at ht
  obtain ⟨t1, ht1, rfl⟩ := List.mem_map.mp ht
  obtain ⟨t0, ht0, rfl⟩ := List.mem_map.mp ht1
  have h := (List.mem_filter.mp ht0).2
  simpa [roundTreeC] using h

/-- C9 (counterexample): a collection whose only entity has an empty
tree: the survivor filter removes it, yet the synthetic aggregate —
appended after the filter — remains in the final output with a summary
record count of 0, contradicting the claim that every entity of the
final collections has a strictly positive record count. -/
theorem C9_counterexample :
    (finalize_entities "aggregate" [⟨"p1", create_empty_stats⟩]).map
      (fun e => (e.id, e.stats.summary.count)) = [("aggregate", 0)] ∧
    ¬ (∀ e ∈ finalize_entities "aggregate" [⟨"p1", create_empty_stats⟩],
        0 < e.stats.summary.count) := by
  refine ⟨by decide, ?_⟩
  intro h
  have hm : (finalize_entities "aggregate" [⟨"p1", create_empty_stats⟩]).map
      (fun e => (e.id, e.stats.summary.count)) = [("aggregate", 0)] := by decide
  cases hl : finalize_entities "aggregate" [⟨"p1", create_empty_stats⟩] with
  | nil => rw [hl] at hm; cases hm
  | cons e rest =>
    have he : e ∈ finalize_entities "aggregate" [⟨"p1", create_empty_stats⟩] := by
      rw [hl]; exact List.mem_cons_self _ _
    have hpos := h e he
    rw [hl] at hm
    simp only [List.map_cons] at hm
    injection hm with h1 h2
    have h0 : e.stats.summary.count = 0 := congrArg Prod.snd h1
    omega

/-- C9 (amended): in the final output of one collection, every
`byResourceType` entry of every entity (aggregate included) has a
strictly positive record count; every non-aggregate entity has a
strictly positive summary record count; the aggregate entity's summary
record count is the sum of the survivors' record counts; hence when at
least one entity survives the filter, every entity of the output —
aggregate included — has a strictly positive record count.  When no
entity survives, the aggregate remains with record count 0 (see the
counterexample). -/
theorem C9_driver_pruning (aggId : String) (es : List Entity) :
    (∀ e ∈ finalize_entities aggId es, ∀ t ∈ e.stats.resourceTypes, 0 < t.2.count) ∧
    (∀ e ∈ finalize_entities aggId es, e.id ≠ aggId → 0 < e.stats.summary.count) ∧
    (∃ e ∈ finalize_entities aggId es, e.id = aggId ∧
      e.stats.summary.count =
        ((filter_active_only es).map (fun e2 => e2.stats.summary.count)).sum) ∧
    (filter_active_only es ≠ [] →
      ∀ e ∈ finalize_entities aggId es, 0 < e.stats.summary.count) := by
  refine ⟨?_, ?_, ?_, ?_⟩
  · intro e he
    simp only [finalize_entities] at he
    obtain ⟨e0, he0, rfl⟩ := List.mem_map.mp he
    exact remove_zero_rts_pos e0.stats
  · intro e he hne
    simp only [finalize_entities] at he
    obtain ⟨e0, he0, rfl⟩ := List.mem_map.mp he
    show 0 < (remove_zero_count_resource_types_and_clean e0.stats).summary.count
    rw [clean_summary_count]
    rcases List.mem_append.mp he0 with h0 | h0
    · have h0' : e0 ∈ es.filter (fun e => e.stats.summary.count > 0) := h0
      have := (List.mem_filter.mp h0').2
      simpa using this
    · have he0' : e0 = ⟨aggId, aggregate_stats (filter_active_only es)⟩ := by simpa using h0
      exact absurd (by rw [he0']) hne
  · refine ⟨⟨aggId, remove_zero_count_resource_types_and_clean
        (aggregate_stats (filter_active_only es))⟩, ?_, rfl, ?_⟩
    · show _ ∈ finalize_entities aggId es
      simp only [finalize_entities]
      refine List.mem_map.mpr ⟨⟨aggId, aggregate_stats (filter_active_only es)⟩, ?_, rfl⟩
      exact List.mem_append_right _ (List.mem_singleton.mpr rfl)
    · show (remove_zero_count_resource_types_and_clean _).summary.count = _
      rw [clean_summary_count, aggregate_stats_count]
  · intro hne e he
    simp only [finalize_entities] at he
    obtain ⟨e0, he0, rfl⟩ := List.mem_map.mp he
    show 0 < (remove_zero_count_resource_types_and_clean e0.stats).summary.count
    rw [clean_summary_count]
    rcases List.mem_append.mp he0 with h0 | h0
    · have h0' : e0 ∈ es.filter (fun e => e.stats.summary.count > 0) := h0
      have := (List.mem_filter.mp h0').2
      simpa using this
    · have he0' : e0 = ⟨aggId, aggregate_stats (filter_active_only es)⟩ := by simpa using h0
      rw [he0']
      show 0 < (aggregate_stats (filter_active_only es)).summary.count
      rw [aggregate_stats_count]
      apply List.sum_pos
      · intro x hx
        obtain ⟨e1, he1, rfl⟩ := List.mem_map.mp hx
        have h1' : e1 ∈ es.filter (fun e => e.stats.summary.count > 0) := he1
        have := (List.mem_filter.mp h1').2
        simpa using this
      · intro hmap
        exact hne (List.map_eq_nil_iff.mp hmap)

/-- C9 (witness): the positive-survivor case instantiated at a
collection whose one entity holds a one-record tree. -/
theorem C9_driver_pruning_witness :
    filter_active_only [⟨"p1", c10Tree⟩] ≠ [] ∧
    (∀ e ∈ finalize_entities "aggregate" [⟨"p1", c10Tree⟩], 0 < e.stats.summary.count) :=
  ⟨by decide, (C9_driver_pruning "aggregate" [⟨"p1", c10Tree⟩]).2.2.2 (by decide)⟩

/-! ## Claim C8: empty-merge identity -/

theorem keys_map_get_self {α : Type} (d : α) :
    ∀ l : List (String × α), (keysOf l).Nodup →
      (keysOf l).map (fun k => (k, (assocGet l k).getD d)) = l
  | [], _ => rfl
  | (k1, v1) :: rest, hnd => by
    have hndc := List.nodup_cons.mp (by simpa using hnd)
    simp only [keysOf_cons, List.map_cons, assocGet_cons, if_pos rfl, Option.getD_some]
    have htail : (keysOf rest).map
        (fun k => (k, (if k1 = k then some v1 else assocGet rest k).getD d)) =
        (keysOf rest).map (fun k => (k, (assocGet rest k).getD d)) := by
      apply List.map_congr_left
      intro k hkk
      rw [if_neg (fun he => hndc.1 (by rw [he]; exact hkk))]
    rw [htail, keys_map_get_self d rest hndc.2]
    simp

theorem mergeValues_right_zero (v1 v2 : List (String × Nat))
    (hk : keysOf v2 = keysOf v1) (hnd : (keysOf v1).Nodup)
    (hz : ∀ v ∈ v2, v.2 = 0) :
    mergeValues v1 v2 = v1 := by
  unfold mergeValues
  rw [hk, unionKeys_self]
  have hcong : ∀ k ∈ keysOf v1,
      (k, ((assocGet v1 k).getD 0) + ((assocGet v2 k).getD 0)) =
      (k, (assocGet v1 k).getD 0) := by
    intro k hkk
    have hk2 : k ∈ keysOf v2 := by rw [hk]; exact hkk
    obtain ⟨m, hm⟩ := Option.isSome_iff_exists.mp (assocGet_isSome_of_mem_keys hk2)
    have hm0 : m = 0 := hz (k, m) (assocGet_mem hm)
    rw [hm, hm0]
    simp
  rw [List.map_congr_left hcong, keys_map_get_self 0 v1 hnd]

theorem cfgSubKeys_nodup (name : String) : ((cfgSubKeys name).getD []).Nodup := by
  unfold cfgSubKeys
  cases hg : assocGet SUBFIELD_STATS name with
  | none => simp
  | some cfg =>
    have hmem := assocGet_mem hg
    have hall : ∀ c ∈ SUBFIELD_STATS, (keysOf c.2.subs).Nodup := by decide
    simpa using hall (name, cfg) hmem

theorem cfgValKeys_nodup (name sub : String) :
    (((cfgOfSub name sub).bind cfgValKeys).getD []).Nodup := by
  unfold cfgOfSub
  cases hg : assocGet SUBFIELD_STATS name with
  | none => simp
  | some cfg =>
    simp only [Option.some_bind]
    cases hg2 : assocGet cfg.subs sub with
    | none => simp
    | some c =>
      have hall : ∀ e ∈ SUBFIELD_STATS, ∀ q ∈ e.2.subs, ((cfgValKeys q.2).getD []).Nodup := by
        decide
      simpa using hall (name, cfg) (assocGet_mem hg) (sub, c) (assocGet_mem hg2)

theorem mergeSubOne_right_zero (rc : Nat) (ss es : SubStats)
    (hc : subConsistent rc ss)
    (hz : es.count = 0 ∧ es.instances = 0 ∧ ∀ v ∈ es.values.getD [], v.2 = 0)
    (hvk : Option.map keysOf es.values = Option.map keysOf ss.values)
    (hvnd : (keysOf (ss.values.getD [])).Nodup) :
    mergeSubOne ((rc : Nat) : Int) (some ss) (some es) = ss := by
  obtain ⟨hc1, hc2⟩ := hc
  obtain ⟨hz1, hz2, hz3⟩ := hz
  have hval : mergeValsOpt ss.values es.values = ss.values := by
    cases hs1 : ss.values with
    | none =>
      have hev : es.values = none := by
        rw [hs1] at hvk
        simpa using hvk
      rw [hev]
      rfl
    | some v1 =>
      cases hev : es.values with
      | none => rw [hs1, hev] at hvk; simp at hvk
      | some v2 =>
        rw [hs1, hev] at hvk
        have hkk : keysOf v2 = keysOf v1 := by simpa using hvk
        rw [hev] at hz3
        rw [hs1] at hvnd
        show some (mergeValues v1 v2) = some v1
        rw [mergeValues_right_zero v1 v2 hkk (by simpa using hvnd) (by simpa using hz3)]
  obtain ⟨c, i, m, comp, vals⟩ := ss
  unfold mergeSubOne
  simp only [Option.map_some', Option.getD_some, Option.some_bind, SubStats.mk.injEq]
  refine ⟨?_, ?_, ?_, ?_, ?_⟩
  · rw [hz1, Nat.add_zero]
  · rw [hz2, Nat.add_zero]
  · rw [hz1, Nat.add_zero]
    exact hc1.symm
  · rw [hz1, Nat.add_zero, completeness_cast]
    exact hc2.symm
  · exact hval

theorem mergeSubfields_right_zero (rc : Nat) (name : String) (subs esubs : SubMap)
    (hk : keysOf esubs = keysOf subs) (hnd : (keysOf subs).Nodup)
    (hc : ∀ q ∈ subs, subConsistent rc q.2)
    (hz : ∀ q ∈ esubs, q.2.count = 0 ∧ q.2.instances = 0 ∧ ∀ v ∈ q.2.values.getD [], v.2 = 0)
    (hv1 : ∀ q ∈ subs, Option.map keysOf q.2.values = (cfgOfSub name q.1).bind cfgValKeys)
    (hv2 : ∀ q ∈ esubs, Option.map keysOf q.2.values = (cfgOfSub name q.1).bind cfgValKeys)
    (hvnd : ∀ q ∈ subs, (keysOf (q.2.values.getD [])).Nodup) :
    mergeSubfields ((rc : Nat) : Int) (some subs) (some esubs) = some subs := by
  show some ((unionKeys (keysOf subs) (keysOf esubs)).map
    (fun k => (k, mergeSubOne ((rc : Nat) : Int) (assocGet subs k) (assocGet esubs k)))) =
    some subs
  rw [hk, unionKeys_self]
  have hcong : ∀ k ∈ keysOf subs,
      (k, mergeSubOne ((rc : Nat) : Int) (assocGet subs k) (assocGet esubs k)) =
      (k, (assocGet subs k).getD ⟨0, 0, 0, 0, none⟩) := by
    intro k hkk
    obtain ⟨ssk, hssk⟩ := Option.isSome_iff_exists.mp (assocGet_isSome_of_mem_keys hkk)
    obtain ⟨esk, hesk⟩ := Option.isSome_iff_exists.mp
      (assocGet_isSome_of_mem_keys (show k ∈ keysOf esubs by rw [hk]; exact hkk))
    rw [hssk, hesk]
    have h1 := hc (k, ssk) (assocGet_mem hssk)
    have h2 := hz (k, esk) (assocGet_mem hesk)
    have h3 := hv1 (k, ssk) (assocGet_mem hssk)
    have h4 := hv2 (k, esk) (assocGet_mem hesk)
    have h5 := hvnd (k, ssk) (assocGet_mem hssk)
    rw [mergeSubOne_right_zero rc ssk esk h1 h2 (h4.trans h3.symm) h5]
    rfl
  rw [List.map_congr_left hcong, keys_map_get_self _ subs hnd]

theorem mergeFieldOne_right_zero (rc : Nat) (name : String) (fs efs : FieldStats)
    (hsh1 : FieldShape name fs) (hsh2 : FieldShape name efs)
    (hz : efs.count = 0 ∧ efs.instances = 0 ∧
      ∀ q ∈ efs.subfields.getD [], q.2.count = 0 ∧ q.2.instances = 0 ∧
        ∀ v ∈ q.2.values.getD [], v.2 = 0)
    (hc : fieldConsistent rc fs)
    (hsc : ∀ q ∈ fs.subfields.getD [], subConsistent rc q.2) :
    mergeFieldOne ((rc : Nat) : Int) (some fs) (some efs) = fs := by
  obtain ⟨hc1, hc2⟩ := hc
  obtain ⟨hz1, hz2, hz3⟩ := hz
  have hsubs : mergeSubfields ((rc : Nat) : Int) fs.subfields efs.subfields = fs.subfields := by
    cases hs1 : fs.subfields with
    | none =>
      have he : efs.subfields = none := by
        have h := hsh2.2.1.trans hsh1.2.1.symm
        rw [hs1] at h
        simpa using h
      rw [he]
      rfl
    | some subs =>
      cases he : efs.subfields with
      | none =>
        have h := hsh2.2.1.trans hsh1.2.1.symm
        rw [hs1, he] at h
        simp at h
      | some esubs =>
        have hkk : keysOf esubs = keysOf subs := by
          have h := hsh2.2.1.trans hsh1.2.1.symm
          rw [hs1, he] at h
          simpa using h
        have hnd : (keysOf subs).Nodup := by
          have h := hsh1.2.1
          rw [hs1] at h
          have h2 := cfgSubKeys_nodup name
          rw [← h] at h2
          simpa using h2
        have hsc2 : ∀ q ∈ subs, subConsistent rc q.2 := by
          intro q hq
          exact hsc q (by rw [hs1]; simpa using hq)
        have hz4 : ∀ q ∈ esubs, q.2.count = 0 ∧ q.2.instances = 0 ∧
            ∀ v ∈ q.2.values.getD [], v.2 = 0 := by
          intro q hq
          exact hz3 q (by rw [he]; simpa using hq)
        have hv1 : ∀ q ∈ subs,
            Option.map keysOf q.2.values = (cfgOfSub name q.1).bind cfgValKeys := by
          intro q hq
          exact hsh1.2.2 q (by rw [hs1]; simpa using hq)
        have hv2 : ∀ q ∈ esubs,
            Option.map keysOf q.2.values = (cfgOfSub name q.1).bind cfgValKeys := by
          intro q hq
          exact hsh2.2.2 q (by rw [he]; simpa using hq)
        have hvnd : ∀ q ∈ subs, (keysOf (q.2.values.getD [])).Nodup := by
          intro q hq
          have h := hv1 q hq
          cases hqv : q.2.values with
          | none => simp
          | some v1 =>
            rw [hqv] at h
            have h2 := cfgValKeys_nodup name q.1
            rw [← h] at h2
            simpa using h2
        exact mergeSubfields_right_zero rc name subs esubs hkk hnd hsc2 hz4 hv1 hv2 hvnd
  obtain ⟨c, i, st, comp, m, subsO⟩ := fs
  unfold mergeFieldOne
  simp only [Option.map_some', Option.getD_some, Option.some_bind, FieldStats.mk.injEq]
  refine ⟨?_, ?_, ?_, ?_, ?_, ?_⟩
  · rw [hz1, Nat.add_zero]
  · rw [hz2, Nat.add_zero]
  · rfl
  · rw [hz1, Nat.add_zero, completeness_cast]
    exact hc2.symm
  · rw [hz1, Nat.add_zero]
    exact hc1.symm
  · exact hsubs

set_option maxRecDepth 10000 in
theorem emptyFields_zero : ∀ p ∈ emptyFields, p.2.count = 0 ∧ p.2.instances = 0 ∧
    ∀ q ∈ p.2.subfields.getD [], q.2.count = 0 ∧ q.2.instances = 0 ∧
      ∀ v ∈ q.2.values.getD [], v.2 = 0 := by decide

set_option maxRecDepth 10000 in
theorem emptyFields_consistent0 : ∀ p ∈ emptyFields, fieldConsistent 0 p.2 := by decide

set_option maxRecDepth 10000 in
theorem emptyFields_keys : keysOf emptyFields = keysOf FIELD_STATUS := by decide

theorem merge_fields_right_empty (fields : List (String × FieldStats)) (rc : Nat)
    (hk : keysOf fields = keysOf FIELD_STATUS)
    (hsh : ∀ p ∈ fields, FieldShape p.1 p.2)
    (hc : ∀ p ∈ fields, fieldConsistent rc p.2)
    (hsc : ∀ p ∈ fields, ∀ q ∈ p.2.subfields.getD [], subConsistent rc q.2) :
    merge_fields fields emptyFields = fields := by
  have hshe : FieldsShape emptyFields := create_empty_stats_shape.1
  have hT := mergeT_eq fields emptyFields (keysOf FIELD_STATUS) rc 0 hk emptyFields_keys
    FIELD_keys_ne_nil hc emptyFields_consistent0
  rw [merge_fields_eq fields emptyFields (keysOf FIELD_STATUS) hk emptyFields_keys
    FIELD_keys_ne_nil, hT]
  have hndF : (keysOf FIELD_STATUS).Nodup := by decide
  have hcong : ∀ k ∈ keysOf FIELD_STATUS,
      (k, mergeFieldOne (((rc + 0 : Nat) : Nat) : Int)
        (assocGet fields k) (assocGet emptyFields k)) =
      (k, (assocGet fields k).getD ⟨0, 0, "", 0, 0, none⟩) := by
    intro k hkk
    obtain ⟨fsk, hfsk⟩ := Option.isSome_iff_exists.mp
      (assocGet_isSome_of_mem_keys (show k ∈ keysOf fields by rw [hk]; exact hkk))
    obtain ⟨efsk, hefsk⟩ := Option.isSome_iff_exists.mp
      (assocGet_isSome_of_mem_keys (show k ∈ keysOf emptyFields by
        rw [emptyFields_keys]; exact hkk))
    rw [hfsk, hefsk]
    have h1 : FieldShape k fsk := hsh (k, fsk) (assocGet_mem hfsk)
    have h2 : FieldShape k efsk := hshe.2 (k, efsk) (assocGet_mem hefsk)
    have h3 := emptyFields_zero (k, efsk) (assocGet_mem hefsk)
    have h4 : fieldConsistent rc fsk := hc (k, fsk) (assocGet_mem hfsk)
    have h5 := hsc (k, fsk) (assocGet_mem hfsk)
    have hrc : (((rc + 0 : Nat) : Nat) : Int) = ((rc : Nat) : Int) := by norm_num
    rw [hrc, mergeFieldOne_right_zero rc k fsk efsk h1 h2 h3 h4 h5]
    rfl
  rw [List.map_congr_left hcong, ← hk, keys_map_get_self _ fields (by rw [hk]; exact hndF)]

theorem mergeRTOne_right_empty (trts : List (String × TreeStats)) (rt : String)
    (tt : TreeStats) (htt : assocGet trts rt = some tt) (hrt : rt ∈ resourceTypeGeneralVals)
    (hshT : TreeShape tt) (hfcT : treeFullConsistent tt) :
    mergeRTOne trts create_empty_stats.resourceTypes rt = tt := by
  have het : assocGet create_empty_stats.resourceTypes rt =
      some ⟨0, emptyFields, emptyCategories⟩ := by
    show assocGet (resourceTypeGeneralVals.map
      (fun rt => (rt, (⟨0, emptyFields, emptyCategories⟩ : TreeStats)))) rt = _
    exact assocGet_keys_map _ resourceTypeGeneralVals rt hrt
  obtain ⟨c0, f0, cat0⟩ := tt
  have hmf0 : merge_fields f0 emptyFields = f0 :=
    merge_fields_right_empty f0 c0 hshT.1 hshT.2 (fun p hp => hfcT.1 p hp)
      (fun p hp => hfcT.2.1 p hp)
  simp only [mergeRTOne, htt, het, Option.map_some', Option.getD_some, TreeStats.mk.injEq]
  refine ⟨by simp, by simpa using hmf0, ?_⟩
  rw [show merge_fields f0 emptyFields = f0 from hmf0, Nat.add_zero]
  exact hfcT.2.2.symm

theorem merge_stats_right_empty (t : Stats)
    (hsh : StatsShape t) (hfc : statsFullConsistent t) :
    merge_stats t create_empty_stats = t := by
  obtain ⟨⟨tc, tf, tcat⟩, trts⟩ := t
  have hshS : FieldsShape tf := hsh.1
  have hshK : keysOf trts = resourceTypeGeneralVals := hsh.2.1
  have hshR : ∀ p ∈ trts, TreeShape p.2 := hsh.2.2
  have hfcS : treeFullConsistent ⟨tc, tf, tcat⟩ := hfc.1
  have hfcR : ∀ p ∈ trts, treeFullConsistent p.2 := hfc.2
  have hmf : merge_fields tf emptyFields = tf :=
    merge_fields_right_empty tf tc hshS.1 hshS.2 (fun p hp => hfcS.1 p hp)
      (fun p hp => hfcS.2.1 p hp)
  show (⟨⟨tc + 0, merge_fields tf emptyFields,
      calculate_category_metrics (merge_fields tf emptyFields) (tc + 0)⟩,
    (unionKeys (keysOf trts) (keysOf create_empty_stats.resourceTypes)).map
      (fun rt => (rt, mergeRTOne trts create_empty_stats.resourceTypes rt))⟩ : Stats) =
    (⟨⟨tc, tf, tcat⟩, trts⟩ : Stats)
  simp only [Stats.mk.injEq, TreeStats.mk.injEq]
  refine ⟨⟨rfl, hmf, ?_⟩, ?_⟩
  · rw [hmf]
    exact hfcS.2.2.symm
  · rw [show keysOf create_empty_stats.resourceTypes = resourceTypeGeneralVals from rfl,
      hshK, unionKeys_self]
    have hcong : ∀ rt ∈ resourceTypeGeneralVals,
        (rt, mergeRTOne trts create_empty_stats.resourceTypes rt) =
        (rt, (assocGet trts rt).getD ⟨0, [], emptyCategories⟩) := by
      intro rt hrt
      obtain ⟨tt, htt⟩ := Option.isSome_iff_exists.mp
        (assocGet_isSome_of_mem_keys (show rt ∈ keysOf trts by rw [hshK]; exact hrt))
      have hshT : TreeShape tt := hshR (rt, tt) (assocGet_mem htt)
      have hfcT : treeFullConsistent tt := hfcR (rt, tt) (assocGet_mem htt)
      rw [mergeRTOne_right_empty trts rt tt htt hrt hshT hfcT, htt]
      rfl
    rw [List.map_congr_left hcong, ← hshK,
        keys_map_get_self _ trts (by rw [hshK]; decide)]

/-- C8 (counterexample): `staleTree` is produced by the factory followed
by two successful record updates, yet merging it with a fresh empty tree
is not the identity: the merge recomputes the stale
`creators.nameType` subfield `missing` against the merged record count
(`1` instead of the stale `0`), so the result differs from the input. -/
theorem C8_counterexample :
    recordsOk create_empty_stats [staleRecordA, staleRecordB] = true ∧
    (subStatOf staleTree "creators" "nameType").map (fun ss => ss.missing) = some 0 ∧
    (subStatOf (merge_stats staleTree create_empty_stats) "creators" "nameType").map
      (fun ss => ss.missing) = some 1 ∧
    merge_stats staleTree create_empty_stats ≠ staleTree := by
  refine ⟨by decide, by decide, by decide, ?_⟩
  intro h
  have h1 : (subStatOf (merge_stats staleTree create_empty_stats) "creators" "nameType").map
      (fun ss => ss.missing) = some 1 := by decide
  rw [h] at h1
  rw [show (subStatOf staleTree "creators" "nameType").map (fun ss => ss.missing) =
      some 0 from by decide] at h1
  cases h1

/-- C8 (amended): merging with a freshly created empty tree is the
identity on every schema-shaped, fully consistent tree — in particular
on the factory tree and on any `merge_stats` output.  It is not the
identity on every update-produced tree: a tree with a stale subfield
`missing` (possible after successful updates, see the counterexample) is
repaired, not preserved, by the merge. -/
theorem C8_empty_merge_identity (t : Stats)
    (hsh : StatsShape t) (hfc : statsFullConsistent t) :
    merge_stats t create_empty_stats = t :=
  merge_stats_right_empty t hsh hfc

/-- C8 (witness): the identity applied to the factory tree itself. -/
theorem C8_empty_merge_witness :
    StatsShape create_empty_stats ∧ statsFullConsistent create_empty_stats ∧
    merge_stats create_empty_stats create_empty_stats = create_empty_stats :=
  ⟨create_empty_stats_shape, create_empty_stats_fullConsistent,
   C8_empty_merge_identity create_empty_stats create_empty_stats_shape
     create_empty_stats_fullConsistent⟩

/-! ## Claim C2: per-field merge characterization -/

theorem assocGet_keys_map_eq {α : Type} (g : String → α) :
    ∀ (K : List String) (k : String) (v : α),
      assocGet (K.map (fun k2 => (k2, g k2))) k = some v → v = g k
  | [], _, _, h => by cases h
  | k0 :: rest, k, v, h => by
    rw [List.map_cons, assocGet_cons] at h
    by_cases hk : k0 = k
    · rw [if_pos hk] at h
      have hv : g k0 = v := Option.some.inj h
      rw [← hv, hk]
    · rw [if_neg hk] at h
      exact assocGet_keys_map_eq g rest k v h

theorem mergeSubfields_getD (T : Int) (s1 s2 : Option (List (String × SubStats)))
    (sub : String) (csub : SubStats)
    (h : assocGet ((mergeSubfields T s1 s2).getD []) sub = some csub) :
    csub = mergeSubOne T (assocGet (s1.getD []) sub) (assocGet (s2.getD []) sub) := by
  cases s1 with
  | none =>
    cases s2 with
    | none => cases h
    | some subs2 =>
      exact assocGet_keys_map_eq _ _ sub csub h
  | some subs1 =>
    cases s2 with
    | none => exact assocGet_keys_map_eq _ _ sub csub h
    | some subs2 => exact assocGet_keys_map_eq _ _ sub csub h

theorem mergeValsOpt_getD (w1 w2 : Option (List (String × Nat))) (v : String) (n : Nat)
    (h : assocGet ((mergeValsOpt w1 w2).getD []) v = some n) :
    n = ((assocGet (w1.getD []) v).getD 0) + ((assocGet (w2.getD []) v).getD 0) := by
  cases w1 with
  | none =>
    cases w2 with
    | none => cases h
    | some v2 => exact assocGet_keys_map_eq _ _ v n h
  | some v1 =>
    cases w2 with
    | none => exact assocGet_keys_map_eq _ _ v n h
    | some v2 => exact assocGet_keys_map_eq _ _ v n h

/-- C2: for schema-shaped, field-consistent trees `a` and `b`,
`merge_stats` returns the summed record count, and for every field name
in the union of the two field-key sets the merged FieldStats has summed
`count` and `instances`, `fieldStatus` from whichever side defines it,
`missing` equal to the merged record count minus the merged count, and
`completeness` recomputed against the merged record count; every merged
subfield entry carries summed `count`/`instances`, and every merged
enumerated-value counter is the sum of the two sides' counters at that
value. -/
theorem C2_merge_per_field (a b : Stats)
    (hsa : StatsShape a) (hsb : StatsShape b)
    (hca : statsConsistent a) (hcb : statsConsistent b) :
    (merge_stats a b).summary.count = a.summary.count + b.summary.count ∧
    ∀ k ∈ unionKeys (keysOf a.summary.fields) (keysOf b.summary.fields),
      ∃ mfs, assocGet (merge_stats a b).summary.fields k = some mfs ∧
        mfs.count = ((assocGet a.summary.fields k).map (fun fs => fs.count)).getD 0 +
          ((assocGet b.summary.fields k).map (fun fs => fs.count)).getD 0 ∧
        mfs.instances =
          ((assocGet a.summary.fields k).map (fun fs => fs.instances)).getD 0 +
          ((assocGet b.summary.fields k).map (fun fs => fs.instances)).getD 0 ∧
        mfs.fieldStatus = mergeStatus (assocGet a.summary.fields k)
          (assocGet b.summary.fields k) ∧
        mfs.missing = ((a.summary.count + b.summary.count : Nat) : Int) - (mfs.count : Int) ∧
        mfs.completeness = (if 0 < a.summary.count + b.summary.count then
          (mfs.count : Rat) / ((a.summary.count + b.summary.count : Nat) : Rat) else 0) ∧
        ∀ sub csub, assocGet (mfs.subfields.getD []) sub = some csub →
          csub.count = ((subAt a.summary.fields k sub).map (fun ss => ss.count)).getD 0 +
            ((subAt b.summary.fields k sub).map (fun ss => ss.count)).getD 0 ∧
          csub.instances =
            ((subAt a.summary.fields k sub).map (fun ss => ss.instances)).getD 0 +
            ((subAt b.summary.fields k sub).map (fun ss => ss.instances)).getD 0 ∧
          ∀ v n, assocGet (csub.values.getD []) v = some n →
            n = ((assocGet (valsAt a.summary.fields k sub) v).getD 0) +
              ((assocGet (valsAt b.summary.fields k sub) v).getD 0) := by
  constructor
  · rfl
  · intro k hk
    have hksch : k ∈ keysOf FIELD_STATUS := by
      rw [hsa.1.1, hsb.1.1, unionKeys_self] at hk
      exact hk
    have hmz : (merge_stats a b).summary.fields =
        merge_fields a.summary.fields b.summary.fields := rfl
    have hT := mergeT_eq a.summary.fields b.summary.fields (keysOf FIELD_STATUS)
      a.summary.count b.summary.count hsa.1.1 hsb.1.1 FIELD_keys_ne_nil hca.1 hcb.1
    have hlook := merge_fields_lookup a.summary.fields b.summary.fields
      (keysOf FIELD_STATUS) hsa.1.1 hsb.1.1 FIELD_keys_ne_nil hksch
    rw [hT] at hlook
    refine ⟨mergeFieldOne ((a.summary.count + b.summary.count : Nat) : Int)
      (assocGet a.summary.fields k) (assocGet b.summary.fields k), ?_, rfl, rfl, rfl, rfl,
      completeness_cast _ _, ?_⟩
    · rw [hmz]
      exact hlook
    · intro sub csub hsub
      have hcsub := mergeSubfields_getD _ _ _ sub csub hsub
      refine ⟨?_, ?_, ?_⟩
      · rw [hcsub]
        rfl
      · rw [hcsub]
        rfl
      · intro v n hv
        rw [hcsub] at hv
        have := mergeValsOpt_getD _ _ v n hv
        exact this

/-- C2 (witness): the per-field characterization applied to the merge of
two factory trees at the `creators` field. -/
theorem C2_merge_per_field_witness :
    StatsShape create_empty_stats ∧ statsConsistent create_empty_stats ∧
    "creators" ∈ unionKeys (keysOf create_empty_stats.summary.fields)
      (keysOf create_empty_stats.summary.fields) ∧
    ∃ mfs, assocGet (merge_stats create_empty_stats create_empty_stats).summary.fields
        "creators" = some mfs ∧
      mfs.count = ((assocGet create_empty_stats.summary.fields "creators").map
          (fun fs => fs.count)).getD 0 +
        ((assocGet create_empty_stats.summary.fields "creators").map
          (fun fs => fs.count)).getD 0 := by
  refine ⟨create_empty_stats_shape, create_empty_stats_consistent, by decide, ?_⟩
  obtain ⟨mfs, h1, h2, _⟩ := (C2_merge_per_field create_empty_stats create_empty_stats
    create_empty_stats_shape create_empty_stats_shape
    create_empty_stats_consistent create_empty_stats_consistent).2 "creators" (by decide)
  exact ⟨mfs, h1, h2⟩

/-! ## Claim C3: merge commutativity, associativity, and count additivity -/

theorem mergeValues_comm (v1 v2 : List (String × Nat)) (hk : keysOf v2 = keysOf v1) :
    mergeValues v1 v2 = mergeValues v2 v1 := by
  unfold mergeValues
  rw [hk, unionKeys_self]
  apply List.map_congr_left
  intro k hkk
  rw [Nat.add_comm]

theorem mergeValsOpt_comm (w1 w2 : Option (List (String × Nat)))
    (hvk : Option.map keysOf w2 = Option.map keysOf w1) :
    mergeValsOpt w1 w2 = mergeValsOpt w2 w1 := by
  cases w1 with
  | none =>
    cases w2 with
    | none => rfl
    | some v2 => simp at hvk
  | some v1 =>
    cases w2 with
    | none => simp at hvk
    | some v2 =>
      show some (mergeValues v1 v2) = some (mergeValues v2 v1)
      rw [mergeValues_comm v1 v2 (by simpa using hvk)]

theorem mergeSubOne_comm (T : Int) (ss1 ss2 : SubStats)
    (hvk : Option.map keysOf ss2.values = Option.map keysOf ss1.values) :
    mergeSubOne T (some ss1) (some ss2) = mergeSubOne T (some ss2) (some ss1) := by
  unfold mergeSubOne
  simp only [Option.map_some', Option.getD_some, Option.some_bind, SubStats.mk.injEq]
  refine ⟨Nat.add_comm _ _, Nat.add_comm _ _, ?_, ?_, mergeValsOpt_comm _ _ hvk⟩
  · rw [Nat.add_comm ss1.count ss2.count]
  · rw [Nat.add_comm ss1.count ss2.count]

theorem mergeSubfields_comm (T : Int) (name : String) (subs1 subs2 : SubMap)
    (hk1 : keysOf subs1 = (cfgSubKeys name).getD [])
    (hk2 : keysOf subs2 = (cfgSubKeys name).getD [])
    (hv1 : ∀ q ∈ subs1, Option.map keysOf q.2.values = (cfgOfSub name q.1).bind cfgValKeys)
    (hv2 : ∀ q ∈ subs2, Option.map keysOf q.2.values = (cfgOfSub name q.1).bind cfgValKeys) :
    mergeSubfields T (some subs1) (some subs2) = mergeSubfields T (some subs2) (some subs1) := by
  show some ((unionKeys (keysOf subs1) (keysOf subs2)).map
      (fun k => (k, mergeSubOne T (assocGet subs1 k) (assocGet subs2 k)))) =
    some ((unionKeys (keysOf subs2) (keysOf subs1)).map
      (fun k => (k, mergeSubOne T (assocGet subs2 k) (assocGet subs1 k))))
  rw [hk1, hk2, unionKeys_self]
  refine congrArg some (List.map_congr_left ?_)
  intro sub hsub
  obtain ⟨ss1, hss1⟩ := Option.isSome_iff_exists.mp
    (assocGet_isSome_of_mem_keys (show sub ∈ keysOf subs1 by rw [hk1]; exact hsub))
  obtain ⟨ss2, hss2⟩ := Option.isSome_iff_exists.mp
    (assocGet_isSome_of_mem_keys (show sub ∈ keysOf subs2 by rw [hk2]; exact hsub))
  rw [hss1, hss2]
  have hv1s := hv1 (sub, ss1) (assocGet_mem hss1)
  have hv2s := hv2 (sub, ss2) (assocGet_mem hss2)
  rw [mergeSubOne_comm T ss1 ss2 (hv2s.trans hv1s.symm)]

theorem mergeFieldOne_comm (T : Int) (name : String) (fs1 fs2 : FieldStats)
    (h1 : FieldShape name fs1) (h2 : FieldShape name fs2) :
    mergeFieldOne T (some fs1) (some fs2) = mergeFieldOne T (some fs2) (some fs1) := by
  have hsubs : mergeSubfields T fs1.subfields fs2.subfields =
      mergeSubfields T fs2.subfields fs1.subfields := by
    cases hm1 : fs1.subfields with
    | none =>
      have hm2 : fs2.subfields = none := by
        have h := h2.2.1.trans h1.2.1.symm
        rw [hm1] at h
        simpa using h
      rw [hm2]
    | some subs1 =>
      cases hm2 : fs2.subfields with
      | none =>
        have h := h2.2.1.trans h1.2.1.symm
        rw [hm1, hm2] at h
        simp at h
      | some subs2 =>
        have hk1 : keysOf subs1 = (cfgSubKeys name).getD [] := by
          have h := h1.2.1
          rw [hm1] at h
          rw [← h]
          rfl
        have hk2 : keysOf subs2 = (cfgSubKeys name).getD [] := by
          have h := h2.2.1
          rw [hm2] at h
          rw [← h]
          rfl
        exact mergeSubfields_comm T name subs1 subs2 hk1 hk2
          (fun q hq => h1.2.2 q (by rw [hm1]; simpa using hq))
          (fun q hq => h2.2.2 q (by rw [hm2]; simpa using hq))
  unfold mergeFieldOne
  simp only [Option.map_some', Option.getD_some, Option.some_bind, FieldStats.mk.injEq]
  refine ⟨Nat.add_comm _ _, Nat.add_comm _ _, ?_, ?_, ?_, hsubs⟩
  · show fs1.fieldStatus = fs2.fieldStatus
    rw [h1.1, h2.1]
  · rw [Nat.add_comm fs1.count fs2.count]
  · rw [Nat.add_comm fs1.count fs2.count]

theorem mergeT_comm (f1 f2 : List (String × FieldStats)) (K : List String) :
    mergeT f1 f2 K = mergeT f2 f1 K := by
  unfold mergeT
  congr 1
  apply List.map_congr_left
  intro k hk
  omega

theorem merge_fields_comm (f1 f2 : List (String × FieldStats))
    (hsh1 : FieldsShape f1) (hsh2 : FieldsShape f2) :
    merge_fields f1 f2 = merge_fields f2 f1 := by
  rw [merge_fields_eq f1 f2 (keysOf FIELD_STATUS) hsh1.1 hsh2.1 FIELD_keys_ne_nil,
      merge_fields_eq f2 f1 (keysOf FIELD_STATUS) hsh2.1 hsh1.1 FIELD_keys_ne_nil,
      mergeT_comm f2 f1]
  apply List.map_congr_left
  intro k hk
  obtain ⟨fs1, hg1⟩ := Option.isSome_iff_exists.mp
    (assocGet_isSome_of_mem_keys (show k ∈ keysOf f1 by rw [hsh1.1]; exact hk))
  obtain ⟨fs2, hg2⟩ := Option.isSome_iff_exists.mp
    (assocGet_isSome_of_mem_keys (show k ∈ keysOf f2 by rw [hsh2.1]; exact hk))
  rw [hg1, hg2, mergeFieldOne_comm _ k fs1 fs2
    (hsh1.2 (k, fs1) (assocGet_mem hg1)) (hsh2.2 (k, fs2) (assocGet_mem hg2))]

theorem mergeRTOne_comm (rts1 rts2 : List (String × TreeStats)) (rt : String)
    (hk1 : keysOf rts1 = resourceTypeGeneralVals)
    (hk2 : keysOf rts2 = resourceTypeGeneralVals)
    (hrt : rt ∈ resourceTypeGeneralVals)
    (hsh1 : ∀ p ∈ rts1, TreeShape p.2) (hsh2 : ∀ p ∈ rts2, TreeShape p.2) :
    mergeRTOne rts1 rts2 rt = mergeRTOne rts2 rts1 rt := by
  obtain ⟨t1, ht1⟩ := Option.isSome_iff_exists.mp
    (assocGet_isSome_of_mem_keys (show rt ∈ keysOf rts1 by rw [hk1]; exact hrt))
  obtain ⟨t2, ht2⟩ := Option.isSome_iff_exists.mp
    (assocGet_isSome_of_mem_keys (show rt ∈ keysOf rts2 by rw [hk2]; exact hrt))
  have hmf : merge_fields t1.fields t2.fields = merge_fields t2.fields t1.fields :=
    merge_fields_comm _ _ (hsh1 (rt, t1) (assocGet_mem ht1)) (hsh2 (rt, t2) (assocGet_mem ht2))
  simp only [mergeRTOne, ht1, ht2, Option.map_some', Option.getD_some, TreeStats.mk.injEq]
  refine ⟨Nat.add_comm _ _, hmf, ?_⟩
  rw [hmf, Nat.add_comm t1.count t2.count]

theorem merge_stats_comm (a b : Stats) (hsa : StatsShape a) (hsb : StatsShape b) :
    merge_stats a b = merge_stats b a := by
  have hmf : merge_fields a.summary.fields b.summary.fields =
      merge_fields b.summary.fields a.summary.fields :=
    merge_fields_comm _ _ hsa.1 hsb.1
  show (⟨⟨a.summary.count + b.summary.count,
      merge_fields a.summary.fields b.summary.fields,
      calculate_category_metrics (merge_fields a.summary.fields b.summary.fields)
        (a.summary.count + b.summary.count)⟩,
    (unionKeys (keysOf a.resourceTypes) (keysOf b.resourceTypes)).map
      (fun rt => (rt, mergeRTOne a.resourceTypes b.resourceTypes rt))⟩ : Stats) =
    (⟨⟨b.summary.count + a.summary.count,
      merge_fields b.summary.fields a.summary.fields,
      calculate_category_metrics (merge_fields b.summary.fields a.summary.fields)
        (b.summary.count + a.summary.count)⟩,
    (unionKeys (keysOf b.resourceTypes) (keysOf a.resourceTypes)).map
      (fun rt => (rt, mergeRTOne b.resourceTypes a.resourceTypes rt))⟩ : Stats)
  simp only [Stats.mk.injEq, TreeStats.mk.injEq]
  refine ⟨⟨Nat.add_comm _ _, hmf, ?_⟩, ?_⟩
  · rw [hmf, Nat.add_comm a.summary.count b.summary.count]
  · rw [hsa.2.1, hsb.2.1, unionKeys_self]
    apply List.map_congr_left
    intro rt hrt
    rw [mergeRTOne_comm a.resourceTypes b.resourceTypes rt hsa.2.1 hsb.2.1 hrt
      hsa.2.2 hsb.2.2]

theorem mergeValues_keys_self (v1 v2 : List (String × Nat)) (hk : keysOf v2 = keysOf v1) :
    keysOf (mergeValues v1 v2) = keysOf v1 := by
  unfold mergeValues
  rw [hk, unionKeys_self]
  exact keysOf_keys_map _ _

theorem mergeValues_lookup_self (v1 v2 : List (String × Nat)) (hk : keysOf v2 = keysOf v1)
    (k : String) (hkk : k ∈ keysOf v1) :
    assocGet (mergeValues v1 v2) k =
      some (((assocGet v1 k).getD 0) + ((assocGet v2 k).getD 0)) := by
  unfold mergeValues
  rw [hk, unionKeys_self]
  exact assocGet_keys_map _ _ k hkk

theorem mergeValues_assoc (v1 v2 v3 : List (String × Nat))
    (hk2 : keysOf v2 = keysOf v1) (hk3 : keysOf v3 = keysOf v1) :
    mergeValues (mergeValues v1 v2) v3 = mergeValues v1 (mergeValues v2 v3) := by
  have h12k := mergeValues_keys_self v1 v2 hk2
  have h23k := mergeValues_keys_self v2 v3 (hk3.trans hk2.symm)
  show (unionKeys (keysOf (mergeValues v1 v2)) (keysOf v3)).map
      (fun k => (k, ((assocGet (mergeValues v1 v2) k).getD 0) + ((assocGet v3 k).getD 0))) =
    (unionKeys (keysOf v1) (keysOf (mergeValues v2 v3))).map
      (fun k => (k, ((assocGet v1 k).getD 0) + ((assocGet (mergeValues v2 v3) k).getD 0)))
  rw [h12k, h23k, hk2, hk3, unionKeys_self]
  apply List.map_congr_left
  intro k hkk
  rw [mergeValues_lookup_self v1 v2 hk2 k hkk,
      mergeValues_lookup_self v2 v3 (hk3.trans hk2.symm) k (by rw [hk2]; exact hkk)]
  simp only [Option.getD_some]
  rw [Nat.add_assoc]

theorem mergeValsOpt_assoc (w1 w2 w3 : Option (List (String × Nat)))
    (hk2 : Option.map keysOf w2 = Option.map keysOf w1)
    (hk3 : Option.map keysOf w3 = Option.map keysOf w1) :
    mergeValsOpt (mergeValsOpt w1 w2) w3 = mergeValsOpt w1 (mergeValsOpt w2 w3) := by
  cases w1 with
  | none =>
    have h2 : w2 = none := by simpa using hk2
    have h3 : w3 = none := by simpa using hk3
    subst h2
    subst h3
    rfl
  | some v1 =>
    cases w2 with
    | none => simp at hk2
    | some v2 =>
      cases w3 with
      | none => simp at hk3
      | some v3 =>
        have hkk2 : keysOf v2 = keysOf v1 := by simpa using hk2
        have hkk3 : keysOf v3 = keysOf v1 := by simpa using hk3
        show some (mergeValues (mergeValues v1 v2) v3) =
          some (mergeValues v1 (mergeValues v2 v3))
        rw [mergeValues_assoc v1 v2 v3 hkk2 hkk3]

theorem mergeSubOne_assoc (rc1 rc2 rc3 : Nat) (ss1 ss2 ss3 : SubStats)
    (hk2 : Option.map keysOf ss2.values = Option.map keysOf ss1.values)
    (hk3 : Option.map keysOf ss3.values = Option.map keysOf ss1.values) :
    mergeSubOne (((rc1 + rc2) + rc3 : Nat) : Int)
      (some (mergeSubOne ((rc1 + rc2 : Nat) : Int) (some ss1) (some ss2))) (some ss3) =
    mergeSubOne ((rc1 + (rc2 + rc3) : Nat) : Int)
      (some ss1) (some (mergeSubOne ((rc2 + rc3 : Nat) : Int) (some ss2) (some ss3))) := by
  unfold mergeSubOne
  simp only [Option.map_some', Option.getD_some, Option.some_bind, SubStats.mk.injEq]
  refine ⟨Nat.add_assoc _ _ _, Nat.add_assoc _ _ _, ?_, ?_, ?_⟩
  · rw [Nat.add_assoc rc1 rc2 rc3, Nat.add_assoc ss1.count ss2.count ss3.count]
  · rw [Nat.add_assoc rc1 rc2 rc3, Nat.add_assoc ss1.count ss2.count ss3.count]
  · exact mergeValsOpt_assoc _ _ _ hk2 hk3

theorem mergeSubfields_assoc (rc1 rc2 rc3 : Nat) (name : String)
    (s1 s2 s3 : Option (List (String × SubStats)))
    (h1k : Option.map keysOf s1 = cfgSubKeys name)
    (h2k : Option.map keysOf s2 = cfgSubKeys name)
    (h3k : Option.map keysOf s3 = cfgSubKeys name)
    (hv1 : ∀ q ∈ s1.getD [], Option.map keysOf q.2.values = (cfgOfSub name q.1).bind cfgValKeys)
    (hv2 : ∀ q ∈ s2.getD [], Option.map keysOf q.2.values = (cfgOfSub name q.1).bind cfgValKeys)
    (hv3 : ∀ q ∈ s3.getD [], Option.map keysOf q.2.values = (cfgOfSub name q.1).bind cfgValKeys) :
    mergeSubfields (((rc1 + rc2) + rc3 : Nat) : Int)
      (mergeSubfields ((rc1 + rc2 : Nat) : Int) s1 s2) s3 =
    mergeSubfields ((rc1 + (rc2 + rc3) : Nat) : Int)
      s1 (mergeSubfields ((rc2 + rc3 : Nat) : Int) s2 s3) := by
  cases s1 with
  | none =>
    have h2 : s2 = none := by
      have h := h2k.trans h1k.symm
      simpa using h
    have h3 : s3 = none := by
      have h := h3k.trans h1k.symm
      simpa using h
    subst h2
    subst h3
    rfl
  | some subs1 =>
    cases s2 with
    | none =>
      have h := h2k.trans h1k.symm
      simp at h
    | some subs2 =>
      cases s3 with
      | none =>
        have h := h3k.trans h1k.symm
        simp at h
      | some subs3 =>
        have hk21 : keysOf subs2 = keysOf subs1 := by
          have h := h2k.trans h1k.symm
          simpa using h
        have hk31 : keysOf subs3 = keysOf subs1 := by
          have h := h3k.trans h1k.symm
          simpa using h
        have hv1g : ∀ q ∈ subs1, Option.map keysOf q.2.values =
            (cfgOfSub name q.1).bind cfgValKeys := fun q hq => hv1 q (by simpa using hq)
        have hv2g : ∀ q ∈ subs2, Option.map keysOf q.2.values =
            (cfgOfSub name q.1).bind cfgValKeys := fun q hq => hv2 q (by simpa using hq)
        have hv3g : ∀ q ∈ subs3, Option.map keysOf q.2.values =
            (cfgOfSub name q.1).bind cfgValKeys := fun q hq => hv3 q (by simpa using hq)
        have hinner12 : mergeSubfields ((rc1 + rc2 : Nat) : Int) (some subs1) (some subs2) =
            some ((keysOf subs1).map (fun k => (k, mergeSubOne ((rc1 + rc2 : Nat) : Int)
              (assocGet subs1 k) (assocGet subs2 k)))) := by
          show some ((unionKeys (keysOf subs1) (keysOf subs2)).map _) = _
          rw [hk21, unionKeys_self]
          rfl
        have hinner23 : mergeSubfields ((rc2 + rc3 : Nat) : Int) (some subs2) (some subs3) =
            some ((keysOf subs1).map (fun k => (k, mergeSubOne ((rc2 + rc3 : Nat) : Int)
              (assocGet subs2 k) (assocGet subs3 k)))) := by
          show some ((unionKeys (keysOf subs2) (keysOf subs3)).map _) = _
          rw [hk21, hk31, unionKeys_self]
          rfl
        rw [hinner12, hinner23]
        show some ((unionKeys (keysOf ((keysOf subs1).map
            (fun k => (k, mergeSubOne ((rc1 + rc2 : Nat) : Int)
              (assocGet subs1 k) (assocGet subs2 k))))) (keysOf subs3)).map
          (fun k => (k, mergeSubOne (((rc1 + rc2) + rc3 : Nat) : Int)
            (assocGet ((keysOf subs1).map (fun k2 => (k2, mergeSubOne ((rc1 + rc2 : Nat) : Int)
              (assocGet subs1 k2) (assocGet subs2 k2)))) k)
            (assocGet subs3 k)))) =
          some ((unionKeys (keysOf subs1) (keysOf ((keysOf subs1).map
            (fun k => (k, mergeSubOne ((rc2 + rc3 : Nat) : Int)
              (assocGet subs2 k) (assocGet subs3 k)))))).map
          (fun k => (k, mergeSubOne ((rc1 + (rc2 + rc3) : Nat) : Int)
            (assocGet subs1 k)
            (assocGet ((keysOf subs1).map (fun k2 => (k2, mergeSubOne ((rc2 + rc3 : Nat) : Int)
              (assocGet subs2 k2) (assocGet subs3 k2)))) k))))
        rw [keysOf_keys_map (fun k2 => mergeSubOne ((rc1 + rc2 : Nat) : Int)
              (assocGet subs1 k2) (assocGet subs2 k2)) (keysOf subs1),
            keysOf_keys_map (fun k2 => mergeSubOne ((rc2 + rc3 : Nat) : Int)
              (assocGet subs2 k2) (assocGet subs3 k2)) (keysOf subs1),
            hk31, unionKeys_self]
        refine congrArg some (List.map_congr_left ?_)
        intro sub hsub
        rw [assocGet_keys_map (fun k2 => mergeSubOne ((rc1 + rc2 : Nat) : Int)
              (assocGet subs1 k2) (assocGet subs2 k2)) (keysOf subs1) sub hsub,
            assocGet_keys_map (fun k2 => mergeSubOne ((rc2 + rc3 : Nat) : Int)
              (assocGet subs2 k2) (assocGet subs3 k2)) (keysOf subs1) sub hsub]
        obtain ⟨ss1, hss1⟩ := Option.isSome_iff_exists.mp (assocGet_isSome_of_mem_keys hsub)
        obtain ⟨ss2, hss2⟩ := Option.isSome_iff_exists.mp
          (assocGet_isSome_of_mem_keys (show sub ∈ keysOf subs2 by rw [hk21]; exact hsub))
        obtain ⟨ss3, hss3⟩ := Option.isSome_iff_exists.mp
          (assocGet_isSome_of_mem_keys (show sub ∈ keysOf subs3 by rw [hk31]; exact hsub))
        rw [hss1, hss2, hss3]
        have hq1 := hv1g (sub, ss1) (assocGet_mem hss1)
        have hq2 := hv2g (sub, ss2) (assocGet_mem hss2)
        have hq3 := hv3g (sub, ss3) (assocGet_mem hss3)
        rw [mergeSubOne_assoc rc1 rc2 rc3 ss1 ss2 ss3
          (hq2.trans hq1.symm) (hq3.trans hq1.symm)]

theorem mergeFieldOne_assoc (rc1 rc2 rc3 : Nat) (name : String) (fs1 fs2 fs3 : FieldStats)
    (h1 : FieldShape name fs1) (h2 : FieldShape name fs2) (h3 : FieldShape name fs3) :
    mergeFieldOne (((rc1 + rc2) + rc3 : Nat) : Int)
      (some (mergeFieldOne ((rc1 + rc2 : Nat) : Int) (some fs1) (some fs2))) (some fs3) =
    mergeFieldOne ((rc1 + (rc2 + rc3) : Nat) : Int)
      (some fs1) (some (mergeFieldOne ((rc2 + rc3 : Nat) : Int) (some fs2) (some fs3))) := by
  have hsubs := mergeSubfields_assoc rc1 rc2 rc3 name fs1.subfields fs2.subfields fs3.subfields
    h1.2.1 h2.2.1 h3.2.1 h1.2.2 h2.2.2 h3.2.2
  unfold mergeFieldOne
  simp only [Option.map_some', Option.getD_some, Option.some_bind, FieldStats.mk.injEq]
  refine ⟨Nat.add_assoc _ _ _, Nat.add_assoc _ _ _, rfl, ?_, ?_, hsubs⟩
  · rw [Nat.add_assoc rc1 rc2 rc3, Nat.add_assoc fs1.count fs2.count fs3.count]
  · rw [Nat.add_assoc rc1 rc2 rc3, Nat.add_assoc fs1.count fs2.count fs3.count]

theorem merge_fields_assoc (f1 f2 f3 : List (String × FieldStats)) (rc1 rc2 rc3 : Nat)
    (hsh1 : FieldsShape f1) (hsh2 : FieldsShape f2) (hsh3 : FieldsShape f3)
    (hc1 : ∀ p ∈ f1, fieldConsistent rc1 p.2) (hc2 : ∀ p ∈ f2, fieldConsistent rc2 p.2)
    (hc3 : ∀ p ∈ f3, fieldConsistent rc3 p.2) :
    merge_fields (merge_fields f1 f2) f3 = merge_fields f1 (merge_fields f2 f3) := by
  have hT12 := mergeT_eq f1 f2 (keysOf FIELD_STATUS) rc1 rc2 hsh1.1 hsh2.1
    FIELD_keys_ne_nil hc1 hc2
  have hT23 := mergeT_eq f2 f3 (keysOf FIELD_STATUS) rc2 rc3 hsh2.1 hsh3.1
    FIELD_keys_ne_nil hc2 hc3
  have h12keys : keysOf (merge_fields f1 f2) = keysOf FIELD_STATUS :=
    merge_fields_keys f1 f2 (keysOf FIELD_STATUS) hsh1.1 hsh2.1 FIELD_keys_ne_nil
  have h23keys : keysOf (merge_fields f2 f3) = keysOf FIELD_STATUS :=
    merge_fields_keys f2 f3 (keysOf FIELD_STATUS) hsh2.1 hsh3.1 FIELD_keys_ne_nil
  have h12c : ∀ p ∈ merge_fields f1 f2, fieldConsistent (rc1 + rc2) p.2 :=
    fun p hp => (merge_fields_consistent f1 f2 rc1 rc2 hsh1.1 hsh2.1 hc1 hc2 p hp).1
  have h23c : ∀ p ∈ merge_fields f2 f3, fieldConsistent (rc2 + rc3) p.2 :=
    fun p hp => (merge_fields_consistent f2 f3 rc2 rc3 hsh2.1 hsh3.1 hc2 hc3 p hp).1
  have hTL := mergeT_eq (merge_fields f1 f2) f3 (keysOf FIELD_STATUS) (rc1 + rc2) rc3
    h12keys hsh3.1 FIELD_keys_ne_nil h12c hc3
  have hTR := mergeT_eq f1 (merge_fields f2 f3) (keysOf FIELD_STATUS) rc1 (rc2 + rc3)
    hsh1.1 h23keys FIELD_keys_ne_nil hc1 h23c
  rw [merge_fields_eq (merge_fields f1 f2) f3 (keysOf FIELD_STATUS) h12keys hsh3.1
      FIELD_keys_ne_nil, hTL,
    merge_fields_eq f1 (merge_fields f2 f3) (keysOf FIELD_STATUS) hsh1.1 h23keys
      FIELD_keys_ne_nil, hTR]
  apply List.map_congr_left
  intro k hk
  have hl12 : assocGet (merge_fields f1 f2) k =
      some (mergeFieldOne ((rc1 + rc2 : Nat) : Int) (assocGet f1 k) (assocGet f2 k)) := by
    rw [merge_fields_lookup f1 f2 (keysOf FIELD_STATUS) hsh1.1 hsh2.1
      FIELD_keys_ne_nil hk, hT12]
  have hl23 : assocGet (merge_fields f2 f3) k =
      some (mergeFieldOne ((rc2 + rc3 : Nat) : Int) (assocGet f2 k) (assocGet f3 k)) := by
    rw [merge_fields_lookup f2 f3 (keysOf FIELD_STATUS) hsh2.1 hsh3.1
      FIELD_keys_ne_nil hk, hT23]
  obtain ⟨fs1, hg1⟩ := Option.isSome_iff_exists.mp
    (assocGet_isSome_of_mem_keys (show k ∈ keysOf f1 by rw [hsh1.1]; exact hk))
  obtain ⟨fs2, hg2⟩ := Option.isSome_iff_exists.mp
    (assocGet_isSome_of_mem_keys (show k ∈ keysOf f2 by rw [hsh2.1]; exact hk))
  obtain ⟨fs3, hg3⟩ := Option.isSome_iff_exists.mp
    (assocGet_isSome_of_mem_keys (show k ∈ keysOf f3 by rw [hsh3.1]; exact hk))
  rw [hl12, hl23, hg1, hg2, hg3,
    mergeFieldOne_assoc rc1 rc2 rc3 k fs1 fs2 fs3
      (hsh1.2 (k, fs1) (assocGet_mem hg1)) (hsh2.2 (k, fs2) (assocGet_mem hg2))
      (hsh3.2 (k, fs3) (assocGet_mem hg3))]

theorem merge_stats_rts_lookup (a b : Stats) (rt : String)
    (hsa : StatsShape a) (hsb : StatsShape b) (hrt : rt ∈ resourceTypeGeneralVals) :
    assocGet (merge_stats a b).resourceTypes rt =
      some (mergeRTOne a.resourceTypes b.resourceTypes rt) := by
  show assocGet ((unionKeys (keysOf a.resourceTypes) (keysOf b.resourceTypes)).map
    (fun rt2 => (rt2, mergeRTOne a.resourceTypes b.resourceTypes rt2))) rt = _
  rw [hsa.2.1, hsb.2.1, unionKeys_self]
  exact assocGet_keys_map _ _ rt hrt

theorem merge_stats_rts_keys (a b : Stats) (hsa : StatsShape a) (hsb : StatsShape b) :
    keysOf (merge_stats a b).resourceTypes = resourceTypeGeneralVals := by
  show keysOf ((unionKeys (keysOf a.resourceTypes) (keysOf b.resourceTypes)).map
    (fun rt2 => (rt2, mergeRTOne a.resourceTypes b.resourceTypes rt2))) = _
  rw [hsa.2.1, hsb.2.1, unionKeys_self]
  exact keysOf_keys_map _ _

theorem mergeRTOne_assoc (a b c : Stats) (rt : String) (hrt : rt ∈ resourceTypeGeneralVals)
    (hsa : StatsShape a) (hsb : StatsShape b) (hs3 : StatsShape c)
    (hca : statsConsistent a) (hcb : statsConsistent b) (hc3 : statsConsistent c) :
    mergeRTOne (merge_stats a b).resourceTypes c.resourceTypes rt =
      mergeRTOne a.resourceTypes (merge_stats b c).resourceTypes rt := by
  obtain ⟨t1, ht1⟩ := Option.isSome_iff_exists.mp
    (assocGet_isSome_of_mem_keys (show rt ∈ keysOf a.resourceTypes by
      rw [hsa.2.1]; exact hrt))
  obtain ⟨t2, ht2⟩ := Option.isSome_iff_exists.mp
    (assocGet_isSome_of_mem_keys (show rt ∈ keysOf b.resourceTypes by
      rw [hsb.2.1]; exact hrt))
  obtain ⟨t3, ht3⟩ := Option.isSome_iff_exists.mp
    (assocGet_isSome_of_mem_keys (show rt ∈ keysOf c.resourceTypes by
      rw [hs3.2.1]; exact hrt))
  have hab := merge_stats_rts_lookup a b rt hsa hsb hrt
  have hbc := merge_stats_rts_lookup b c rt hsb hs3 hrt
  have habv : mergeRTOne a.resourceTypes b.resourceTypes rt =
      ⟨t1.count + t2.count, merge_fields t1.fields t2.fields,
       calculate_category_metrics (merge_fields t1.fields t2.fields)
         (t1.count + t2.count)⟩ := by
    simp only [mergeRTOne, ht1, ht2, Option.map_some', Option.getD_some]
  have hbcv : mergeRTOne b.resourceTypes c.resourceTypes rt =
      ⟨t2.count + t3.count, merge_fields t2.fields t3.fields,
       calculate_category_metrics (merge_fields t2.fields t3.fields)
         (t2.count + t3.count)⟩ := by
    simp only [mergeRTOne, ht2, ht3, Option.map_some', Option.getD_some]
  have hmfa := merge_fields_assoc t1.fields t2.fields t3.fields t1.count t2.count t3.count
    (hsa.2.2 (rt, t1) (assocGet_mem ht1)) (hsb.2.2 (rt, t2) (assocGet_mem ht2))
    (hs3.2.2 (rt, t3) (assocGet_mem ht3))
    (hca.2 (rt, t1) (assocGet_mem ht1)) (hcb.2 (rt, t2) (assocGet_mem ht2))
    (hc3.2 (rt, t3) (assocGet_mem ht3))
  simp only [mergeRTOne, hab, hbc, ht1, ht2, ht3, habv, hbcv, Option.map_some',
    Option.getD_some, TreeStats.mk.injEq]
  refine ⟨Nat.add_assoc _ _ _, hmfa, ?_⟩
  rw [hmfa, Nat.add_assoc t1.count t2.count t3.count]

theorem merge_stats_assoc (a b c : Stats)
    (hsa : StatsShape a) (hsb : StatsShape b) (hs3 : StatsShape c)
    (hca : statsConsistent a) (hcb : statsConsistent b) (hc3 : statsConsistent c) :
    merge_stats (merge_stats a b) c = merge_stats a (merge_stats b c) := by
  have hmf := merge_fields_assoc a.summary.fields b.summary.fields c.summary.fields
    a.summary.count b.summary.count c.summary.count hsa.1 hsb.1 hs3.1 hca.1 hcb.1 hc3.1
  show (⟨⟨(a.summary.count + b.summary.count) + c.summary.count,
      merge_fields (merge_fields a.summary.fields b.summary.fields) c.summary.fields,
      calculate_category_metrics
        (merge_fields (merge_fields a.summary.fields b.summary.fields) c.summary.fields)
        ((a.summary.count + b.summary.count) + c.summary.count)⟩,
    (unionKeys (keysOf (merge_stats a b).resourceTypes) (keysOf c.resourceTypes)).map
      (fun rt => (rt, mergeRTOne (merge_stats a b).resourceTypes c.resourceTypes rt))⟩ :
      Stats) =
    (⟨⟨a.summary.count + (b.summary.count + c.summary.count),
      merge_fields a.summary.fields (merge_fields b.summary.fields c.summary.fields),
      calculate_category_metrics
        (merge_fields a.summary.fields (merge_fields b.summary.fields c.summary.fields))
        (a.summary.count + (b.summary.count + c.summary.count))⟩,
    (unionKeys (keysOf a.resourceTypes) (keysOf (merge_stats b c).resourceTypes)).map
      (fun rt => (rt, mergeRTOne a.resourceTypes (merge_stats b c).resourceTypes rt))⟩ :
      Stats)
  simp only [Stats.mk.injEq, TreeStats.mk.injEq]
  refine ⟨⟨Nat.add_assoc _ _ _, hmf, ?_⟩, ?_⟩
  · rw [hmf, Nat.add_assoc a.summary.count b.summary.count c.summary.count]
  · rw [merge_stats_rts_keys a b hsa hsb, merge_stats_rts_keys b c hsb hs3,
      hsa.2.1, hs3.2.1, unionKeys_self]
    apply List.map_congr_left
    intro rt hrt
    rw [mergeRTOne_assoc a b c rt hrt hsa hsb hs3 hca hcb hc3]

theorem nonListSubApply_count (T : Nat) (x : Jval) (sf : String) (fs : FieldStats) :
    (nonListSubApply T x sf fs).1.count = fs.count := by
  unfold nonListSubApply
  split
  · rfl
  next subs hsubs =>
    split
    · rfl
    next ss hss =>
      split
      next subs2 heq => rfl
      next subs2 heq => rfl

theorem nonListSubStep_count (T : Nat) (v : Jval) (sf : String) (c : SubCfg)
    (fs : FieldStats) : (nonListSubStep T v sf c fs).1.count = fs.count := by
  unfold nonListSubStep
  split
  · rfl
  next x? heq =>
    cases x? with
    | none => rfl
    | some x =>
      by_cases ht : truthy x = true
      · simp only [ht, if_true]
        cases c with
        | presence b => simpa using nonListSubApply_count T x sf fs
        | enum vals =>
          by_cases h2 : (jmem x vals).2 = true
          · by_cases h1 : (jmem x vals).1 = true
            · simpa [h1, h2] using nonListSubApply_count T x sf fs
            · simp [h1, h2]
          · simp [h2]
      · simp [ht]

theorem listSubApply_count (fieldName : String) (cfgSubs : List (String × SubCfg))
    (xs : List Jval) (T : Nat) (fs1 : FieldStats) :
    (listSubApply fieldName cfgSubs xs T fs1).1.count = fs1.count := by
  unfold listSubApply
  split
  · rfl
  next subs hsubs =>
    split
    next st heq => rfl
    next st heq => rfl

theorem update_subfield_stats_count (v : Jval) (name : String) (fs : FieldStats) (T : Nat) :
    (update_subfield_stats v name fs T).1.count = fs.count := by
  unfold update_subfield_stats
  split
  · rfl
  · split
    · rfl
    next cfg hcfg =>
      split
      next xs hxs =>
        exact listSubApply_count name cfg.subs xs T _
      next v2 hne =>
        by_cases hfr : name = "fundingReferences"
        · simp [hfr]
        · simp only [hfr, if_false]
          exact foldl_stepSeq_inv (fun fs2 : FieldStats => fs2.count = fs.count)
            (fun p fs2 => nonListSubStep T v p.1 p.2 fs2)
            (fun p fs2 hp => by
              show (nonListSubStep T v p.1 p.2 fs2).1.count = fs.count
              rw [nonListSubStep_count]
              exact hp)
            cfg.subs ({ fs with instances := fs.instances + 1 }, true) rfl

theorem update_field_stats_count (v? : Option Jval) (hs : Bool) (fs : FieldStats) :
    (update_field_stats v? hs fs).count = fs.count + (if truthyO v? then 1 else 0) := by
  unfold update_field_stats
  cases v? with
  | none => simp [truthyO]
  | some v =>
    by_cases ht : truthy v = true
    · cases v <;> simp [truthyO, ht] at ht ⊢
    · simp [truthyO, ht]

theorem updOneField_count (r : List (String × Jval)) (T : Nat) (name : String)
    (fs : FieldStats) :
    (updOneField r T name fs).1.count =
      fs.count + (if truthyO (assocGet r name) then 1 else 0) := by
  have hstep : (updOneFieldStep r T name fs).1.count =
      fs.count + (if truthyO (assocGet r name) then 1 else 0) := by
    unfold updOneFieldStep
    split
    next v heq =>
      rw [heq]
      by_cases hg : ((assocGet SUBFIELD_STATS name).isSome && truthy v) = true
      · simp only [hg, if_true]
        rw [update_subfield_stats_count, update_field_stats_count]
      · simp only [hg, Bool.false_eq_true, if_false]
        rw [update_field_stats_count]
    next heq =>
      rw [heq]
      rw [show (update_field_stats none (assocGet SUBFIELD_STATS name).isSome fs, true).1 =
          update_field_stats none (assocGet SUBFIELD_STATS name).isSome fs from rfl,
        update_field_stats_count]
  unfold updOneField
  split
  next fs2 heq2 =>
    show (recomputeField T fs2).count = _
    have h2 : (recomputeField T fs2).count = fs2.count := rfl
    rw [h2, show fs2 = (updOneFieldStep r T name fs).1 from by rw [heq2]]
    exact hstep
  next fs2 heq2 =>
    show fs2.count = _
    rw [show fs2 = (updOneFieldStep r T name fs).1 from by rw [heq2]]
    exact hstep

theorem updFields_count (r : List (String × Jval)) (T : Nat) :
    ∀ fields : List (String × FieldStats), (updFields r T fields).2 = true →
      ∀ k, ((assocGet (updFields r T fields).1 k).map (fun fs => fs.count)) =
        ((assocGet fields k).map
          (fun fs => fs.count + (if truthyO (assocGet r k) then 1 else 0)))
  | [], _, k => rfl
  | (name, fs) :: rest, hok, k => by
    cases hupd : updOneField r T name fs with
    | mk fs2 ok2 =>
      cases ok2 with
      | false =>
        simp only [updFields, hupd] at hok
        exact absurd hok (by decide)
      | true =>
        simp only [updFields, hupd] at hok ⊢
        by_cases hk : name = k
        · subst hk
          rw [assocGet_cons, if_pos rfl, assocGet_cons, if_pos rfl]
          simp only [Option.map_some']
          have hcc : fs2.count = fs.count + (if truthyO (assocGet r name) then 1 else 0) := by
            have h := updOneField_count r T name fs
            rw [hupd] at h
            exact h
          rw [hcc]
        · rw [assocGet_cons, if_neg hk, assocGet_cons, if_neg hk]
          exact updFields_count r T rest hok k

theorem updRTSection_summary (s : Stats) (r : List (String × Jval)) (t : TreeStats) :
    (updRTSection s r t).1.summary = t := by
  unfold updRTSection
  repeat' split
  all_goals rfl

theorem update_record_count (s : Stats) (r : List (String × Jval))
    (hok : (update_stats_single_record s r).2 = true) :
    (update_stats_single_record s r).1.summary.count = s.summary.count + 1 ∧
    ∀ k, ((assocGet (update_stats_single_record s r).1.summary.fields k).map
        (fun fs => fs.count)) =
      ((assocGet s.summary.fields k).map
        (fun fs => fs.count + (if truthyO (assocGet r k) then 1 else 0))) := by
  cases hupd : updFields r (s.summary.count + 1) s.summary.fields with
  | mk fields2 ok2 =>
    cases ok2 with
    | false =>
      rw [update_stats_single_record] at hok
      simp only [hupd] at hok
      exact absurd hok (by decide)
    | true =>
      have hu : update_stats_single_record s r =
          updRTSection s r ⟨s.summary.count + 1, fields2,
            calculate_category_metrics fields2 (s.summary.count + 1)⟩ := by
        rw [update_stats_single_record]
        simp only [hupd]
      have hsumm := updRTSection_summary s r ⟨s.summary.count + 1, fields2,
        calculate_category_metrics fields2 (s.summary.count + 1)⟩
      constructor
      · rw [hu, hsumm]
      · intro k
        rw [hu, hsumm]
        have h := updFields_count r (s.summary.count + 1) s.summary.fields
          (by rw [hupd]) k
        rw [hupd] at h
        exact h

theorem presenceCount_cons (r : List (String × Jval)) (rest : List (List (String × Jval)))
    (k : String) :
    presenceCount (r :: rest) k =
      (if truthyO (assocGet r k) then 1 else 0) + presenceCount rest k := by
  unfold presenceCount
  rw [List.filter_cons]
  by_cases h : truthyO (assocGet r k) = true
  · simp [h]
    omega
  · simp [h]

theorem applyRecords_count (k : String) :
    ∀ (rs : List (List (String × Jval))) (s : Stats), recordsOk s rs = true →
      (applyRecords s rs).summary.count = s.summary.count + rs.length ∧
      ((assocGet (applyRecords s rs).summary.fields k).map (fun fs => fs.count)) =
        ((assocGet s.summary.fields k).map (fun fs => fs.count + presenceCount rs k))
  | [], s, _ => by
    refine ⟨rfl, ?_⟩
    show Option.map (fun fs => fs.count) (assocGet s.summary.fields k) = _
    cases hg : assocGet s.summary.fields k with
    | none => rfl
    | some fs => simp [presenceCount]
  | r :: rest, s, hok => by
    rw [recordsOk] at hok
    have hok1 : (update_stats_single_record s r).2 = true := by
      cases h2 : (update_stats_single_record s r).2 with
      | false => rw [h2] at hok; exact absurd hok (by simp)
      | true => rfl
    have hok2 : recordsOk (update_stats_single_record s r).1 rest = true := by
      rw [hok1] at hok
      simpa using hok
    have hstep := update_record_count s r hok1
    have ih := applyRecords_count k rest (update_stats_single_record s r).1 hok2
    have happ : applyRecords s (r :: rest) =
        applyRecords (update_stats_single_record s r).1 rest := rfl
    constructor
    · rw [happ, ih.1, hstep.1]
      simp only [List.length_cons]
      omega
    · rw [happ, ih.2]
      have hcomp := hstep.2 k
      rw [presenceCount_cons]
      cases hg : assocGet s.summary.fields k with
      | none =>
        rw [hg] at hcomp
        simp only [Option.map_none'] at hcomp
        have : assocGet (update_stats_single_record s r).1.summary.fields k = none := by
          cases hg2 : assocGet (update_stats_single_record s r).1.summary.fields k with
          | none => rfl
          | some fs2 =>
            rw [hg2] at hcomp
            simp at hcomp
        rw [this]
        rfl
      | some fs =>
        rw [hg] at hcomp
        cases hg2 : assocGet (update_stats_single_record s r).1.summary.fields k with
        | none =>
          rw [hg2] at hcomp
          simp at hcomp
        | some fs2 =>
          rw [hg2] at hcomp
          simp only [Option.map_some', Option.some.injEq] at hcomp
          simp only [Option.map_some', Option.some.injEq]
          rw [hcomp]
          omega

theorem presenceCount_append (rs1 rs2 : List (List (String × Jval))) (k : String) :
    presenceCount (rs1 ++ rs2) k = presenceCount rs1 k + presenceCount rs2 k := by
  unfold presenceCount
  rw [List.filter_append, List.length_append]

theorem merge_count_additivity (rs1 rs2 : List (List (String × Jval)))
    (h1 : recordsOk create_empty_stats rs1 = true)
    (h2 : recordsOk create_empty_stats rs2 = true)
    (h12 : recordsOk create_empty_stats (rs1 ++ rs2) = true) :
    ∀ k ∈ keysOf FIELD_STATUS,
      ((assocGet (merge_stats (applyRecords create_empty_stats rs1)
          (applyRecords create_empty_stats rs2)).summary.fields k).map
        (fun fs => fs.count)) =
      ((assocGet (applyRecords create_empty_stats (rs1 ++ rs2)).summary.fields k).map
        (fun fs => fs.count)) := by
  intro k hk
  obtain ⟨efs, hefs⟩ := Option.isSome_iff_exists.mp
    (assocGet_isSome_of_mem_keys (show k ∈ keysOf emptyFields by
      rw [emptyFields_keys]; exact hk))
  have hez : efs.count = 0 := (emptyFields_zero (k, efs) (assocGet_mem hefs)).1
  have hbase : assocGet create_empty_stats.summary.fields k = some efs := hefs
  have hsh1 : StatsShape (applyRecords create_empty_stats rs1) :=
    applyRecords_shape rs1 create_empty_stats create_empty_stats_shape
  have hsh2 : StatsShape (applyRecords create_empty_stats rs2) :=
    applyRecords_shape rs2 create_empty_stats create_empty_stats_shape
  have hco1 := applyRecords_consistent rs1 create_empty_stats
    create_empty_stats_consistent h1
  have hco2 := applyRecords_consistent rs2 create_empty_stats
    create_empty_stats_consistent h2
  obtain ⟨fs1, hfs1⟩ := Option.isSome_iff_exists.mp
    (assocGet_isSome_of_mem_keys (show k ∈ keysOf
      (applyRecords create_empty_stats rs1).summary.fields by rw [hsh1.1.1]; exact hk))
  obtain ⟨fs2, hfs2⟩ := Option.isSome_iff_exists.mp
    (assocGet_isSome_of_mem_keys (show k ∈ keysOf
      (applyRecords create_empty_stats rs2).summary.fields by rw [hsh2.1.1]; exact hk))
  obtain ⟨fs12, hfs12⟩ := Option.isSome_iff_exists.mp
    (assocGet_isSome_of_mem_keys (show k ∈ keysOf
      (applyRecords create_empty_stats (rs1 ++ rs2)).summary.fields by
        rw [(applyRecords_shape (rs1 ++ rs2) create_empty_stats
          create_empty_stats_shape).1.1]
        exact hk))
  have hc1 := (applyRecords_count k rs1 create_empty_stats h1).2
  have hc2 := (applyRecords_count k rs2 create_empty_stats h2).2
  have hc12 := (applyRecords_count k (rs1 ++ rs2) create_empty_stats h12).2
  rw [hbase, hfs1] at hc1
  rw [hbase, hfs2] at hc2
  rw [hbase, hfs12] at hc12
  simp only [Option.map_some', Option.some.injEq] at hc1 hc2 hc12
  have hlook : assocGet (merge_stats (applyRecords create_empty_stats rs1)
      (applyRecords create_empty_stats rs2)).summary.fields k =
      some (mergeFieldOne
        (mergeT (applyRecords create_empty_stats rs1).summary.fields
          (applyRecords create_empty_stats rs2).summary.fields (keysOf FIELD_STATUS))
        (assocGet (applyRecords create_empty_stats rs1).summary.fields k)
        (assocGet (applyRecords create_empty_stats rs2).summary.fields k)) := by
    show assocGet (merge_fields (applyRecords create_empty_stats rs1).summary.fields
      (applyRecords create_empty_stats rs2).summary.fields) k = _
    exact merge_fields_lookup _ _ (keysOf FIELD_STATUS) hsh1.1.1 hsh2.1.1
      FIELD_keys_ne_nil hk
  rw [hlook, hfs12]
  rw [hfs1, hfs2] at hlook ⊢
  simp only [Option.map_some', Option.some.injEq]
  show fs1.count + fs2.count = fs12.count
  rw [hc1, hc2, hc12, presenceCount_append, hez]
  omega

/-- C3: merging schema-shaped trees is commutative; merging schema-shaped,
field-consistent trees is associative; and for any partition of a record
sequence into two parts that both (and whose concatenation) fold without
exceptions, every per-field count of the merged pair of partial trees
equals the count obtained by processing the whole sequence directly. -/
theorem C3_merge_determinism :
    (∀ a b : Stats, StatsShape a → StatsShape b →
      merge_stats a b = merge_stats b a) ∧
    (∀ a b c : Stats, StatsShape a → StatsShape b → StatsShape c →
      statsConsistent a → statsConsistent b → statsConsistent c →
      merge_stats (merge_stats a b) c = merge_stats a (merge_stats b c)) ∧
    (∀ rs1 rs2 : List (List (String × Jval)),
      recordsOk create_empty_stats rs1 = true →
      recordsOk create_empty_stats rs2 = true →
      recordsOk create_empty_stats (rs1 ++ rs2) = true →
      ∀ k ∈ keysOf FIELD_STATUS,
        ((assocGet (merge_stats (applyRecords create_empty_stats rs1)
            (applyRecords create_empty_stats rs2)).summary.fields k).map
          (fun fs => fs.count)) =
        ((assocGet (applyRecords create_empty_stats (rs1 ++ rs2)).summary.fields k).map
          (fun fs => fs.count))) :=
  ⟨fun a b hsa hsb => merge_stats_comm a b hsa hsb,
   fun a b c hsa hsb hsc2 hca hcb hcc2 => merge_stats_assoc a b c hsa hsb hsc2 hca hcb hcc2,
   fun rs1 rs2 h1 h2 h12 => merge_count_additivity rs1 rs2 h1 h2 h12⟩

/-- C3 (witness): count additivity instantiated at the two-record
partition `[personalRecord]` / `[titlesOnlyRecord]` at field `creators`,
and commutativity at two factory trees. -/
theorem C3_merge_determinism_witness :
    (recordsOk create_empty_stats [personalRecord] = true ∧
     recordsOk create_empty_stats [titlesOnlyRecord] = true ∧
     recordsOk create_empty_stats ([personalRecord] ++ [titlesOnlyRecord]) = true ∧
     "creators" ∈ keysOf FIELD_STATUS) ∧
    ((assocGet (merge_stats (applyRecords create_empty_stats [personalRecord])
        (applyRecords create_empty_stats [titlesOnlyRecord])).summary.fields
      "creators").map (fun fs => fs.count)) =
    ((assocGet (applyRecords create_empty_stats
        ([personalRecord] ++ [titlesOnlyRecord])).summary.fields "creators").map
      (fun fs => fs.count)) ∧
    merge_stats create_empty_stats create_empty_stats =
      merge_stats create_empty_stats create_empty_stats :=
  ⟨⟨by decide, by decide, by decide, by decide⟩,
   C3_merge_determinism.2.2 [personalRecord] [titlesOnlyRecord] (by decide) (by decide)
     (by decide) "creators" (by decide),
   C3_merge_determinism.1 create_empty_stats create_empty_stats
     create_empty_stats_shape create_empty_stats_shape⟩
